import Mathlib

/-!
# chatmachine: a per-session state-machine runtime (src/core.go)

Shallow embedding of `package chatmachine`.

* A Go `State` is an interface value.  The embedding takes a type `σ` of state
  values and a table `State σ D F` of their three methods.  A nil interface is
  `none : Option σ`; calling a method on it is the runtime's nil-dereference
  panic.
* A callback (a state method or a global hook) is user code that is handed
  `*SessionState`.  From outside the package it can act on the session only by
  calling `AddOutput`, `ChangeState`, `End`, by writing one of the exported
  fields, or by panicking.  A callback is therefore a function from the session
  it is handed to the sequence of such calls it performs (`Callback`); the
  calls after the first panicking one are dead code.
* `*SessionState` is a pointer shared by the registry and the running turn, so
  what a callback wrote before it panicked stays written.  `Run` returns the
  final contents of the session object and stores them under the key.
* `Run` also returns the list of callback invocations it made, in order
  (`Turn.trace`).  The trace is ghost data: nothing in `Run` reads it.

Callbacks that reach other sessions, re-enter `Run`, or do not terminate are
outside the model; so are panics with a nil value.
-/

namespace chatmachine

/-! ## strings.TrimSpace -/

/-- Go `unicode.IsSpace`: the Latin-1 spaces and the code points with the
Unicode White_Space property. -/
def isSpace (c : Char) : Bool :=
  let n := c.toNat
  n == 0x09 || n == 0x0A || n == 0x0B || n == 0x0C || n == 0x0D || n == 0x20
    || n == 0x85 || n == 0xA0 || n == 0x1680 || (decide (0x2000 ≤ n) && decide (n ≤ 0x200A))
    || n == 0x2028 || n == 0x2029 || n == 0x202F || n == 0x205F || n == 0x3000

/-- Go `strings.TrimSpace` on a list of characters. -/
def trimChars (cs : List Char) : List Char :=
  ((cs.dropWhile isSpace).reverse.dropWhile isSpace).reverse

/-- Go `strings.TrimSpace`: the string without its leading and trailing white
space. -/
def TrimSpace (s : String) : String :=
  String.mk (trimChars s.data)

/-! ## Data model -/

/-- The value carried by a Go panic: `ChangeState{}`, the runtime error of a
call through a nil interface, or any other value. -/
inductive PanicValue (F : Type) where
  | ChangeState : PanicValue F
  | nilDereference : PanicValue F
  | fault (f : F) : PanicValue F
  deriving DecidableEq

/-- Go `SessionState`. `NextState` and `currentState` hold an interface value
(`none` is nil); `Data` is the `interface{}` slot. -/
structure SessionState (σ D : Type) where
  Input : String
  Output : String
  NextState : Option σ
  Data : Option D
  endSession : Bool
  currentState : Option σ
  deriving DecidableEq

/-- The zero value `&SessionState{}` that `getSession` allocates. -/
def SessionState.blank (σ D : Type) : SessionState σ D :=
  { Input := "", Output := "", NextState := none, Data := none,
    endSession := false, currentState := none }

/-- What a callback can do with the session it is handed. -/
inductive Call (σ D F : Type) where
  | AddOutput (output : String) : Call σ D F
  | ChangeState (state : Option σ) : Call σ D F
  | End : Call σ D F
  | setInput (v : String) : Call σ D F
  | setOutput (v : String) : Call σ D F
  | setNextState (v : Option σ) : Call σ D F
  | setData (v : Option D) : Call σ D F
  | panic (v : PanicValue F) : Call σ D F
  deriving DecidableEq

/-- A callback body: the calls it performs on the session it is handed. -/
abbrev Callback (σ D F : Type) := SessionState σ D → List (Call σ D F)

/-- The session after some code ran on it, and the panic in flight, if any. -/
structure Exec (σ D F : Type) where
  session : SessionState σ D
  panicking : Option (PanicValue F)
  deriving DecidableEq

/-- Go `State`: the three methods of every state value. -/
structure State (σ D F : Type) where
  OnEnter : σ → Callback σ D F
  OnUpdate : σ → Callback σ D F
  OnExit : σ → Callback σ D F

/-- Go `ChatMachine`. -/
structure ChatMachine (σ D F : Type) where
  sessions : String → Option (SessionState σ D)
  startState : Option σ
  globalOnEnter : Callback σ D F
  globalOnUpdate : Callback σ D F
  globalOnExit : Callback σ D F

variable {σ D F : Type}

/-! ## Session methods -/

/-- Go `(*SessionState).AddOutput`. -/
def SessionState.AddOutput (s : SessionState σ D) (output : String) : SessionState σ D :=
  let trimmed := TrimSpace output
  { s with Output := s.Output ++ (trimmed ++ "\n") }

/-- Go `(*SessionState).ChangeState`: store the state, then panic. -/
def SessionState.ChangeState (s : SessionState σ D) (state : Option σ) : Exec σ D F :=
  { session := { s with NextState := state }, panicking := some PanicValue.ChangeState }

/-- Go `(*SessionState).End`. -/
def SessionState.End (s : SessionState σ D) : SessionState σ D :=
  { s with endSession := true }

/-- One call of a callback body. -/
def Call.run (s : SessionState σ D) : Call σ D F → Exec σ D F
  | .AddOutput output => ⟨s.AddOutput output, none⟩
  | .ChangeState state => s.ChangeState state
  | .End => ⟨s.End, none⟩
  | .setInput v => ⟨{ s with Input := v }, none⟩
  | .setOutput v => ⟨{ s with Output := v }, none⟩
  | .setNextState v => ⟨{ s with NextState := v }, none⟩
  | .setData v => ⟨{ s with Data := v }, none⟩
  | .panic v => ⟨s, some v⟩

/-- A callback body run on a session: calls run in order until one panics. -/
def runBody : List (Call σ D F) → SessionState σ D → Exec σ D F
  | [], s => ⟨s, none⟩
  | c :: cs, s =>
    match c.run s with
    | ⟨s1, none⟩ => runBody cs s1
    | ⟨s1, some p⟩ => ⟨s1, some p⟩

/-- Whether a call unwinds the callback. -/
def Call.unwinds : Call σ D F → Bool
  | .ChangeState _ => true
  | .panic _ => true
  | _ => false

/-- The calls of a body that are reached: up to and including the first one
that unwinds. -/
def executed : List (Call σ D F) → List (Call σ D F)
  | [] => []
  | c :: cs => if c.unwinds then [c] else c :: executed cs

/-! ## The dispatch algorithm -/

/-- Which callback an invocation ran. -/
inductive Site (σ : Type) where
  | globalOnEnter : Site σ
  | globalOnUpdate : Site σ
  | globalOnExit : Site σ
  | OnEnter (st : σ) : Site σ
  | OnUpdate (st : σ) : Site σ
  | OnExit (st : σ) : Site σ
  deriving DecidableEq

/-- One callback invocation made by `Run`: which callback, the calls it
reached, and the panic it ended with (`none`: it returned). -/
structure Invocation (σ D F : Type) where
  site : Site σ
  calls : List (Call σ D F)
  exit : Option (PanicValue F)
  deriving DecidableEq

/-- The turn in progress: the session object, the invocations made so far and
the panic that is unwinding, if any. Statements are skipped while a panic
unwinds. -/
structure Frame (σ D F : Type) where
  session : SessionState σ D
  trace : List (Invocation σ D F)
  panicking : Option (PanicValue F)
  deriving DecidableEq

/-- The frame at the start of a block of statements. -/
def Frame.start (s : SessionState σ D) (trace : List (Invocation σ D F)) : Frame σ D F :=
  { session := s, trace := trace, panicking := none }

/-- The statement `fn(s)` for a hook or method value `fn`. -/
def Frame.invoke (fr : Frame σ D F) (site : Site σ) (fn : Callback σ D F) : Frame σ D F :=
  match fr.panicking with
  | some _ => fr
  | none =>
    let body := fn fr.session
    let e := runBody body fr.session
    { session := e.session
      trace := fr.trace ++ [{ site := site, calls := executed body, exit := e.panicking }]
      panicking := e.panicking }

/-- The statement `s.currentState.M(s)` for a method `M` of the `State`
interface: a nil `currentState` panics in the runtime before any callback
runs. -/
def Frame.invokeMethod (fr : Frame σ D F) (site : σ → Site σ) (method : σ → Callback σ D F) :
    Frame σ D F :=
  match fr.panicking with
  | some _ => fr
  | none =>
    match fr.session.currentState with
    | none => { fr with panicking := some PanicValue.nilDereference }
    | some st => fr.invoke (site st) (method st)

/-- An assignment to fields of the session. -/
def Frame.assign (fr : Frame σ D F) (f : SessionState σ D → SessionState σ D) : Frame σ D F :=
  match fr.panicking with
  | some _ => fr
  | none => { fr with session := f fr.session }

/-- Go `NewChatMachine`. -/
def NewChatMachine (start : Option σ) : ChatMachine σ D F :=
  { sessions := fun _ => none
    startState := start
    globalOnEnter := fun _ => []
    globalOnUpdate := fun _ => []
    globalOnExit := fun _ => [] }

/-- Go `(*ChatMachine).GlobalOnEnter`. -/
def ChatMachine.GlobalOnEnter (cm : ChatMachine σ D F) (fn : Callback σ D F) : ChatMachine σ D F :=
  { cm with globalOnEnter := fn }

/-- Go `(*ChatMachine).GlobalOnUpdate`. -/
def ChatMachine.GlobalOnUpdate (cm : ChatMachine σ D F) (fn : Callback σ D F) : ChatMachine σ D F :=
  { cm with globalOnUpdate := fn }

/-- Go `(*ChatMachine).GlobalOnExit`. -/
def ChatMachine.GlobalOnExit (cm : ChatMachine σ D F) (fn : Callback σ D F) : ChatMachine σ D F :=
  { cm with globalOnExit := fn }

/-- The registry with `sessionID` bound to `s`. -/
def store (sessions : String → Option (SessionState σ D)) (sessionID : String)
    (s : SessionState σ D) : String → Option (SessionState σ D) :=
  fun k => if k = sessionID then some s else sessions k

/-- Go `delete(cm.sessions, sessionID)`. -/
def delete (sessions : String → Option (SessionState σ D)) (sessionID : String) :
    String → Option (SessionState σ D) :=
  fun k => if k = sessionID then none else sessions k

/-- Go `(*ChatMachine).getSession`: the session of the key, created blank and
registered when the key is unknown. Returns the session and the registry. -/
def ChatMachine.getSession (cm : ChatMachine σ D F) (sessionID : String) :
    SessionState σ D × (String → Option (SessionState σ D)) :=
  match cm.sessions sessionID with
  | some s => (s, cm.sessions)
  | none =>
    let s := SessionState.blank σ D
    (s, store cm.sessions sessionID s)

/-- How a call of `Run` ends. -/
inductive Result (F : Type) where
  | returned (output : String) : Result F
  | panicked (v : PanicValue F) : Result F
  deriving DecidableEq

/-- A finished call of `Run`: how it ended, the machine afterwards, and as
ghost data the final contents of the session object `s` and the callback
invocations made. -/
structure Turn (σ D F : Type) where
  result : Result F
  machine : ChatMachine σ D F
  session : SessionState σ D
  trace : List (Invocation σ D F)

/-- The function literal of `Run` with its deferred `recover` (core.go lines
96-116): the first-turn entry or the update. -/
def guardedStep (impl : State σ D F) (cm : ChatMachine σ D F) (s : SessionState σ D) :
    Frame σ D F :=
  if s.currentState.isNone then
    (((Frame.start s []).assign (fun s => { s with currentState := cm.startState })).invoke
      Site.globalOnEnter cm.globalOnEnter).invokeMethod Site.OnEnter impl.OnEnter
  else
    ((Frame.start s []).invoke Site.globalOnUpdate cm.globalOnUpdate).invokeMethod
      Site.OnUpdate impl.OnUpdate

/-- The deferred function of the guarded step: a `ChangeState` panic is
recovered and sets `changed`; any other panic value is panicked again. -/
def recoverChangeState (fr : Frame σ D F) : Frame σ D F × Bool :=
  match fr.panicking with
  | some PanicValue.ChangeState => ({ fr with panicking := none }, true)
  | _ => (fr, false)

/-- The block `if changed { ... }` of `Run` (core.go lines 117-124). It runs
outside the function literal, so nothing recovers a panic raised here. -/
def transition (impl : State σ D F) (cm : ChatMachine σ D F) (fr : Frame σ D F) : Frame σ D F :=
  (((fr.invokeMethod Site.OnExit impl.OnExit).assign
      (fun s => { s with currentState := s.NextState, NextState := none })).invoke
    Site.globalOnEnter cm.globalOnEnter).invokeMethod Site.OnEnter impl.OnEnter

/-- The statements `s.Input = input` and `s.Output = ""` that open a turn. -/
def SessionState.beginTurn (s : SessionState σ D) (input : String) : SessionState σ D :=
  { s with Input := input, Output := "" }

/-- The statements of `Run` between `getSession` and `output := s.Output`. -/
def dispatch (impl : State σ D F) (cm : ChatMachine σ D F) (input : String)
    (s : SessionState σ D) : Frame σ D F :=
  let s := s.beginTurn input
  let (fr, changed) := recoverChangeState (guardedStep impl cm s)
  match fr.panicking with
  | some _ => fr
  | none => if changed then transition impl cm fr else fr

/-- Go `(*ChatMachine).Run`. The registry holds the pointer `s`, so the entry
of the key is the session object as the turn left it, also when `Run`
panics. -/
def ChatMachine.Run (impl : State σ D F) (cm : ChatMachine σ D F) (input sessionID : String) :
    Turn σ D F :=
  let (s, sessions) := cm.getSession sessionID
  let fr := dispatch impl cm input s
  match fr.panicking with
  | some v =>
    { result := Result.panicked v
      machine := { cm with sessions := store sessions sessionID fr.session }
      session := fr.session
      trace := fr.trace }
  | none =>
    let output := fr.session.Output
    let sessions :=
      if fr.session.endSession then delete sessions sessionID
      else store sessions sessionID fr.session
    { result := Result.returned output
      machine := { cm with sessions := sessions }
      session := fr.session
      trace := fr.trace }

/-! ## Auxiliary definitions for the proofs -/

/-- The frame after the body `body` ran as the callback `site`. -/
def Frame.ran (fr : Frame σ D F) (site : Site σ) (body : List (Call σ D F)) : Frame σ D F :=
  { session := (runBody body fr.session).session
    trace := fr.trace ++ [{ site := site, calls := executed body,
                            exit := (runBody body fr.session).panicking }]
    panicking := (runBody body fr.session).panicking }

/-- The frame after the two assignments that apply a transition. -/
def Frame.applied (fr : Frame σ D F) : Frame σ D F :=
  { fr with session := { fr.session with currentState := fr.session.NextState, NextState := none } }

/-- The sites of the callbacks that a transition invokes. -/
def Site.inTransition : Site σ → Bool
  | .OnExit _ => true
  | .globalOnEnter => true
  | .OnEnter _ => true
  | _ => false

/-! ## Example machines -/

/-- The two states of example/discord.go. -/
inductive Demo where
  | HelloState : Demo
  | WorldState : Demo
  deriving DecidableEq

/-- The methods of `HelloState` and `WorldState` in example/discord.go. -/
def Demo.impl : State Demo Unit String where
  OnEnter := fun st _ =>
    match st with
    | .HelloState => [.AddOutput "Entered Hello State"]
    | .WorldState => [.AddOutput "Hello, World!", .End]
  OnUpdate := fun st s =>
    match st with
    | .HelloState =>
      if s.Input = "next" then [.ChangeState (some .WorldState)]
      else [.AddOutput "Waiting for 'next' input..."]
    | .WorldState => []
  OnExit := fun st _ =>
    match st with
    | .HelloState => [.AddOutput "Exiting Hello State"]
    | .WorldState => []

/-- The machine of example/discord.go: `NewChatMachine(&HelloState{})`. -/
def Demo.machine : ChatMachine Demo Unit String :=
  NewChatMachine (some Demo.HelloState)

/-- The example machine after the first message of session `"k"`. -/
def Demo.greeted : ChatMachine Demo Unit String :=
  (Demo.machine.Run Demo.impl "hi" "k").machine

/-- An invocation that returned or that ended with the `ChangeState` signal. -/
def Invocation.quiet (i : Invocation σ D F) : Prop :=
  i.exit = none ∨ i.exit = some PanicValue.ChangeState

/-- Only the last invocation of a frame can have raised a fault, and that fault
is then the panic in flight. -/
def Frame.FaultLast (fr : Frame σ D F) : Prop :=
  (∀ i ∈ fr.trace, i.quiet)
  ∨ ∃ pre i p, fr.trace = pre ++ [i] ∧ (∀ j ∈ pre, j.quiet) ∧ i.exit = some p
      ∧ p ≠ PanicValue.ChangeState ∧ fr.panicking = some p

/-- The state whose method a site is; `none` for a global hook. -/
def Site.state : Site σ → Option σ
  | .OnEnter st => some st
  | .OnUpdate st => some st
  | .OnExit st => some st
  | _ => none

/-- When the last invocation of a frame is a method of the state `st`, the
session's current state is `st`. -/
def Frame.LastAtState (fr : Frame σ D F) : Prop :=
  ∀ pre i st, fr.trace = pre ++ [i] → i.site.state = some st →
    fr.session.currentState = some st

/-- Three states for the scenarios below. -/
inductive Probe where
  | A : Probe
  | B : Probe
  | C : Probe
  deriving DecidableEq

/-- A start state `A` whose `OnEnter` panics with the value `"boom"`. -/
def Probe.faulty : State Probe Nat String where
  OnEnter := fun st _ =>
    match st with
    | .A => [.AddOutput "A-enter", .panic (.fault "boom")]
    | _ => []
  OnUpdate := fun _ _ => []
  OnExit := fun _ _ => []

/-- The machine `NewChatMachine(&A{})`. -/
def Probe.machine : ChatMachine Probe Nat String :=
  NewChatMachine (some Probe.A)

/-- The value of `Output` after a sequence of calls, starting from `o`. -/
def written : List (Call σ D F) → String → String
  | [], o => o
  | .AddOutput output :: cs, o => written cs (o ++ (TrimSpace output ++ "\n"))
  | .setOutput v :: cs, _ => written cs v
  | _ :: cs, o => written cs o

/-- The lines that a sequence of calls appends through `AddOutput`, each text
trimmed and followed by one newline. -/
def appended : List (Call σ D F) → String
  | [] => ""
  | .AddOutput output :: cs => (TrimSpace output ++ "\n") ++ appended cs
  | _ :: cs => appended cs

/-- All the calls reached in a turn, in order. -/
def allCalls (trace : List (Invocation σ D F)) : List (Call σ D F) :=
  trace.flatMap Invocation.calls

/-- The session's `Output` is what the calls of the turn so far have written,
starting from the empty buffer. -/
def Frame.Logged (fr : Frame σ D F) : Prop :=
  fr.session.Output = written (allCalls fr.trace) ""

/-- Once a callback of the turn has called `End`, the termination flag is
set. -/
def Frame.Ended (fr : Frame σ D F) : Prop :=
  (∃ i ∈ fr.trace, Call.End ∈ i.calls) → fr.session.endSession = true

/-- A panic in flight was raised by an invocation of the frame, or is the
runtime's nil-dereference panic. -/
def Frame.PanicFrom (fr : Frame σ D F) : Prop :=
  ∀ p, fr.panicking = some p →
    p = PanicValue.nilDereference ∨ ∃ i ∈ fr.trace, i.exit = some p

/-- The invocations that a transition can append: none (nil current state),
`OnExit` alone (it panicked), or `OnExit` that returned followed by the global
on-enter hook and, when the hook returned and the next state is not nil, by
the `OnEnter` of the next state. -/
def TransitionShape (ext : List (Invocation σ D F)) : Prop :=
  ext = []
  ∨ (∃ x, ext = [x] ∧ (∃ S, x.site = Site.OnExit S) ∧ x.exit ≠ none)
  ∨ (∃ x h, ext = [x, h] ∧ (∃ S, x.site = Site.OnExit S) ∧ x.exit = none
      ∧ h.site = Site.globalOnEnter)
  ∨ (∃ x h e, ext = [x, h, e] ∧ (∃ S, x.site = Site.OnExit S) ∧ x.exit = none
      ∧ h.site = Site.globalOnEnter ∧ h.exit = none ∧ ∃ T, e.site = Site.OnEnter T)

/-- How many invocations of a trace ran the callback `site`. -/
def timesInvoked [DecidableEq σ] (site : Site σ) (trace : List (Invocation σ D F)) : Nat :=
  (trace.filter (fun i => decide (i.site = site))).length

/-- A start state `A` that sends a new session through itself once: its
`OnEnter` marks `Data` and requests a transition to `A`; on a marked session it
greets. -/
def Probe.reenter : State Probe Nat String where
  OnEnter := fun st s =>
    match st with
    | .A => if s.Data = none then [.setData (some 1), .ChangeState (some .A)]
            else [.AddOutput "A-enter"]
    | _ => []
  OnUpdate := fun _ _ => []
  OnExit := fun _ _ => []

/-- The example machine with a global on-enter hook that logs a line. -/
def Demo.logged : ChatMachine Demo Unit String :=
  Demo.machine.GlobalOnEnter (fun _ => [.AddOutput "log"])

/-- The logging example machine after the first message of session `"k"`. -/
def Demo.loggedGreeted : ChatMachine Demo Unit String :=
  (Demo.logged.Run Demo.impl "hi" "k").machine

/-- A chain of states: `A.OnUpdate` requests `B` on the input `"go"`, and
`B.OnEnter` appends a line and requests `C` at once. -/
def Probe.chain : State Probe Nat String where
  OnEnter := fun st _ =>
    match st with
    | .A => [.AddOutput "A-enter"]
    | .B => [.AddOutput "B-enter", .ChangeState (some .C)]
    | .C => [.AddOutput "C-enter"]
  OnUpdate := fun st s =>
    match st with
    | .A => if s.Input = "go" then [.ChangeState (some .B)] else []
    | _ => []
  OnExit := fun _ _ => []

/-- The chain machine after the first message of session `"s1"`. -/
def Probe.chainStarted : ChatMachine Probe Nat String :=
  (Probe.machine.Run Probe.chain "hi" "s1").machine

/-- A state `A` that redirects while it is left: `A.OnUpdate` requests `B` on
the input `"go"`, and `A.OnExit` calls `ChangeState(C)`. -/
def Probe.redirect : State Probe Nat String where
  OnEnter := fun st _ =>
    match st with
    | .A => [.AddOutput "A-enter"]
    | .B => [.AddOutput "B-enter"]
    | .C => [.AddOutput "C-enter"]
  OnUpdate := fun st s =>
    match st with
    | .A => if s.Input = "go" then [.ChangeState (some .B)] else []
    | _ => []
  OnExit := fun st _ =>
    match st with
    | .A => [.ChangeState (some .C)]
    | _ => []

/-- The redirect machine after the first message of session `"s1"`. -/
def Probe.redirectStarted : ChatMachine Probe Nat String :=
  (Probe.machine.Run Probe.redirect "hi" "s1").machine

/-- The example machine with a global on-exit hook that appends a line. -/
def Demo.farewell : ChatMachine Demo Unit String :=
  Demo.machine.GlobalOnExit (fun _ => [.AddOutput "exit hook"])

/-- The machine with the on-exit hook after the first message of session
`"k"`. -/
def Demo.farewellGreeted : ChatMachine Demo Unit String :=
  (Demo.farewell.Run Demo.impl "hi" "k").machine

/-- The invocations that the guarded step can make: a global hook alone (it
panicked, or the state is nil), or a global hook that returned followed by the
method it goes with. -/
def GuardedShape (g : List (Invocation σ D F)) : Prop :=
  (∃ h, g = [h] ∧ (h.site = Site.globalOnEnter ∨ h.site = Site.globalOnUpdate))
  ∨ (∃ h m, g = [h, m] ∧ h.exit = none
      ∧ ((h.site = Site.globalOnEnter ∧ ∃ A, m.site = Site.OnEnter A)
        ∨ (h.site = Site.globalOnUpdate ∧ ∃ S, m.site = Site.OnUpdate S)))

/-- Where an invocation may stand in a turn, `prev` being the invocation just
before it (`none`: it is the first). An `OnEnter` comes right after a global
on-enter hook that returned, an `OnUpdate` right after a global on-update hook
that returned; the global on-update hook is the first invocation; the global
on-enter hook is the first invocation or comes right after an `OnExit` that
returned; and the global on-exit hook stands nowhere. -/
def Invocation.hooked (prev : Option (Invocation σ D F)) (i : Invocation σ D F) : Prop :=
  match i.site with
  | .OnEnter _ => ∃ h, prev = some h ∧ h.site = Site.globalOnEnter ∧ h.exit = none
  | .OnUpdate _ => ∃ h, prev = some h ∧ h.site = Site.globalOnUpdate ∧ h.exit = none
  | .globalOnUpdate => prev = none
  | .globalOnEnter => prev = none ∨ ∃ x S, prev = some x ∧ x.site = Site.OnExit S ∧ x.exit = none
  | .globalOnExit => False
  | .OnExit _ => True

/-- Every invocation of a list stands where `Invocation.hooked` allows, `prev`
being the invocation before the list. -/
def hookedFrom (prev : Option (Invocation σ D F)) : List (Invocation σ D F) → Prop
  | [] => True
  | i :: rest => i.hooked prev ∧ hookedFrom (some i) rest

/-- The example machine with a global on-update hook that requests
`WorldState` on the input `"skip"`. -/
def Demo.skipping : ChatMachine Demo Unit String :=
  Demo.machine.GlobalOnUpdate
    (fun s => if s.Input = "skip" then [.ChangeState (some .WorldState)] else [])

/-- The skipping machine after the first message of session `"k"`. -/
def Demo.skippingGreeted : ChatMachine Demo Unit String :=
  (Demo.skipping.Run Demo.impl "hi" "k").machine

/-- A start state `A` that hands over at once: `A.OnEnter` appends a line and
requests `B`; `A.OnExit` and `B.OnEnter` append a line each. -/
def Probe.hop : State Probe Nat String where
  OnEnter := fun st _ =>
    match st with
    | .A => [.AddOutput "A-enter", .ChangeState (some .B)]
    | .B => [.AddOutput "B-enter"]
    | .C => []
  OnUpdate := fun _ _ => []
  OnExit := fun st _ =>
    match st with
    | .A => [.AddOutput "A-exit"]
    | _ => []

/-- The machine `NewChatMachine(&A{})` with a global on-enter hook that logs a
line. -/
def Probe.logged : ChatMachine Probe Nat String :=
  Probe.machine.GlobalOnEnter (fun _ => [.AddOutput "log"])

/-- A state `A` that says goodbye and then fails: on the input `"quit"` its
`OnUpdate` appends a line, calls `End()` and panics with `"boom"`; on any other
input it appends `"still here"`. -/
def Probe.lateFault : State Probe Nat String where
  OnEnter := fun st _ =>
    match st with
    | .A => [.AddOutput "A-enter"]
    | _ => []
  OnUpdate := fun st s =>
    match st with
    | .A => if s.Input = "quit" then [.AddOutput "bye", .End, .panic (.fault "boom")]
            else [.AddOutput "still here"]
    | _ => []
  OnExit := fun _ _ => []

/-- The machine of `Probe.lateFault` after the first message of `"s1"`. -/
def Probe.lateStarted : ChatMachine Probe Nat String :=
  (Probe.machine.Run Probe.lateFault "hi" "s1").machine

/-- The machine of `Probe.lateFault` after the failed message `"quit"`. -/
def Probe.lateFailed : ChatMachine Probe Nat String :=
  (Probe.lateStarted.Run Probe.lateFault "quit" "s1").machine

/-- A start state `A` that calls `End()` first and speaks afterwards. -/
def Probe.lastWords : State Probe Nat String where
  OnEnter := fun st _ =>
    match st with
    | .A => [.End, .AddOutput "last words"]
    | _ => []
  OnUpdate := fun _ _ => []
  OnExit := fun _ _ => []

/-- A call that changes the session only through `AddOutput`, `ChangeState`
with a non-nil state, `End` or the `Data` slot; a panic changes nothing. -/
def Call.viaAPI : Call σ D F → Bool
  | .AddOutput _ => true
  | .ChangeState (some _) => true
  | .End => true
  | .setData _ => true
  | .panic _ => true
  | _ => false

/-- A callback all of whose calls are `Call.viaAPI`, on every session. -/
def viaAPI (fn : Callback σ D F) : Prop :=
  ∀ s, ∀ c ∈ fn s, c.viaAPI = true

/-- The machines that `NewChatMachine` with a non-nil start state, the
registration of hooks (on-enter and on-update hooks that are `viaAPI`, any
on-exit hook), and calls of `Run` that return can produce. -/
inductive Reachable (impl : State σ D F) : ChatMachine σ D F → Prop where
  | new (A : σ) : Reachable impl (NewChatMachine (some A))
  | hookEnter (cm : ChatMachine σ D F) (fn : Callback σ D F) :
      Reachable impl cm → viaAPI fn → Reachable impl (cm.GlobalOnEnter fn)
  | hookUpdate (cm : ChatMachine σ D F) (fn : Callback σ D F) :
      Reachable impl cm → viaAPI fn → Reachable impl (cm.GlobalOnUpdate fn)
  | hookExit (cm : ChatMachine σ D F) (fn : Callback σ D F) :
      Reachable impl cm → Reachable impl (cm.GlobalOnExit fn)
  | run (cm : ChatMachine σ D F) (input key out : String) :
      Reachable impl cm → (cm.Run impl input key).result = Result.returned out →
      Reachable impl (cm.Run impl input key).machine

/-- The registry invariant: every session in the registry has a current state,
no pending next state and a false termination flag. -/
def RegistryClean (cm : ChatMachine σ D F) : Prop :=
  ∀ key s, cm.sessions key = some s →
    s.currentState ≠ none ∧ s.NextState = none ∧ s.endSession = false

/-- The machine after one more turn: `Run` called with `input` for `sessionID`,
its returned string dropped. -/
def ChatMachine.next (cm : ChatMachine σ D F) (impl : State σ D F) (input sessionID : String) :
    ChatMachine σ D F :=
  (cm.Run impl input sessionID).machine

/-- A two-state conversation: `A.OnEnter` appends `"A-enter"`; `A.OnUpdate`
calls `ChangeState(B)` on the input `"go"` and does nothing otherwise;
`B.OnEnter` appends `"B-enter"` and calls `End()`; no `OnExit` does anything. -/
def Probe.scenario : State Probe Nat String where
  OnEnter := fun st _ =>
    match st with
    | .A => [.AddOutput "A-enter"]
    | .B => [.AddOutput "B-enter", .End]
    | .C => []
  OnUpdate := fun st s =>
    match st with
    | .A => if s.Input = "go" then [.ChangeState (some .B)] else []
    | _ => []
  OnExit := fun _ _ => []

/-- The session that the example machine holds under `"k"` after the first
message. -/
def Demo.greetedSession : SessionState Demo Unit :=
  { Input := "hi"
    Output := "Entered Hello State\n"
    NextState := none
    Data := none
    endSession := false
    currentState := some Demo.HelloState }

/-! ## Lemmas: trimming -/

theorem trimChars_split (cs : List Char) :
    cs = cs.takeWhile isSpace ++ trimChars cs
      ++ ((cs.dropWhile isSpace).reverse.takeWhile isSpace).reverse := by
  have h1 : cs = cs.takeWhile isSpace ++ cs.dropWhile isSpace :=
    (List.takeWhile_append_dropWhile isSpace cs).symm
  have h2 : (cs.dropWhile isSpace).reverse
      = (cs.dropWhile isSpace).reverse.takeWhile isSpace
        ++ (cs.dropWhile isSpace).reverse.dropWhile isSpace :=
    (List.takeWhile_append_dropWhile isSpace _).symm
  have h3 : cs.dropWhile isSpace
      = trimChars cs ++ ((cs.dropWhile isSpace).reverse.takeWhile isSpace).reverse := by
    have := congrArg List.reverse h2
    rw [List.reverse_reverse, List.reverse_append] at this
    exact this
  rw [List.append_assoc, ← h3]
  exact h1

theorem takeWhile_all (p : Char → Bool) (cs : List Char) : ∀ c ∈ cs.takeWhile p, p c = true :=
  fun _ hc => List.mem_takeWhile_imp hc

theorem dropWhile_head (p : Char → Bool) (cs : List Char) (c : Char)
    (h : (cs.dropWhile p).head? = some c) : p c = false := by
  have := List.head?_dropWhile_not p cs
  rw [h] at this
  simpa using this

theorem trimChars_last (cs : List Char) (c : Char) (h : (trimChars cs).getLast? = some c) :
    isSpace c = false := by
  unfold trimChars at h
  rw [List.getLast?_reverse] at h
  exact dropWhile_head isSpace _ c h

theorem trimChars_head (cs : List Char) (c : Char) (h : (trimChars cs).head? = some c) :
    isSpace c = false := by
  have hs := trimChars_split cs
  have hd : cs.dropWhile isSpace
      = trimChars cs ++ ((cs.dropWhile isSpace).reverse.takeWhile isSpace).reverse := by
    have h2 := (List.takeWhile_append_dropWhile isSpace (cs.dropWhile isSpace).reverse).symm
    have := congrArg List.reverse h2
    rw [List.reverse_reverse, List.reverse_append] at this
    exact this
  apply dropWhile_head isSpace cs c
  rw [hd]
  cases ht : trimChars cs with
  | nil => rw [ht] at h; simp at h
  | cons a t => rw [ht] at h; simpa using h

/-! ## Lemmas: callback bodies -/

theorem Call.run_currentState (c : Call σ D F) (s : SessionState σ D) :
    (c.run s).session.currentState = s.currentState := by
  cases c <;> rfl

theorem runBody_currentState (cs : List (Call σ D F)) (s : SessionState σ D) :
    (runBody cs s).session.currentState = s.currentState := by
  induction cs generalizing s with
  | nil => rfl
  | cons c cs ih =>
    have hc := Call.run_currentState c s
    unfold runBody
    split
    · next s1 h => rw [ih]; rw [h] at hc; exact hc
    · next s1 p h => rw [h] at hc; exact hc

/-! ## Lemmas: statements of a turn -/

theorem Frame.invoke_of_panicking {fr : Frame σ D F} {p : PanicValue F}
    (h : fr.panicking = some p) (site : Site σ) (fn : Callback σ D F) :
    fr.invoke site fn = fr := by
  unfold Frame.invoke; rw [h]

theorem Frame.invokeMethod_of_panicking {fr : Frame σ D F} {p : PanicValue F}
    (h : fr.panicking = some p) (site : σ → Site σ) (m : σ → Callback σ D F) :
    fr.invokeMethod site m = fr := by
  unfold Frame.invokeMethod; rw [h]

theorem Frame.assign_of_panicking {fr : Frame σ D F} {p : PanicValue F}
    (h : fr.panicking = some p) (f : SessionState σ D → SessionState σ D) :
    fr.assign f = fr := by
  unfold Frame.assign; rw [h]

theorem Frame.invoke_of_running {fr : Frame σ D F} (h : fr.panicking = none) (site : Site σ)
    (fn : Callback σ D F) :
    fr.invoke site fn = fr.ran site (fn fr.session) := by
  unfold Frame.invoke Frame.ran; rw [h]

theorem Frame.invokeMethod_of_running {fr : Frame σ D F} (h : fr.panicking = none) {st : σ}
    (hst : fr.session.currentState = some st) (site : σ → Site σ) (m : σ → Callback σ D F) :
    fr.invokeMethod site m = fr.ran (site st) (m st fr.session) := by
  unfold Frame.invokeMethod; rw [h, hst]; exact Frame.invoke_of_running h _ _

theorem Frame.invokeMethod_of_nil {fr : Frame σ D F} (h : fr.panicking = none)
    (hst : fr.session.currentState = none) (site : σ → Site σ) (m : σ → Callback σ D F) :
    fr.invokeMethod site m = { fr with panicking := some PanicValue.nilDereference } := by
  unfold Frame.invokeMethod; rw [h, hst]

theorem Frame.assign_of_running {fr : Frame σ D F} (h : fr.panicking = none)
    (f : SessionState σ D → SessionState σ D) :
    fr.assign f = { fr with session := f fr.session } := by
  unfold Frame.assign; rw [h]

@[simp] theorem Frame.ran_trace (fr : Frame σ D F) (site : Site σ) (body : List (Call σ D F)) :
    (fr.ran site body).trace
      = fr.trace ++ [⟨site, executed body, (runBody body fr.session).panicking⟩] := rfl

@[simp] theorem Frame.ran_panicking (fr : Frame σ D F) (site : Site σ)
    (body : List (Call σ D F)) :
    (fr.ran site body).panicking = (runBody body fr.session).panicking := rfl

@[simp] theorem Frame.ran_session (fr : Frame σ D F) (site : Site σ) (body : List (Call σ D F)) :
    (fr.ran site body).session = (runBody body fr.session).session := rfl

@[simp] theorem Frame.ran_currentState (fr : Frame σ D F) (site : Site σ)
    (body : List (Call σ D F)) :
    (fr.ran site body).session.currentState = fr.session.currentState :=
  runBody_currentState _ _

@[simp] theorem Frame.applied_trace (fr : Frame σ D F) : fr.applied.trace = fr.trace := rfl

@[simp] theorem Frame.applied_panicking (fr : Frame σ D F) :
    fr.applied.panicking = fr.panicking := rfl

@[simp] theorem Frame.applied_currentState (fr : Frame σ D F) :
    fr.applied.session.currentState = fr.session.NextState := rfl

/-- A hook call followed by a method call on the current state: the hook
panics, or the current state is nil, or both callbacks run. -/
theorem hookThenMethod_cases (fr : Frame σ D F) (h : fr.panicking = none) (site : Site σ)
    (fn : Callback σ D F) (msite : σ → Site σ) (m : σ → Callback σ D F) :
    (∃ p, (fr.ran site (fn fr.session)).panicking = some p
      ∧ (fr.invoke site fn).invokeMethod msite m = fr.ran site (fn fr.session))
    ∨ ((fr.ran site (fn fr.session)).panicking = none ∧ fr.session.currentState = none
      ∧ (fr.invoke site fn).invokeMethod msite m
        = { fr.ran site (fn fr.session) with panicking := some PanicValue.nilDereference })
    ∨ (∃ st, (fr.ran site (fn fr.session)).panicking = none ∧ fr.session.currentState = some st
      ∧ (fr.invoke site fn).invokeMethod msite m
        = (fr.ran site (fn fr.session)).ran (msite st)
            (m st (fr.ran site (fn fr.session)).session)) := by
  rw [Frame.invoke_of_running h]
  rcases hp : (fr.ran site (fn fr.session)).panicking with _ | p
  · rcases hc : fr.session.currentState with _ | st
    · right; left
      refine ⟨rfl, rfl, ?_⟩
      exact Frame.invokeMethod_of_nil hp (by rw [Frame.ran_currentState, hc]) _ _
    · right; right
      refine ⟨st, rfl, rfl, ?_⟩
      exact Frame.invokeMethod_of_running hp (by rw [Frame.ran_currentState, hc]) _ _
  · left
    exact ⟨p, rfl, Frame.invokeMethod_of_panicking hp _ _⟩

/-- The block `if changed { ... }`: the current state is nil, or `OnExit`
panics, or the transition is applied and the new state is entered. -/
theorem transition_cases (impl : State σ D F) (cm : ChatMachine σ D F) (fr : Frame σ D F)
    (h : fr.panicking = none) :
    (fr.session.currentState = none
      ∧ transition impl cm fr = { fr with panicking := some PanicValue.nilDereference })
    ∨ (∃ S p, fr.session.currentState = some S
      ∧ (fr.ran (Site.OnExit S) (impl.OnExit S fr.session)).panicking = some p
      ∧ transition impl cm fr = fr.ran (Site.OnExit S) (impl.OnExit S fr.session))
    ∨ (∃ S, fr.session.currentState = some S
      ∧ (fr.ran (Site.OnExit S) (impl.OnExit S fr.session)).panicking = none
      ∧ transition impl cm fr
        = ((fr.ran (Site.OnExit S) (impl.OnExit S fr.session)).applied.invoke
            Site.globalOnEnter cm.globalOnEnter).invokeMethod Site.OnEnter impl.OnEnter) := by
  unfold transition
  rcases hc : fr.session.currentState with _ | S
  · left
    refine ⟨rfl, ?_⟩
    rw [Frame.invokeMethod_of_nil h hc]
    rw [Frame.assign_of_panicking rfl, Frame.invoke_of_panicking rfl,
      Frame.invokeMethod_of_panicking rfl]
  · rw [Frame.invokeMethod_of_running h hc]
    rcases hp : (fr.ran (Site.OnExit S) (impl.OnExit S fr.session)).panicking with _ | p
    · right; right
      refine ⟨S, rfl, hp, ?_⟩
      rw [Frame.assign_of_running hp]
      rfl
    · right; left
      refine ⟨S, p, rfl, hp, ?_⟩
      rw [Frame.assign_of_panicking hp, Frame.invoke_of_panicking hp,
        Frame.invokeMethod_of_panicking hp]

/-- The three ways the guarded step can end, and what `dispatch` does next. -/
theorem dispatch_cases (impl : State σ D F) (cm : ChatMachine σ D F) (input : String)
    (s : SessionState σ D) :
    ((guardedStep impl cm (s.beginTurn input)).panicking = none
      ∧ dispatch impl cm input s = guardedStep impl cm (s.beginTurn input))
    ∨ ((guardedStep impl cm (s.beginTurn input)).panicking
          = some PanicValue.ChangeState
        ∧ dispatch impl cm input s
          = transition impl cm
              { guardedStep impl cm (s.beginTurn input) with
                panicking := none })
    ∨ (∃ p, p ≠ PanicValue.ChangeState
        ∧ (guardedStep impl cm (s.beginTurn input)).panicking = some p
        ∧ dispatch impl cm input s
          = guardedStep impl cm (s.beginTurn input)) := by
  unfold dispatch recoverChangeState
  rcases hg : (guardedStep impl cm (s.beginTurn input)).panicking with _ | p
  · left; simp [hg]
  · cases p with
    | ChangeState => right; left; simp [hg]
    | nilDereference => right; right; exact ⟨_, by simp, rfl, by simp [hg]⟩
    | fault f => right; right; exact ⟨_, by simp, rfl, by simp [hg]⟩

/-! ## Lemmas: the fields of a finished turn -/

theorem getSession_fst_of_some {cm : ChatMachine σ D F} {key : String} {s : SessionState σ D}
    (h : cm.sessions key = some s) : (cm.getSession key).1 = s := by
  unfold ChatMachine.getSession; rw [h]

theorem getSession_fst_of_none {cm : ChatMachine σ D F} {key : String}
    (h : cm.sessions key = none) : (cm.getSession key).1 = SessionState.blank σ D := by
  unfold ChatMachine.getSession; rw [h]

/-- `Run` with the pair returned by `getSession` taken apart by projections. -/
theorem Run_eq (impl : State σ D F) (cm : ChatMachine σ D F) (input key : String) :
    cm.Run impl input key =
      match (dispatch impl cm input (cm.getSession key).1).panicking with
      | some v =>
        { result := Result.panicked v
          machine := { cm with sessions := (store (cm.getSession key).2 key
                        (dispatch impl cm input (cm.getSession key).1).session) }
          session := (dispatch impl cm input (cm.getSession key).1).session
          trace := (dispatch impl cm input (cm.getSession key).1).trace }
      | none =>
        { result := Result.returned (dispatch impl cm input (cm.getSession key).1).session.Output
          machine := { cm with sessions :=
                        (if (dispatch impl cm input (cm.getSession key).1).session.endSession
                        then delete (cm.getSession key).2 key
                        else store (cm.getSession key).2 key
                          (dispatch impl cm input (cm.getSession key).1).session) }
          session := (dispatch impl cm input (cm.getSession key).1).session
          trace := (dispatch impl cm input (cm.getSession key).1).trace } := rfl

theorem Run_trace (impl : State σ D F) (cm : ChatMachine σ D F) (input key : String) :
    (cm.Run impl input key).trace = (dispatch impl cm input (cm.getSession key).1).trace := by
  rw [Run_eq]
  split <;> rfl

theorem Run_session (impl : State σ D F) (cm : ChatMachine σ D F) (input key : String) :
    (cm.Run impl input key).session = (dispatch impl cm input (cm.getSession key).1).session := by
  rw [Run_eq]
  split <;> rfl

theorem Run_result_of_panicking (impl : State σ D F) (cm : ChatMachine σ D F)
    (input key : String) {p : PanicValue F}
    (h : (dispatch impl cm input (cm.getSession key).1).panicking = some p) :
    (cm.Run impl input key).result = Result.panicked p := by
  rw [Run_eq, h]

theorem Run_result_of_returned (impl : State σ D F) (cm : ChatMachine σ D F)
    (input key : String)
    (h : (dispatch impl cm input (cm.getSession key).1).panicking = none) :
    (cm.Run impl input key).result
      = Result.returned (dispatch impl cm input (cm.getSession key).1).session.Output := by
  rw [Run_eq, h]

/-- The guarded step of a turn whose session has a current state: the global
on-update hook panics, or it returns and `OnUpdate` runs. -/
theorem update_step_cases (impl : State σ D F) (cm : ChatMachine σ D F)
    {s : SessionState σ D} {S : σ} (h : s.currentState = some S) :
    (∃ p, ((Frame.start s []).ran Site.globalOnUpdate (cm.globalOnUpdate s)).panicking = some p
      ∧ guardedStep impl cm s = (Frame.start s []).ran Site.globalOnUpdate (cm.globalOnUpdate s))
    ∨ (((Frame.start s []).ran Site.globalOnUpdate (cm.globalOnUpdate s)).panicking = none
      ∧ guardedStep impl cm s
        = ((Frame.start s []).ran Site.globalOnUpdate (cm.globalOnUpdate s)).ran (Site.OnUpdate S)
            (impl.OnUpdate S
              ((Frame.start s []).ran Site.globalOnUpdate (cm.globalOnUpdate s)).session)) := by
  have hg : guardedStep impl cm s
      = ((Frame.start s []).invoke Site.globalOnUpdate cm.globalOnUpdate).invokeMethod
          Site.OnUpdate impl.OnUpdate := by
    unfold guardedStep; rw [h]; rfl
  rw [hg]
  rcases hookThenMethod_cases (Frame.start s []) rfl Site.globalOnUpdate cm.globalOnUpdate
      Site.OnUpdate impl.OnUpdate with ⟨p, hp, hh⟩ | ⟨_, hc, _⟩ | ⟨st, hp, hc, hh⟩
  · exact Or.inl ⟨p, hp, hh⟩
  · rw [show (Frame.start s ([] : List (Invocation σ D F))).session.currentState
        = s.currentState from rfl, h] at hc
    cases hc
  · rw [show (Frame.start s ([] : List (Invocation σ D F))).session.currentState
        = s.currentState from rfl, h] at hc
    cases hc
    exact Or.inr ⟨hp, hh⟩

/-- The guarded step of a session's first turn: the global on-enter hook
panics, or the start state is nil, or the start state's `OnEnter` runs. -/
theorem first_step_cases (impl : State σ D F) (cm : ChatMachine σ D F)
    {s : SessionState σ D} (h : s.currentState = none) :
    (∃ p, ((Frame.start { s with currentState := cm.startState } []).ran Site.globalOnEnter
          (cm.globalOnEnter { s with currentState := cm.startState })).panicking = some p
      ∧ guardedStep impl cm s
        = (Frame.start { s with currentState := cm.startState } []).ran Site.globalOnEnter
            (cm.globalOnEnter { s with currentState := cm.startState }))
    ∨ (((Frame.start { s with currentState := cm.startState } []).ran Site.globalOnEnter
          (cm.globalOnEnter { s with currentState := cm.startState })).panicking = none
      ∧ cm.startState = none
      ∧ guardedStep impl cm s
        = { (Frame.start { s with currentState := cm.startState } []).ran Site.globalOnEnter
              (cm.globalOnEnter { s with currentState := cm.startState }) with
            panicking := some PanicValue.nilDereference })
    ∨ (∃ A, ((Frame.start { s with currentState := cm.startState } []).ran Site.globalOnEnter
          (cm.globalOnEnter { s with currentState := cm.startState })).panicking = none
      ∧ cm.startState = some A
      ∧ guardedStep impl cm s
        = ((Frame.start { s with currentState := cm.startState } []).ran Site.globalOnEnter
            (cm.globalOnEnter { s with currentState := cm.startState })).ran (Site.OnEnter A)
            (impl.OnEnter A
              ((Frame.start { s with currentState := cm.startState } []).ran Site.globalOnEnter
                (cm.globalOnEnter { s with currentState := cm.startState })).session)) := by
  have hg : guardedStep impl cm s
      = ((Frame.start { s with currentState := cm.startState } []).invoke
          Site.globalOnEnter cm.globalOnEnter).invokeMethod Site.OnEnter impl.OnEnter := by
    unfold guardedStep; rw [h]; rfl
  rw [hg]
  rcases hookThenMethod_cases (Frame.start { s with currentState := cm.startState } []) rfl
      Site.globalOnEnter cm.globalOnEnter Site.OnEnter impl.OnEnter with
    ⟨p, hp, hh⟩ | ⟨hp, hc, hh⟩ | ⟨st, hp, hc, hh⟩
  · exact Or.inl ⟨p, hp, hh⟩
  · exact Or.inr (Or.inl ⟨hp, hc, hh⟩)
  · exact Or.inr (Or.inr ⟨st, hp, hc, hh⟩)

/-- A transition only appends invocations of `OnExit`, the global on-enter
hook and `OnEnter`. -/
theorem transition_trace (impl : State σ D F) (cm : ChatMachine σ D F) (fr : Frame σ D F)
    (h : fr.panicking = none) :
    ∃ ext, (transition impl cm fr).trace = fr.trace ++ ext
      ∧ ∀ i ∈ ext, i.site.inTransition = true := by
  rcases transition_cases impl cm fr h with ⟨_, ht⟩ | ⟨S, p, _, _, ht⟩ | ⟨S, _, hx, ht⟩
  · exact ⟨[], by rw [ht]; simp, by simp⟩
  · exact ⟨_, by rw [ht, Frame.ran_trace], by simp [Site.inTransition]⟩
  · rw [ht]
    rcases hookThenMethod_cases (fr.ran (Site.OnExit S) (impl.OnExit S fr.session)).applied hx
        Site.globalOnEnter cm.globalOnEnter Site.OnEnter impl.OnEnter with
      ⟨p, _, hh⟩ | ⟨_, _, hh⟩ | ⟨st, _, _, hh⟩
    · refine ⟨?_, ?_, ?_⟩
      rotate_left
      · rw [hh]
        simp only [Frame.ran_trace, Frame.applied_trace, List.append_assoc]
        exact rfl
      · simp [Site.inTransition]
    · refine ⟨?_, ?_, ?_⟩
      rotate_left
      · rw [hh]
        simp only [Frame.ran_trace, Frame.applied_trace, List.append_assoc]
        exact rfl
      · simp [Site.inTransition]
    · refine ⟨?_, ?_, ?_⟩
      rotate_left
      · rw [hh]
        simp only [Frame.ran_trace, Frame.applied_trace, List.append_assoc]
        exact rfl
      · simp [Site.inTransition]

/-- The trace of `dispatch`: that of the guarded step, followed after a
recovered `ChangeState` by the invocations of the transition. -/
theorem dispatch_trace_cases (impl : State σ D F) (cm : ChatMachine σ D F) (input : String)
    (s : SessionState σ D) :
    dispatch impl cm input s = guardedStep impl cm (s.beginTurn input)
    ∨ ((guardedStep impl cm (s.beginTurn input)).panicking = some PanicValue.ChangeState
      ∧ ∃ ext, (dispatch impl cm input s).trace
          = (guardedStep impl cm (s.beginTurn input)).trace ++ ext
        ∧ ∀ i ∈ ext, i.site.inTransition = true) := by
  rcases dispatch_cases impl cm input s with ⟨_, hd⟩ | ⟨hcs, hd⟩ | ⟨_, _, _, hd⟩
  · exact Or.inl hd
  · right
    refine ⟨hcs, ?_⟩
    rw [hd]
    exact transition_trace impl cm _ rfl
  · exact Or.inl hd

/-! ## Lemmas: dead code after `ChangeState` -/

theorem runBody_append_ChangeState (pre post : List (Call σ D F)) (T : Option σ)
    (s : SessionState σ D) :
    runBody (pre ++ Call.ChangeState T :: post) s = runBody (pre ++ [Call.ChangeState T]) s := by
  induction pre generalizing s with
  | nil => rfl
  | cons c cs ih =>
    simp only [List.cons_append, runBody]
    split
    · next s1 h => exact ih s1
    · rfl

theorem executed_append_ChangeState (pre post : List (Call σ D F)) (T : Option σ) :
    executed (pre ++ Call.ChangeState T :: post) = executed (pre ++ [Call.ChangeState T]) := by
  induction pre with
  | nil => rfl
  | cons c cs ih =>
    simp only [List.cons_append, executed]
    split
    · rfl
    · exact congrArg (List.cons c) ih

/-- `Run` sees a callback only through what its body does to the session and
through the calls it reaches. -/
theorem Frame.invoke_congr (fr : Frame σ D F) (site : Site σ) (fn fn' : Callback σ D F)
    (h : ∀ s, runBody (fn s) s = runBody (fn' s) s ∧ executed (fn s) = executed (fn' s)) :
    fr.invoke site fn = fr.invoke site fn' := by
  unfold Frame.invoke
  split
  · rfl
  · simp only [(h fr.session).1, (h fr.session).2]

theorem Frame.invokeMethod_congr (fr : Frame σ D F) (site : σ → Site σ)
    (m m' : σ → Callback σ D F)
    (h : ∀ st s, runBody (m st s) s = runBody (m' st s) s ∧ executed (m st s) = executed (m' st s)) :
    fr.invokeMethod site m = fr.invokeMethod site m' := by
  unfold Frame.invokeMethod
  split
  · rfl
  · split
    · rfl
    · exact Frame.invoke_congr fr _ _ _ (h _)

theorem Run_congr (impl impl' : State σ D F) (cm : ChatMachine σ D F) (input key : String)
    (hEnter : ∀ st s, runBody (impl.OnEnter st s) s = runBody (impl'.OnEnter st s) s
      ∧ executed (impl.OnEnter st s) = executed (impl'.OnEnter st s))
    (hUpdate : ∀ st s, runBody (impl.OnUpdate st s) s = runBody (impl'.OnUpdate st s) s
      ∧ executed (impl.OnUpdate st s) = executed (impl'.OnUpdate st s))
    (hExit : ∀ st s, runBody (impl.OnExit st s) s = runBody (impl'.OnExit st s) s
      ∧ executed (impl.OnExit st s) = executed (impl'.OnExit st s)) :
    cm.Run impl input key = cm.Run impl' input key := by
  have hg : ∀ s, guardedStep impl cm s = guardedStep impl' cm s := by
    intro s
    unfold guardedStep
    rw [Frame.invokeMethod_congr _ Site.OnEnter impl.OnEnter impl'.OnEnter hEnter,
      Frame.invokeMethod_congr _ Site.OnUpdate impl.OnUpdate impl'.OnUpdate hUpdate]
  have ht : ∀ fr, transition impl cm fr = transition impl' cm fr := by
    intro fr
    unfold transition
    rw [Frame.invokeMethod_congr _ Site.OnEnter impl.OnEnter impl'.OnEnter hEnter,
      Frame.invokeMethod_congr _ Site.OnExit impl.OnExit impl'.OnExit hExit]
  have hd : ∀ s, dispatch impl cm input s = dispatch impl' cm input s := by
    intro s
    unfold dispatch
    simp only [hg, ht]
  rw [Run_eq, Run_eq]
  simp only [hd]

/-! ## Lemmas: faults end the turn -/

theorem Frame.ran_quiet (fr : Frame σ D F) (site : Site σ) (body : List (Call σ D F))
    (hq : ∀ i ∈ fr.trace, i.quiet)
    (h : (fr.ran site body).panicking = none
      ∨ (fr.ran site body).panicking = some PanicValue.ChangeState) :
    ∀ i ∈ (fr.ran site body).trace, i.quiet := by
  intro i hi
  rw [Frame.ran_trace] at hi
  rcases List.mem_append.mp hi with hm | hm
  · exact hq i hm
  · rw [List.mem_singleton] at hm
    subst hm
    exact h

theorem Frame.ran_faultLast (fr : Frame σ D F) (site : Site σ) (body : List (Call σ D F))
    (hq : ∀ i ∈ fr.trace, i.quiet) : (fr.ran site body).FaultLast := by
  rcases hp : (fr.ran site body).panicking with _ | p
  · exact Or.inl (Frame.ran_quiet fr site body hq (Or.inl hp))
  · by_cases hcs : p = PanicValue.ChangeState
    · subst hcs
      exact Or.inl (Frame.ran_quiet fr site body hq (Or.inr hp))
    · right
      exact ⟨fr.trace, _, p, Frame.ran_trace fr site body, hq, hp, hcs, hp⟩

theorem hookThenMethod_faultLast (fr : Frame σ D F) (h : fr.panicking = none)
    (hq : ∀ i ∈ fr.trace, i.quiet) (site : Site σ) (fn : Callback σ D F) (msite : σ → Site σ)
    (m : σ → Callback σ D F) : ((fr.invoke site fn).invokeMethod msite m).FaultLast := by
  rcases hookThenMethod_cases fr h site fn msite m with
    ⟨p, _, hh⟩ | ⟨hp, _, hh⟩ | ⟨st, hp, _, hh⟩
  · rw [hh]; exact Frame.ran_faultLast fr site _ hq
  · rw [hh]; exact Or.inl (Frame.ran_quiet fr site _ hq (Or.inl hp))
  · rw [hh]
    exact Frame.ran_faultLast _ _ _ (Frame.ran_quiet fr site _ hq (Or.inl hp))

theorem guardedStep_faultLast (impl : State σ D F) (cm : ChatMachine σ D F)
    (s : SessionState σ D) : (guardedStep impl cm s).FaultLast := by
  unfold guardedStep
  split
  · exact hookThenMethod_faultLast _ rfl (by simp [Frame.assign, Frame.start]) _ _ _ _
  · exact hookThenMethod_faultLast _ rfl (by simp [Frame.start]) _ _ _ _

theorem Frame.FaultLast.quiet_of_recovered {fr : Frame σ D F} (h : fr.FaultLast)
    (hp : fr.panicking = none ∨ fr.panicking = some PanicValue.ChangeState) :
    ∀ i ∈ fr.trace, i.quiet := by
  rcases h with hq | ⟨pre, i, p, _, _, _, hne, hpp⟩
  · exact hq
  · exfalso
    rcases hp with hp | hp
    · rw [hp] at hpp; cases hpp
    · rw [hp] at hpp; cases hpp; exact hne rfl

theorem transition_faultLast (impl : State σ D F) (cm : ChatMachine σ D F) (fr : Frame σ D F)
    (h : fr.panicking = none) (hq : ∀ i ∈ fr.trace, i.quiet) :
    (transition impl cm fr).FaultLast := by
  rcases transition_cases impl cm fr h with ⟨_, ht⟩ | ⟨S, p, _, _, ht⟩ | ⟨S, _, hx, ht⟩
  · rw [ht]; exact Or.inl hq
  · rw [ht]; exact Frame.ran_faultLast fr _ _ hq
  · rw [ht]
    exact hookThenMethod_faultLast (fr.ran (Site.OnExit S) (impl.OnExit S fr.session)).applied hx
      (Frame.ran_quiet fr _ _ hq (Or.inl hx)) _ _ _ _

theorem dispatch_faultLast (impl : State σ D F) (cm : ChatMachine σ D F) (input : String)
    (s : SessionState σ D) : (dispatch impl cm input s).FaultLast := by
  have hg := guardedStep_faultLast impl cm (s.beginTurn input)
  rcases dispatch_cases impl cm input s with ⟨_, hd⟩ | ⟨hcs, hd⟩ | ⟨_, _, _, hd⟩
  · rw [hd]; exact hg
  · rw [hd]
    exact transition_faultLast impl cm _ rfl (hg.quiet_of_recovered (Or.inr hcs))
  · rw [hd]; exact hg

/-! ## Lemmas: the current state of the session -/

theorem Frame.ran_lastAtState (fr : Frame σ D F) (site : Site σ) (body : List (Call σ D F))
    (h : ∀ st, site.state = some st → fr.session.currentState = some st) :
    (fr.ran site body).LastAtState := by
  intro pre i st htr hst
  rw [Frame.ran_trace] at htr
  have := (List.append_inj' htr rfl).2
  rw [List.singleton_inj] at this
  subst this
  rw [Frame.ran_currentState]
  exact h st hst

theorem hookThenMethod_lastAtState (fr : Frame σ D F) (h : fr.panicking = none) (site : Site σ)
    (hsite : site.state = none) (fn : Callback σ D F) (msite : σ → Site σ)
    (hm : ∀ st, (msite st).state = some st) (m : σ → Callback σ D F) :
    ((fr.invoke site fn).invokeMethod msite m).LastAtState := by
  rcases hookThenMethod_cases fr h site fn msite m with
    ⟨p, _, hh⟩ | ⟨hp, _, hh⟩ | ⟨st, hp, hc, hh⟩
  · rw [hh]
    exact Frame.ran_lastAtState fr site _ (fun st hst => by rw [hsite] at hst; cases hst)
  · rw [hh]
    exact Frame.ran_lastAtState fr site _ (fun st hst => by rw [hsite] at hst; cases hst)
  · rw [hh]
    apply Frame.ran_lastAtState
    intro st' hst'
    rw [hm st] at hst'
    cases hst'
    rw [Frame.ran_currentState]
    exact hc

theorem guardedStep_lastAtState (impl : State σ D F) (cm : ChatMachine σ D F)
    (s : SessionState σ D) : (guardedStep impl cm s).LastAtState := by
  unfold guardedStep
  split
  · exact hookThenMethod_lastAtState _ rfl Site.globalOnEnter rfl _ Site.OnEnter (fun _ => rfl) _
  · exact hookThenMethod_lastAtState _ rfl Site.globalOnUpdate rfl _ Site.OnUpdate
      (fun _ => rfl) _

theorem transition_lastAtState (impl : State σ D F) (cm : ChatMachine σ D F) (fr : Frame σ D F)
    (h : fr.panicking = none) (hl : fr.LastAtState) : (transition impl cm fr).LastAtState := by
  rcases transition_cases impl cm fr h with ⟨_, ht⟩ | ⟨S, p, hc, _, ht⟩ | ⟨S, _, hx, ht⟩
  · rw [ht]; exact hl
  · rw [ht]
    apply Frame.ran_lastAtState
    intro st hst
    cases hst
    exact hc
  · rw [ht]
    exact hookThenMethod_lastAtState
      (fr.ran (Site.OnExit S) (impl.OnExit S fr.session)).applied hx Site.globalOnEnter rfl _
      Site.OnEnter (fun _ => rfl) _

theorem dispatch_lastAtState (impl : State σ D F) (cm : ChatMachine σ D F) (input : String)
    (s : SessionState σ D) : (dispatch impl cm input s).LastAtState := by
  have hg := guardedStep_lastAtState impl cm (s.beginTurn input)
  rcases dispatch_cases impl cm input s with ⟨_, hd⟩ | ⟨_, hd⟩ | ⟨_, _, _, hd⟩
  · rw [hd]; exact hg
  · rw [hd]; exact transition_lastAtState impl cm _ rfl hg
  · rw [hd]; exact hg

/-- The guarded step leaves the current state of an update turn alone and sets
it to the start state on a first turn. -/
theorem guardedStep_currentState (impl : State σ D F) (cm : ChatMachine σ D F)
    (s : SessionState σ D) :
    (guardedStep impl cm s).session.currentState
      = match s.currentState with
        | none => cm.startState
        | some S => some S := by
  rcases hs : s.currentState with _ | S
  · rcases first_step_cases impl cm hs with ⟨p, _, hg⟩ | ⟨_, _, hg⟩ | ⟨A, _, _, hg⟩
    · rw [hg, Frame.ran_currentState]; rfl
    · rw [hg]
      show ((Frame.start _ []).ran Site.globalOnEnter _).session.currentState = _
      rw [Frame.ran_currentState]; rfl
    · rw [hg, Frame.ran_currentState, Frame.ran_currentState]; rfl
  · rcases update_step_cases impl cm hs with ⟨p, _, hg⟩ | ⟨_, hg⟩
    · rw [hg, Frame.ran_currentState]; exact hs
    · rw [hg, Frame.ran_currentState, Frame.ran_currentState]; exact hs

/-- A transition changes the current state only after `OnExit` has returned. -/
theorem transition_currentState (impl : State σ D F) (cm : ChatMachine σ D F)
    (fr : Frame σ D F) (h : fr.panicking = none)
    (hno : ∀ i ∈ (transition impl cm fr).trace, ∀ st, i.site = Site.OnExit st → i.exit ≠ none) :
    (transition impl cm fr).session.currentState = fr.session.currentState := by
  rcases transition_cases impl cm fr h with ⟨_, ht⟩ | ⟨S, p, _, _, ht⟩ | ⟨S, _, hx, ht⟩
  · rw [ht]
  · rw [ht, Frame.ran_currentState]
  · exfalso
    have hmem : (⟨Site.OnExit S, executed (impl.OnExit S fr.session),
        (runBody (impl.OnExit S fr.session) fr.session).panicking⟩ : Invocation σ D F)
        ∈ (transition impl cm fr).trace := by
      rw [ht]
      rcases hookThenMethod_cases (fr.ran (Site.OnExit S) (impl.OnExit S fr.session)).applied hx
          Site.globalOnEnter cm.globalOnEnter Site.OnEnter impl.OnEnter with
        ⟨p, _, hh⟩ | ⟨_, _, hh⟩ | ⟨st, _, _, hh⟩
      · rw [hh]; simp
      · rw [hh]; simp
      · rw [hh]; simp
    exact hno _ hmem S rfl hx

theorem dispatch_currentState (impl : State σ D F) (cm : ChatMachine σ D F) (input : String)
    (s : SessionState σ D)
    (hno : ∀ i ∈ (dispatch impl cm input s).trace, ∀ st,
      i.site = Site.OnExit st → i.exit ≠ none) :
    (dispatch impl cm input s).session.currentState
      = match s.currentState with
        | none => cm.startState
        | some S => some S := by
  have hg := guardedStep_currentState impl cm (s.beginTurn input)
  rcases dispatch_cases impl cm input s with ⟨_, hd⟩ | ⟨_, hd⟩ | ⟨_, _, _, hd⟩
  · rw [hd]; exact hg
  · rw [hd] at hno ⊢
    rw [transition_currentState impl cm _ rfl hno]
    exact hg
  · rw [hd]; exact hg

theorem store_same (sessions : String → Option (SessionState σ D)) (key : String)
    (s : SessionState σ D) : store sessions key s key = some s := by
  simp [store]

theorem delete_same (sessions : String → Option (SessionState σ D)) (key : String) :
    delete sessions key key = none := by
  simp [delete]

/-! ## Lemmas: output and termination flag -/

theorem written_append (cs ds : List (Call σ D F)) (o : String) :
    written (cs ++ ds) o = written ds (written cs o) := by
  induction cs generalizing o with
  | nil => rfl
  | cons c cs ih => cases c <;> exact ih _

theorem appended_append (cs ds : List (Call σ D F)) :
    appended (cs ++ ds) = appended cs ++ appended ds := by
  induction cs with
  | nil => simp [appended]
  | cons c cs ih =>
    cases c
    case AddOutput output =>
      show (TrimSpace output ++ "\n") ++ appended (cs ++ ds) = _
      rw [ih]
      simp only [appended, String.append_assoc]
    all_goals exact ih

/-- Without direct writes to `Output`, what is written is the buffer followed
by the appended lines. -/
theorem written_eq_appended (cs : List (Call σ D F)) (o : String)
    (h : ∀ c ∈ cs, ∀ v, c ≠ Call.setOutput v) : written cs o = o ++ appended cs := by
  induction cs generalizing o with
  | nil => simp [written, appended]
  | cons c cs ih =>
    have ih' := fun o => ih o (fun c hc => h c (List.mem_cons_of_mem _ hc))
    cases c with
    | setOutput v => exact absurd rfl (h _ (List.mem_cons_self _ _) v)
    | AddOutput output => simp only [written, appended, ih', String.append_assoc]
    | ChangeState state => simp only [written, appended, ih']
    | End => simp only [written, appended, ih']
    | setInput v => simp only [written, appended, ih']
    | setNextState v => simp only [written, appended, ih']
    | setData v => simp only [written, appended, ih']
    | panic v => simp only [written, appended, ih']

theorem runBody_Output (cs : List (Call σ D F)) (s : SessionState σ D) :
    (runBody cs s).session.Output = written (executed cs) s.Output := by
  induction cs generalizing s with
  | nil => rfl
  | cons c cs ih =>
    cases c <;> simp [runBody, executed, Call.run, Call.unwinds, written, ih,
      SessionState.AddOutput, SessionState.End, SessionState.ChangeState]

theorem runBody_endSession (cs : List (Call σ D F)) (s : SessionState σ D)
    (h : s.endSession = true ∨ Call.End ∈ executed cs) :
    (runBody cs s).session.endSession = true := by
  induction cs generalizing s with
  | nil => simpa [runBody, executed] using h
  | cons c cs ih =>
    cases c <;> simp [runBody, executed, Call.run, Call.unwinds, SessionState.AddOutput,
      SessionState.End, SessionState.ChangeState] at h ⊢
    all_goals first
      | exact ih _ h
      | exact ih _ (Or.inl rfl)
      | exact h

theorem allCalls_append (tr tr' : List (Invocation σ D F)) :
    allCalls (tr ++ tr') = allCalls tr ++ allCalls tr' := by
  simp [allCalls]

theorem Frame.ran_logged (fr : Frame σ D F) (site : Site σ) (body : List (Call σ D F))
    (h : fr.Logged) : (fr.ran site body).Logged := by
  unfold Frame.Logged at h ⊢
  rw [Frame.ran_session, runBody_Output, Frame.ran_trace, allCalls_append, written_append, h]
  simp [allCalls]

theorem Frame.ran_ended (fr : Frame σ D F) (site : Site σ) (body : List (Call σ D F))
    (h : fr.Ended) : (fr.ran site body).Ended := by
  unfold Frame.Ended at h ⊢
  rintro ⟨i, hi, hend⟩
  rw [Frame.ran_session]
  apply runBody_endSession
  rw [Frame.ran_trace] at hi
  rcases List.mem_append.mp hi with hm | hm
  · exact Or.inl (h ⟨i, hm, hend⟩)
  · rw [List.mem_singleton] at hm
    subst hm
    exact Or.inr hend

theorem hookThenMethod_logged_ended (fr : Frame σ D F) (h : fr.panicking = none)
    (hl : fr.Logged ∧ fr.Ended) (site : Site σ) (fn : Callback σ D F) (msite : σ → Site σ)
    (m : σ → Callback σ D F) :
    ((fr.invoke site fn).invokeMethod msite m).Logged
      ∧ ((fr.invoke site fn).invokeMethod msite m).Ended := by
  rcases hookThenMethod_cases fr h site fn msite m with
    ⟨p, _, hh⟩ | ⟨hp, _, hh⟩ | ⟨st, hp, _, hh⟩
  · rw [hh]; exact ⟨Frame.ran_logged _ _ _ hl.1, Frame.ran_ended _ _ _ hl.2⟩
  · rw [hh]; exact ⟨Frame.ran_logged _ _ _ hl.1, Frame.ran_ended _ _ _ hl.2⟩
  · rw [hh]
    exact ⟨Frame.ran_logged _ _ _ (Frame.ran_logged _ _ _ hl.1),
      Frame.ran_ended _ _ _ (Frame.ran_ended _ _ _ hl.2)⟩

theorem guardedStep_logged_ended (impl : State σ D F) (cm : ChatMachine σ D F)
    (s : SessionState σ D) (ho : s.Output = "") :
    (guardedStep impl cm s).Logged ∧ (guardedStep impl cm s).Ended := by
  unfold guardedStep
  split
  · exact hookThenMethod_logged_ended _ rfl
      ⟨by simp [Frame.Logged, Frame.assign, Frame.start, allCalls, written, ho],
       by simp [Frame.Ended, Frame.assign, Frame.start]⟩ _ _ _ _
  · exact hookThenMethod_logged_ended _ rfl
      ⟨by simp [Frame.Logged, Frame.start, allCalls, written, ho],
       by simp [Frame.Ended, Frame.start]⟩ _ _ _ _

theorem transition_logged_ended (impl : State σ D F) (cm : ChatMachine σ D F)
    (fr : Frame σ D F) (h : fr.panicking = none) (hl : fr.Logged ∧ fr.Ended) :
    (transition impl cm fr).Logged ∧ (transition impl cm fr).Ended := by
  rcases transition_cases impl cm fr h with ⟨_, ht⟩ | ⟨S, p, _, _, ht⟩ | ⟨S, _, hx, ht⟩
  · rw [ht]; exact hl
  · rw [ht]; exact ⟨Frame.ran_logged _ _ _ hl.1, Frame.ran_ended _ _ _ hl.2⟩
  · rw [ht]
    exact hookThenMethod_logged_ended
      (fr.ran (Site.OnExit S) (impl.OnExit S fr.session)).applied hx
      ⟨Frame.ran_logged _ _ _ hl.1, Frame.ran_ended _ _ _ hl.2⟩ _ _ _ _

theorem dispatch_logged_ended (impl : State σ D F) (cm : ChatMachine σ D F) (input : String)
    (s : SessionState σ D) :
    (dispatch impl cm input s).Logged ∧ (dispatch impl cm input s).Ended := by
  have hg := guardedStep_logged_ended impl cm (s.beginTurn input) rfl
  rcases dispatch_cases impl cm input s with ⟨_, hd⟩ | ⟨_, hd⟩ | ⟨_, _, _, hd⟩
  · rw [hd]; exact hg
  · rw [hd]; exact transition_logged_ended impl cm _ rfl hg
  · rw [hd]; exact hg

/-! ## Lemmas: an induction principle for `dispatch` -/

theorem hookThenMethod_induction (P : Frame σ D F → Prop)
    (hran : ∀ (fr : Frame σ D F) site body, fr.panicking = none →
      (∀ st, site.state = some st → fr.session.currentState = some st) →
      P fr → P (fr.ran site body))
    (hnil : ∀ fr : Frame σ D F, fr.panicking = none → fr.session.currentState = none →
      P fr → P { fr with panicking := some PanicValue.nilDereference })
    (fr : Frame σ D F) (h : fr.panicking = none) (hP : P fr) (site : Site σ)
    (hsite : site.state = none) (fn : Callback σ D F) (msite : σ → Site σ)
    (hm : ∀ st, (msite st).state = some st) (m : σ → Callback σ D F) :
    P ((fr.invoke site fn).invokeMethod msite m) := by
  have hhook : P (fr.ran site (fn fr.session)) :=
    hran fr site _ h (fun st hst => by rw [hsite] at hst; cases hst) hP
  rcases hookThenMethod_cases fr h site fn msite m with
    ⟨p, _, hh⟩ | ⟨hp, hc, hh⟩ | ⟨st, hp, hc, hh⟩
  · rw [hh]; exact hhook
  · rw [hh]
    exact hnil _ hp (by rw [Frame.ran_currentState]; exact hc) hhook
  · rw [hh]
    refine hran _ _ _ hp ?_ hhook
    intro st' hst'
    rw [hm st] at hst'
    cases hst'
    rw [Frame.ran_currentState]
    exact hc

theorem transition_induction (impl : State σ D F) (cm : ChatMachine σ D F)
    (P : Frame σ D F → Prop)
    (hran : ∀ (fr : Frame σ D F) site body, fr.panicking = none →
      (∀ st, site.state = some st → fr.session.currentState = some st) →
      P fr → P (fr.ran site body))
    (hnil : ∀ fr : Frame σ D F, fr.panicking = none → fr.session.currentState = none →
      P fr → P { fr with panicking := some PanicValue.nilDereference })
    (happlied : ∀ fr : Frame σ D F, fr.panicking = none → P fr → P fr.applied)
    (fr : Frame σ D F) (h : fr.panicking = none) (hP : P fr) :
    P (transition impl cm fr) := by
  rcases transition_cases impl cm fr h with ⟨hc, ht⟩ | ⟨S, p, hc, _, ht⟩ | ⟨S, hc, hx, ht⟩
  · rw [ht]; exact hnil _ h hc hP
  · rw [ht]
    exact hran _ _ _ h (fun st hst => by cases hst; exact hc) hP
  · rw [ht]
    have hexit : P (fr.ran (Site.OnExit S) (impl.OnExit S fr.session)) :=
      hran _ _ _ h (fun st hst => by cases hst; exact hc) hP
    exact hookThenMethod_induction P hran hnil
      (fr.ran (Site.OnExit S) (impl.OnExit S fr.session)).applied hx (happlied _ hx hexit)
      Site.globalOnEnter rfl _ Site.OnEnter (fun _ => rfl) _

/-- A property of frames that holds when a turn starts and is kept by every
statement of `Run` holds when `dispatch` ends. -/
theorem dispatch_induction (impl : State σ D F) (cm : ChatMachine σ D F) (input : String)
    (s : SessionState σ D) (P : Frame σ D F → Prop)
    (h0 : ∀ c, P (Frame.start { s.beginTurn input with currentState := c } []))
    (hran : ∀ (fr : Frame σ D F) site body, fr.panicking = none →
      (∀ st, site.state = some st → fr.session.currentState = some st) →
      P fr → P (fr.ran site body))
    (hnil : ∀ fr : Frame σ D F, fr.panicking = none → fr.session.currentState = none →
      P fr → P { fr with panicking := some PanicValue.nilDereference })
    (happlied : ∀ fr : Frame σ D F, fr.panicking = none → P fr → P fr.applied)
    (hrec : ∀ fr : Frame σ D F, fr.panicking = some PanicValue.ChangeState → P fr →
      P { fr with panicking := none }) :
    P (dispatch impl cm input s) := by
  have hg : P (guardedStep impl cm (s.beginTurn input)) := by
    unfold guardedStep
    split
    · exact hookThenMethod_induction P hran hnil _ rfl (h0 cm.startState) Site.globalOnEnter
        rfl _ Site.OnEnter (fun _ => rfl) _
    · exact hookThenMethod_induction P hran hnil _ rfl (h0 (s.beginTurn input).currentState)
        Site.globalOnUpdate rfl _ Site.OnUpdate (fun _ => rfl) _
  rcases dispatch_cases impl cm input s with ⟨_, hd⟩ | ⟨hcs, hd⟩ | ⟨_, _, _, hd⟩
  · rw [hd]; exact hg
  · rw [hd]
    exact transition_induction impl cm P hran hnil happlied _ rfl (hrec _ hcs hg)
  · rw [hd]; exact hg

theorem dispatch_panicFrom (impl : State σ D F) (cm : ChatMachine σ D F) (input : String)
    (s : SessionState σ D) : (dispatch impl cm input s).PanicFrom := by
  apply dispatch_induction impl cm input s Frame.PanicFrom
  · intro c p hp; cases hp
  · intro fr site body _ _ _ p hp
    right
    exact ⟨⟨site, executed body, (runBody body fr.session).panicking⟩,
      by rw [Frame.ran_trace]; simp, hp⟩
  · intro fr _ _ _ p hp
    left
    cases hp; rfl
  · intro fr _ h; exact h
  · intro fr _ _ p hp; cases hp

/-! ## Lemmas: the invocations of a turn -/

theorem transition_shape (impl : State σ D F) (cm : ChatMachine σ D F) (fr : Frame σ D F)
    (h : fr.panicking = none) :
    ∃ ext, (transition impl cm fr).trace = fr.trace ++ ext ∧ TransitionShape ext := by
  rcases transition_cases impl cm fr h with ⟨_, ht⟩ | ⟨S, p, _, hp, ht⟩ | ⟨S, _, hx, ht⟩
  · exact ⟨[], by rw [ht]; simp, Or.inl rfl⟩
  · refine ⟨_, by rw [ht, Frame.ran_trace], Or.inr (Or.inl ⟨_, rfl, ⟨S, rfl⟩, ?_⟩)⟩
    rw [Frame.ran_panicking] at hp
    simp [hp]
  · rw [ht]
    rw [Frame.ran_panicking] at hx
    rcases hookThenMethod_cases (fr.ran (Site.OnExit S) (impl.OnExit S fr.session)).applied hx
        Site.globalOnEnter cm.globalOnEnter Site.OnEnter impl.OnEnter with
      ⟨p, _, hh⟩ | ⟨_, _, hh⟩ | ⟨st, hp, _, hh⟩
    · refine ⟨?_, ?_, ?_⟩
      rotate_left
      · rw [hh]
        simp only [Frame.ran_trace, Frame.applied_trace, List.append_assoc]
        exact rfl
      · exact Or.inr (Or.inr (Or.inl ⟨_, _, rfl, ⟨S, rfl⟩, hx, rfl⟩))
    · refine ⟨?_, ?_, ?_⟩
      rotate_left
      · rw [hh]
        simp only [Frame.ran_trace, Frame.applied_trace, List.append_assoc]
        exact rfl
      · exact Or.inr (Or.inr (Or.inl ⟨_, _, rfl, ⟨S, rfl⟩, hx, rfl⟩))
    · refine ⟨?_, ?_, ?_⟩
      rotate_left
      · rw [hh]
        simp only [Frame.ran_trace, Frame.applied_trace, List.append_assoc]
        exact rfl
      · exact Or.inr (Or.inr (Or.inr ⟨_, _, _, rfl, ⟨S, rfl⟩, hx, rfl, hp, ⟨st, rfl⟩⟩))

theorem TransitionShape.inTransition {ext : List (Invocation σ D F)} (h : TransitionShape ext) :
    ∀ i ∈ ext, i.site.inTransition = true := by
  rcases h with rfl | ⟨x, rfl, ⟨S, hx⟩, _⟩ | ⟨x, g, rfl, ⟨S, hx⟩, _, hg⟩
    | ⟨x, g, e, rfl, ⟨S, hx⟩, _, hg, _, ⟨T, he⟩⟩
  · simp
  · simp [hx, Site.inTransition]
  · simp [hx, hg, Site.inTransition]
  · simp [hx, hg, he, Site.inTransition]

/-- The trace of `dispatch` is that of the guarded step followed by the
invocations of the transition, if one was requested. -/
theorem dispatch_trace (impl : State σ D F) (cm : ChatMachine σ D F) (input : String)
    (s : SessionState σ D) :
    ∃ ext, (dispatch impl cm input s).trace
        = (guardedStep impl cm (s.beginTurn input)).trace ++ ext
      ∧ TransitionShape ext := by
  rcases dispatch_cases impl cm input s with ⟨_, hd⟩ | ⟨hcs, hd⟩ | ⟨_, _, _, hd⟩
  · exact ⟨[], by rw [hd]; simp, Or.inl rfl⟩
  · rw [hd]
    exact transition_shape impl cm _ rfl
  · exact ⟨[], by rw [hd]; simp, Or.inl rfl⟩

/-! ## Lemmas: first turns -/

/-- A first turn invokes only the global on-enter hook, `OnEnter` and
`OnExit`. -/
theorem first_turn_sites (impl : State σ D F) (cm : ChatMachine σ D F) (input : String)
    (s : SessionState σ D) (h : s.currentState = none) :
    ∀ i ∈ (dispatch impl cm input s).trace, i.site.inTransition = true := by
  obtain ⟨ext, he, hshape⟩ := dispatch_trace impl cm input s
  have h0 : (s.beginTurn input).currentState = none := h
  intro i hi
  rw [he] at hi
  rcases List.mem_append.mp hi with hm | hm
  · rcases first_step_cases impl cm h0 with ⟨p, _, hg⟩ | ⟨_, _, hg⟩ | ⟨A, _, _, hg⟩
    · rw [hg] at hm
      simp [Frame.start] at hm
      rw [hm]; rfl
    · rw [hg] at hm
      simp [Frame.start] at hm
      rw [hm]; rfl
    · rw [hg] at hm
      simp [Frame.start] at hm
      rcases hm with hm | hm <;> rw [hm] <;> rfl
  · exact hshape.inTransition i hm

/-- On a first turn with the start state `A`, when the global on-enter hook
returns, the turn starts with the hook and `A.OnEnter`; what follows is a
transition. -/
theorem first_turn_head (impl : State σ D F) (cm : ChatMachine σ D F) (input : String)
    (s : SessionState σ D) (h : s.currentState = none) (A : σ) (hstart : cm.startState = some A)
    (hcalls : List (Call σ D F))
    (hhook : (dispatch impl cm input s).trace.head? = some ⟨Site.globalOnEnter, hcalls, none⟩) :
    ∃ ecalls e rest, (dispatch impl cm input s).trace
        = ⟨Site.globalOnEnter, hcalls, none⟩ :: ⟨Site.OnEnter A, ecalls, e⟩ :: rest
      ∧ TransitionShape rest := by
  obtain ⟨ext, he, hshape⟩ := dispatch_trace impl cm input s
  have h0 : (s.beginTurn input).currentState = none := h
  rw [he] at hhook ⊢
  rcases first_step_cases impl cm h0 with ⟨p, hp, hg⟩ | ⟨_, hn, _⟩ | ⟨B, hp, hB, hg⟩
  · exfalso
    rw [hg] at hhook
    simp [Frame.start] at hhook
    rw [Frame.ran_panicking] at hp
    simp only [Frame.start] at hp
    rw [hp] at hhook
    simp at hhook
  · rw [hstart] at hn; cases hn
  · rw [hstart] at hB; cases hB
    rw [hg] at hhook ⊢
    simp [Frame.start] at hhook
    refine ⟨?_, ?_, ext, ?_, hshape⟩
    rotate_left 2
    · simp only [Frame.ran_trace, Frame.start, List.nil_append, List.cons_append]
      rw [hhook.1, hhook.2]
      exact rfl

theorem Run_machine (impl : State σ D F) (cm : ChatMachine σ D F) (input key : String) :
    (cm.Run impl input key).machine
      = { cm with sessions := (cm.Run impl input key).machine.sessions } := by
  rw [Run_eq]
  split <;> rfl

/-- A turn reads the registry only at its key. -/
theorem Run_fresh (impl : State σ D F) (cm : ChatMachine σ D F) (input key : String)
    (reg reg' : String → Option (SessionState σ D)) (h : reg key = none) (h' : reg' key = none) :
    ({ cm with sessions := reg }.Run impl input key).result
        = ({ cm with sessions := reg' }.Run impl input key).result
    ∧ ({ cm with sessions := reg }.Run impl input key).session
        = ({ cm with sessions := reg' }.Run impl input key).session
    ∧ ({ cm with sessions := reg }.Run impl input key).trace
        = ({ cm with sessions := reg' }.Run impl input key).trace := by
  have h1 : (({ cm with sessions := reg } : ChatMachine σ D F).getSession key).1
      = SessionState.blank σ D := getSession_fst_of_none h
  have h2 : (({ cm with sessions := reg' } : ChatMachine σ D F).getSession key).1
      = SessionState.blank σ D := getSession_fst_of_none h'
  have e1 : dispatch impl { cm with sessions := reg } input
      (({ cm with sessions := reg } : ChatMachine σ D F).getSession key).1
        = dispatch impl cm input (SessionState.blank σ D) := by
    rw [h1]; rfl
  have e2 : dispatch impl { cm with sessions := reg' } input
      (({ cm with sessions := reg' } : ChatMachine σ D F).getSession key).1
        = dispatch impl cm input (SessionState.blank σ D) := by
    rw [h2]; rfl
  refine ⟨?_, ?_, ?_⟩
  · rcases hp : (dispatch impl cm input (SessionState.blank σ D)).panicking with _ | p
    · rw [Run_result_of_returned _ _ _ _ (by rw [e1]; exact hp),
        Run_result_of_returned _ _ _ _ (by rw [e2]; exact hp), e1, e2]
    · rw [Run_result_of_panicking _ _ _ _ (by rw [e1]; exact hp),
        Run_result_of_panicking _ _ _ _ (by rw [e2]; exact hp)]
  · rw [Run_session, Run_session, e1, e2]
  · rw [Run_trace, Run_trace, e1, e2]

/-! ## Lemmas: a turn that applies a transition -/

/-- In a turn of a session that has a current state, an `OnUpdate` invocation
is the second invocation of the guarded step, after the global on-update hook
returned, and it is the `OnUpdate` of the current state. -/
theorem update_step_of_invoked (impl : State σ D F) (cm : ChatMachine σ D F) (input : String)
    (s : SessionState σ D) (S S' : σ) (hS : s.currentState = some S) (i : Invocation σ D F)
    (hi : i ∈ (dispatch impl cm input s).trace) (hsite : i.site = Site.OnUpdate S') :
    S' = S
    ∧ (guardedStep impl cm (s.beginTurn input)).panicking = i.exit
    ∧ (guardedStep impl cm (s.beginTurn input)).session.currentState = some S
    ∧ ∃ hu, (guardedStep impl cm (s.beginTurn input)).trace
        = [⟨Site.globalOnUpdate, hu, none⟩, i] := by
  have hS0 : (s.beginTurn input).currentState = some S := hS
  obtain ⟨ext, he, hshape⟩ := dispatch_trace impl cm input s
  rw [he] at hi
  have hg : i ∈ (guardedStep impl cm (s.beginTurn input)).trace := by
    rcases List.mem_append.mp hi with hm | hm
    · exact hm
    · have := hshape.inTransition i hm
      rw [hsite] at this; cases this
  rcases update_step_cases impl cm hS0 with ⟨p, hp, hh⟩ | ⟨hp, hh⟩
  · exfalso
    rw [hh] at hg
    simp [Frame.start] at hg
    rw [hg] at hsite; cases hsite
  · rw [hh] at hg ⊢
    simp only [Frame.ran_trace, Frame.start, List.nil_append, List.cons_append,
      List.mem_cons, List.mem_singleton, List.not_mem_nil, or_false] at hg
    rcases hg with hg | hg
    · rw [hg] at hsite; cases hsite
    · have hS' : S' = S := by
        rw [hg] at hsite
        cases hsite
        rfl
      refine ⟨hS', by rw [hg]; rfl, ?_, executed (cm.globalOnUpdate (s.beginTurn input)), ?_⟩
      · rw [Frame.ran_currentState, Frame.ran_currentState]; exact hS0
      · simp only [Frame.ran_trace, Frame.start, List.nil_append, List.cons_append]
        rw [Frame.ran_panicking] at hp
        simp only [Frame.start] at hp
        rw [hp, hg]

/-- A transition during which the `OnEnter` of `T` is invoked and returns:
`OnExit` of the current state returned, the global on-enter hook returned, the
turn is not panicking, and the current state is `T`. -/
theorem transition_entered (impl : State σ D F) (cm : ChatMachine σ D F) (fr : Frame σ D F)
    (h : fr.panicking = none) (T : σ) (es : List (Call σ D F))
    (hE : (⟨Site.OnEnter T, es, none⟩ : Invocation σ D F) ∈ (transition impl cm fr).trace)
    (hnot : (⟨Site.OnEnter T, es, none⟩ : Invocation σ D F) ∉ fr.trace) :
    ∃ S xcalls hcalls, fr.session.currentState = some S
      ∧ (transition impl cm fr).trace
          = fr.trace ++ [⟨Site.OnExit S, xcalls, none⟩, ⟨Site.globalOnEnter, hcalls, none⟩,
              ⟨Site.OnEnter T, es, none⟩]
      ∧ (transition impl cm fr).panicking = none
      ∧ (transition impl cm fr).session.currentState = some T := by
  rcases transition_cases impl cm fr h with ⟨_, ht⟩ | ⟨S, p, _, _, ht⟩ | ⟨S, hc, hx, ht⟩
  · exfalso
    rw [ht] at hE
    exact hnot hE
  · exfalso
    rw [ht, Frame.ran_trace] at hE
    rcases List.mem_append.mp hE with hm | hm
    · exact hnot hm
    · simp at hm
  · rw [ht] at hE ⊢
    rcases hookThenMethod_cases (fr.ran (Site.OnExit S) (impl.OnExit S fr.session)).applied hx
        Site.globalOnEnter cm.globalOnEnter Site.OnEnter impl.OnEnter with
      ⟨p, _, hh⟩ | ⟨_, _, hh⟩ | ⟨st, hp, hst, hh⟩
    · exfalso
      rw [hh] at hE
      simp only [Frame.ran_trace, Frame.applied_trace, List.append_assoc, List.mem_append] at hE
      rcases hE with hm | hm | hm
      · exact hnot hm
      · simp at hm
      · simp at hm
    · exfalso
      rw [hh] at hE
      simp only [Frame.ran_trace, Frame.applied_trace, List.append_assoc, List.mem_append] at hE
      rcases hE with hm | hm | hm
      · exact hnot hm
      · simp at hm
      · simp at hm
    · rw [hh] at hE ⊢
      simp only [Frame.ran_trace, Frame.applied_trace, List.append_assoc, List.mem_append] at hE
      rcases hE with hm | hm | hm | hm
      · exact absurd hm hnot
      · simp at hm
      · simp at hm
      · rw [List.mem_singleton] at hm
        have h1 := congrArg Invocation.site hm
        have h2 := congrArg Invocation.calls hm
        have h3 := congrArg Invocation.exit hm
        simp only at h1 h2 h3
        cases h1
        refine ⟨S, executed (impl.OnExit S fr.session),
          executed (cm.globalOnEnter
            (fr.ran (Site.OnExit S) (impl.OnExit S fr.session)).applied.session),
          hc, ?_, h3.symm, ?_⟩
        · simp only [Frame.ran_trace, Frame.applied_trace, List.append_assoc,
            List.singleton_append]
          rw [Frame.ran_panicking] at hp hx
          rw [← h2, ← h3, hp, hx]
          rfl
        · rw [Frame.ran_currentState, Frame.ran_currentState]
          exact hst

/-! ## Lemmas: hooks and the callbacks they precede -/

theorem guardedStep_shape (impl : State σ D F) (cm : ChatMachine σ D F)
    (s : SessionState σ D) : GuardedShape (guardedStep impl cm s).trace := by
  rcases hs : s.currentState with _ | S
  · rcases first_step_cases impl cm hs with ⟨p, _, hg⟩ | ⟨_, _, hg⟩ | ⟨A, hp, _, hg⟩
    · rw [hg]; exact Or.inl ⟨_, rfl, Or.inl rfl⟩
    · rw [hg]; exact Or.inl ⟨_, rfl, Or.inl rfl⟩
    · rw [hg]; exact Or.inr ⟨_, _, rfl, hp, Or.inl ⟨rfl, A, rfl⟩⟩
  · rcases update_step_cases impl cm hs with ⟨p, _, hg⟩ | ⟨hp, hg⟩
    · rw [hg]; exact Or.inl ⟨_, rfl, Or.inr rfl⟩
    · rw [hg]; exact Or.inr ⟨_, _, rfl, hp, Or.inr ⟨rfl, S, rfl⟩⟩

theorem hookedFrom_split (l pre post : List (Invocation σ D F)) (i : Invocation σ D F)
    (prev : Option (Invocation σ D F)) (h : hookedFrom prev l) (hl : l = pre ++ i :: post) :
    i.hooked (pre.getLast?.or prev) := by
  induction pre generalizing l prev with
  | nil =>
    subst hl
    exact h.1
  | cons a pre ih =>
    subst hl
    have := ih (pre ++ i :: post) (some a) h.2 rfl
    rcases hp : pre.getLast? with _ | b
    · have hnil : pre = [] := List.getLast?_eq_none_iff.mp hp
      subst hnil
      simpa using this
    · rw [hp] at this
      have hne : pre ≠ [] := by rintro rfl; simp at hp
      obtain ⟨c, t, rfl⟩ := List.exists_cons_of_ne_nil hne
      rw [List.getLast?_cons_cons, hp]
      exact this

theorem hookedFrom_of_shapes (g ext : List (Invocation σ D F)) (hg : GuardedShape g)
    (he : TransitionShape ext) : hookedFrom none (g ++ ext) := by
  rcases hg with ⟨h, rfl, hh⟩ | ⟨h, m, rfl, hx, hm⟩
  · have h1 : h.hooked none := by
      rcases hh with hh | hh <;> simp [Invocation.hooked, hh]
    rcases he with rfl | ⟨x, rfl, ⟨S, hxs⟩, _⟩ | ⟨x, k, rfl, ⟨S, hxs⟩, hxe, hk⟩
      | ⟨x, k, e, rfl, ⟨S, hxs⟩, hxe, hk, hke, ⟨T, hes⟩⟩
    · exact ⟨h1, trivial⟩
    · exact ⟨h1, by simp [Invocation.hooked, hxs], trivial⟩
    · exact ⟨h1, by simp [Invocation.hooked, hxs], by simp [Invocation.hooked, hk, hxs, hxe],
        trivial⟩
    · exact ⟨h1, by simp [Invocation.hooked, hxs], by simp [Invocation.hooked, hk, hxs, hxe],
        by simp [Invocation.hooked, hes, hk, hke], trivial⟩
  · have h1 : h.hooked none := by
      rcases hm with ⟨hh, _⟩ | ⟨hh, _⟩ <;> simp [Invocation.hooked, hh]
    have h2 : m.hooked (some h) := by
      rcases hm with ⟨hh, A, hA⟩ | ⟨hh, S, hS⟩
      · simp [Invocation.hooked, hh, hA, hx]
      · simp [Invocation.hooked, hh, hS, hx]
    rcases he with rfl | ⟨x, rfl, ⟨S, hxs⟩, _⟩ | ⟨x, k, rfl, ⟨S, hxs⟩, hxe, hk⟩
      | ⟨x, k, e, rfl, ⟨S, hxs⟩, hxe, hk, hke, ⟨T, hes⟩⟩
    · exact ⟨h1, h2, trivial⟩
    · exact ⟨h1, h2, by simp [Invocation.hooked, hxs], trivial⟩
    · exact ⟨h1, h2, by simp [Invocation.hooked, hxs],
        by simp [Invocation.hooked, hk, hxs, hxe], trivial⟩
    · exact ⟨h1, h2, by simp [Invocation.hooked, hxs],
        by simp [Invocation.hooked, hk, hxs, hxe], by simp [Invocation.hooked, hes, hk, hke],
        trivial⟩

/-! ## Lemmas: transitions requested by a hook or on a first turn -/

theorem runBody_NextState_of_returned (cs : List (Call σ D F)) (s : SessionState σ D)
    (hret : (runBody cs s).panicking = none)
    (hno : ∀ v, Call.setNextState v ∉ executed cs) :
    (runBody cs s).session.NextState = s.NextState := by
  induction cs generalizing s with
  | nil => rfl
  | cons c cs ih =>
    cases c with
    | setNextState v =>
      exact absurd (by simp [executed, Call.unwinds]) (hno v)
    | ChangeState state => simp [runBody, Call.run, SessionState.ChangeState] at hret
    | panic v => simp [runBody, Call.run] at hret
    | AddOutput output =>
      have := ih (s.AddOutput output) (by simpa [runBody, Call.run] using hret)
        (fun v hv => hno v (by simp [executed, Call.unwinds, hv]))
      simpa [runBody, Call.run, SessionState.AddOutput] using this
    | End =>
      have := ih s.End (by simpa [runBody, Call.run] using hret)
        (fun v hv => hno v (by simp [executed, Call.unwinds, hv]))
      simpa [runBody, Call.run, SessionState.End] using this
    | setInput w =>
      have := ih { s with Input := w } (by simpa [runBody, Call.run] using hret)
        (fun v hv => hno v (by simp [executed, Call.unwinds, hv]))
      simpa [runBody, Call.run] using this
    | setOutput w =>
      have := ih { s with Output := w } (by simpa [runBody, Call.run] using hret)
        (fun v hv => hno v (by simp [executed, Call.unwinds, hv]))
      simpa [runBody, Call.run] using this
    | setData w =>
      have := ih { s with Data := w } (by simpa [runBody, Call.run] using hret)
        (fun v hv => hno v (by simp [executed, Call.unwinds, hv]))
      simpa [runBody, Call.run] using this

/-- The lemma `transition_entered` with the final `NextState`: it is nil unless
the global on-enter hook or the new state's `OnEnter` assigns it directly. -/
theorem transition_entered_session (impl : State σ D F) (cm : ChatMachine σ D F)
    (fr : Frame σ D F) (h : fr.panicking = none) (T : σ) (es : List (Call σ D F))
    (hE : (⟨Site.OnEnter T, es, none⟩ : Invocation σ D F) ∈ (transition impl cm fr).trace)
    (hnot : (⟨Site.OnEnter T, es, none⟩ : Invocation σ D F) ∉ fr.trace) :
    ∃ S xcalls hcalls, fr.session.currentState = some S
      ∧ (transition impl cm fr).trace
          = fr.trace ++ [⟨Site.OnExit S, xcalls, none⟩, ⟨Site.globalOnEnter, hcalls, none⟩,
              ⟨Site.OnEnter T, es, none⟩]
      ∧ (transition impl cm fr).panicking = none
      ∧ (transition impl cm fr).session.currentState = some T
      ∧ ((∀ v, Call.setNextState v ∉ hcalls ++ es) →
          (transition impl cm fr).session.NextState = none) := by
  rcases transition_cases impl cm fr h with ⟨_, ht⟩ | ⟨S, p, _, _, ht⟩ | ⟨S, hc, hx, ht⟩
  · exfalso
    rw [ht] at hE
    exact hnot hE
  · exfalso
    rw [ht, Frame.ran_trace] at hE
    rcases List.mem_append.mp hE with hm | hm
    · exact hnot hm
    · simp at hm
  · rw [ht] at hE ⊢
    rcases hookThenMethod_cases (fr.ran (Site.OnExit S) (impl.OnExit S fr.session)).applied hx
        Site.globalOnEnter cm.globalOnEnter Site.OnEnter impl.OnEnter with
      ⟨p, _, hh⟩ | ⟨_, _, hh⟩ | ⟨st, hp, hst, hh⟩
    · exfalso
      rw [hh] at hE
      simp only [Frame.ran_trace, Frame.applied_trace, List.append_assoc, List.mem_append] at hE
      rcases hE with hm | hm | hm
      · exact hnot hm
      · simp at hm
      · simp at hm
    · exfalso
      rw [hh] at hE
      simp only [Frame.ran_trace, Frame.applied_trace, List.append_assoc, List.mem_append] at hE
      rcases hE with hm | hm | hm
      · exact hnot hm
      · simp at hm
      · simp at hm
    · rw [hh] at hE ⊢
      simp only [Frame.ran_trace, Frame.applied_trace, List.append_assoc, List.mem_append] at hE
      rcases hE with hm | hm | hm | hm
      · exact absurd hm hnot
      · simp at hm
      · simp at hm
      · rw [List.mem_singleton] at hm
        have h1 := congrArg Invocation.site hm
        have h2 := congrArg Invocation.calls hm
        have h3 := congrArg Invocation.exit hm
        simp only at h1 h2 h3
        cases h1
        refine ⟨S, executed (impl.OnExit S fr.session),
          executed (cm.globalOnEnter
            (fr.ran (Site.OnExit S) (impl.OnExit S fr.session)).applied.session),
          hc, ?_, h3.symm, ?_, ?_⟩
        · simp only [Frame.ran_trace, Frame.applied_trace, List.append_assoc,
            List.singleton_append]
          rw [Frame.ran_panicking] at hp hx
          rw [← h2, ← h3, hp, hx]
          rfl
        · rw [Frame.ran_currentState, Frame.ran_currentState]
          exact hst
        · intro hno
          rw [Frame.ran_session, runBody_NextState_of_returned _ _ h3.symm
            (fun v hv => hno v (List.mem_append_right _ (by rw [h2]; exact hv)))]
          rw [Frame.ran_session, runBody_NextState_of_returned _ _ hp
            (fun v hv => hno v (List.mem_append_left _ hv))]
          rfl

/-- In a turn of a session that has a current state, a global on-update hook
that panics is the only invocation of the guarded step. -/
theorem update_step_of_hook_panicked (impl : State σ D F) (cm : ChatMachine σ D F)
    (input : String) (s : SessionState σ D) (S : σ) (hS : s.currentState = some S)
    (i : Invocation σ D F) (hi : i ∈ (dispatch impl cm input s).trace)
    (hsite : i.site = Site.globalOnUpdate) (p : PanicValue F) (hp : i.exit = some p) :
    (guardedStep impl cm (s.beginTurn input)).trace = [i]
    ∧ (guardedStep impl cm (s.beginTurn input)).panicking = some p
    ∧ (guardedStep impl cm (s.beginTurn input)).session.currentState = some S := by
  have hS0 : (s.beginTurn input).currentState = some S := hS
  obtain ⟨ext, he, hshape⟩ := dispatch_trace impl cm input s
  rw [he] at hi
  have hg : i ∈ (guardedStep impl cm (s.beginTurn input)).trace := by
    rcases List.mem_append.mp hi with hm | hm
    · exact hm
    · have := hshape.inTransition i hm
      rw [hsite] at this; cases this
  rcases update_step_cases impl cm hS0 with ⟨q, hq, hh⟩ | ⟨hq, hh⟩
  · rw [hh] at hg ⊢
    simp only [Frame.ran_trace, Frame.start, List.nil_append, List.mem_singleton] at hg
    refine ⟨by rw [hg]; rfl, ?_, ?_⟩
    · rw [hg] at hp
      exact hp
    · rw [Frame.ran_currentState]; exact hS0
  · exfalso
    rw [hh] at hg
    simp only [Frame.ran_trace, Frame.start, List.nil_append, List.cons_append,
      List.mem_cons, List.mem_singleton, List.not_mem_nil, or_false] at hg
    rw [Frame.ran_panicking] at hq
    simp only [Frame.start] at hq
    rcases hg with hg | hg
    · rw [hg, hq] at hp; cases hp
    · rw [hg] at hsite; cases hsite

/-- On a first turn, an `OnEnter` invocation of the guarded step is its second
invocation, after the global on-enter hook returned; it is the `OnEnter` of the
start state and the guarded step ends as it ends. -/
theorem first_step_of_entered (impl : State σ D F) (cm : ChatMachine σ D F)
    (s : SessionState σ D) (h : s.currentState = none) (i : Invocation σ D F)
    (hi : i ∈ (guardedStep impl cm s).trace) (A : σ) (hsite : i.site = Site.OnEnter A) :
    cm.startState = some A
    ∧ (guardedStep impl cm s).panicking = i.exit
    ∧ ∃ h1, (guardedStep impl cm s).trace = [⟨Site.globalOnEnter, h1, none⟩, i] := by
  rcases first_step_cases impl cm h with ⟨p, _, hg⟩ | ⟨_, _, hg⟩ | ⟨B, hp, hB, hg⟩
  · exfalso
    rw [hg] at hi
    simp [Frame.start] at hi
    rw [hi] at hsite; cases hsite
  · exfalso
    rw [hg] at hi
    simp [Frame.start] at hi
    rw [hi] at hsite; cases hsite
  · rw [hg] at hi ⊢
    simp only [Frame.ran_trace, Frame.start, List.nil_append, List.cons_append,
      List.mem_cons, List.mem_singleton, List.not_mem_nil, or_false] at hi
    rcases hi with hi | hi
    · rw [hi] at hsite; cases hsite
    · have hAB : A = B := by
        rw [hi] at hsite
        cases hsite
        rfl
      subst hAB
      refine ⟨hB, by rw [hi]; rfl,
        executed (cm.globalOnEnter { s with currentState := cm.startState }), ?_⟩
      simp only [Frame.ran_trace, Frame.start, List.nil_append, List.cons_append]
      rw [Frame.ran_panicking] at hp
      simp only [Frame.start] at hp
      rw [hp, hi]

/-! ## Lemmas: the termination flag and the registry -/

theorem guardedStep_panicFrom (impl : State σ D F) (cm : ChatMachine σ D F)
    (s : SessionState σ D) : (guardedStep impl cm s).PanicFrom := by
  have hran : ∀ (fr : Frame σ D F) site body, fr.panicking = none →
      (∀ st, site.state = some st → fr.session.currentState = some st) →
      fr.PanicFrom → (fr.ran site body).PanicFrom := by
    intro fr site body _ _ _ p hp
    right
    exact ⟨⟨site, executed body, (runBody body fr.session).panicking⟩,
      by rw [Frame.ran_trace]; simp, hp⟩
  have hnil : ∀ fr : Frame σ D F, fr.panicking = none → fr.session.currentState = none →
      fr.PanicFrom → ({ fr with panicking := some PanicValue.nilDereference } :
        Frame σ D F).PanicFrom := by
    intro fr _ _ _ p hp
    left
    cases hp; rfl
  unfold guardedStep
  split
  · exact hookThenMethod_induction Frame.PanicFrom hran hnil _ rfl
      (fun p hp => by cases hp) Site.globalOnEnter rfl _ Site.OnEnter (fun _ => rfl) _
  · exact hookThenMethod_induction Frame.PanicFrom hran hnil _ rfl
      (fun p hp => by cases hp) Site.globalOnUpdate rfl _ Site.OnUpdate (fun _ => rfl) _

/-- A turn in which no invocation ends with the `ChangeState` signal is the
guarded step alone. -/
theorem dispatch_of_no_request (impl : State σ D F) (cm : ChatMachine σ D F) (input : String)
    (s : SessionState σ D)
    (hno : ∀ j ∈ (dispatch impl cm input s).trace, j.exit ≠ some PanicValue.ChangeState) :
    dispatch impl cm input s = guardedStep impl cm (s.beginTurn input) := by
  rcases dispatch_cases impl cm input s with ⟨_, hd⟩ | ⟨hcs, _⟩ | ⟨_, _, _, hd⟩
  · exact hd
  · exfalso
    rcases guardedStep_panicFrom impl cm (s.beginTurn input) _ hcs with h | ⟨j, hj, hje⟩
    · cases h
    · obtain ⟨ext, he, _⟩ := dispatch_trace impl cm input s
      exact hno j (by rw [he]; exact List.mem_append_left _ hj) hje
  · exact hd

theorem allCalls_of_mem (trace : List (Invocation σ D F)) (i : Invocation σ D F)
    (hi : i ∈ trace) :
    ∃ before after, allCalls trace = before ++ i.calls ++ after := by
  obtain ⟨l1, l2, rfl⟩ := List.append_of_mem hi
  exact ⟨allCalls l1, allCalls l2, by simp [allCalls]⟩

theorem runBody_endSession_origin (cs : List (Call σ D F)) (s : SessionState σ D)
    (h : (runBody cs s).session.endSession = true) :
    s.endSession = true ∨ Call.End ∈ executed cs := by
  induction cs generalizing s with
  | nil => exact Or.inl h
  | cons c cs ih =>
    cases c with
    | End => right; simp [executed, Call.unwinds]
    | ChangeState state =>
      left; simpa [runBody, Call.run, SessionState.ChangeState] using h
    | panic v => left; simpa [runBody, Call.run] using h
    | AddOutput output =>
      rcases ih (s.AddOutput output) (by simpa [runBody, Call.run] using h) with h1 | h1
      · exact Or.inl h1
      · right; simp [executed, Call.unwinds, h1]
    | setInput w =>
      rcases ih { s with Input := w } (by simpa [runBody, Call.run] using h) with h1 | h1
      · exact Or.inl h1
      · right; simp [executed, Call.unwinds, h1]
    | setOutput w =>
      rcases ih { s with Output := w } (by simpa [runBody, Call.run] using h) with h1 | h1
      · exact Or.inl h1
      · right; simp [executed, Call.unwinds, h1]
    | setNextState w =>
      rcases ih { s with NextState := w } (by simpa [runBody, Call.run] using h) with h1 | h1
      · exact Or.inl h1
      · right; simp [executed, Call.unwinds, h1]
    | setData w =>
      rcases ih { s with Data := w } (by simpa [runBody, Call.run] using h) with h1 | h1
      · exact Or.inl h1
      · right; simp [executed, Call.unwinds, h1]

/-- The termination flag is set at the end of `dispatch` only if it was set
before the turn or a callback of the turn called `End`. -/
theorem dispatch_endSession_origin (impl : State σ D F) (cm : ChatMachine σ D F)
    (input : String) (s : SessionState σ D)
    (h : (dispatch impl cm input s).session.endSession = true) :
    s.endSession = true ∨ ∃ i ∈ (dispatch impl cm input s).trace, Call.End ∈ i.calls := by
  revert h
  apply dispatch_induction impl cm input s
    (fun fr => fr.session.endSession = true →
      s.endSession = true ∨ ∃ i ∈ fr.trace, Call.End ∈ i.calls)
  · intro c h; exact Or.inl h
  · intro fr site body _ _ ih h
    rw [Frame.ran_session] at h
    rcases runBody_endSession_origin body fr.session h with h1 | h1
    · rcases ih h1 with h2 | ⟨i, hi, he⟩
      · exact Or.inl h2
      · exact Or.inr ⟨i, by rw [Frame.ran_trace]; exact List.mem_append_left _ hi, he⟩
    · exact Or.inr ⟨⟨site, executed body, (runBody body fr.session).panicking⟩,
        by rw [Frame.ran_trace]; simp, h1⟩
  · intro fr _ _ ih h; exact ih h
  · intro fr _ ih h; exact ih h
  · intro fr _ ih h; exact ih h

theorem getSession_snd_of_ne (cm : ChatMachine σ D F) (key k : String) (h : k ≠ key) :
    (cm.getSession key).2 k = cm.sessions k := by
  unfold ChatMachine.getSession
  split
  · rfl
  · simp [store, h]

/-! ## Lemmas: the buffer at the start of a turn -/

theorem written_of_no_write (cs : List (Call σ D F)) (o : String)
    (h : ∀ c ∈ cs, (∀ t, c ≠ Call.AddOutput t) ∧ ∀ v, c ≠ Call.setOutput v) :
    written cs o = o := by
  induction cs generalizing o with
  | nil => rfl
  | cons c cs ih =>
    have ih' := fun o => ih o (fun c hc => h c (List.mem_cons_of_mem _ hc))
    have hc := h c (List.mem_cons_self _ _)
    cases c with
    | AddOutput t => exact absurd rfl (hc.1 t)
    | setOutput v => exact absurd rfl (hc.2 v)
    | ChangeState state => exact ih' o
    | End => exact ih' o
    | setInput v => exact ih' o
    | setNextState v => exact ih' o
    | setData v => exact ih' o
    | panic v => exact ih' o

/-- A turn does not read the `Output` that the session had before. -/
theorem Run_forgets_Output (impl : State σ D F) (cm : ChatMachine σ D F) (input key : String)
    (reg : String → Option (SessionState σ D)) (s : SessionState σ D) (o : String) :
    ({ cm with sessions := store reg key s }.Run impl input key).result
        = ({ cm with sessions := store reg key { s with Output := o } }.Run impl input key).result
    ∧ ({ cm with sessions := store reg key s }.Run impl input key).session
        = ({ cm with sessions := store reg key { s with Output := o } }.Run impl input
            key).session
    ∧ ({ cm with sessions := store reg key s }.Run impl input key).trace
        = ({ cm with sessions := store reg key { s with Output := o } }.Run impl input
            key).trace := by
  have h1 : (({ cm with sessions := store reg key s } : ChatMachine σ D F).getSession key).1
      = s := getSession_fst_of_some (store_same _ _ _)
  have h2 : (({ cm with sessions := store reg key { s with Output := o } } :
      ChatMachine σ D F).getSession key).1 = { s with Output := o } :=
    getSession_fst_of_some (store_same _ _ _)
  have e1 : dispatch impl { cm with sessions := store reg key s } input
      (({ cm with sessions := store reg key s } : ChatMachine σ D F).getSession key).1
        = dispatch impl cm input s := by
    rw [h1]; rfl
  have e2 : dispatch impl { cm with sessions := store reg key { s with Output := o } } input
      (({ cm with sessions := store reg key { s with Output := o } } :
        ChatMachine σ D F).getSession key).1 = dispatch impl cm input s := by
    rw [h2]; rfl
  refine ⟨?_, ?_, ?_⟩
  · rcases hp : (dispatch impl cm input s).panicking with _ | p
    · rw [Run_result_of_returned _ _ _ _ (by rw [e1]; exact hp),
        Run_result_of_returned _ _ _ _ (by rw [e2]; exact hp), e1, e2]
    · rw [Run_result_of_panicking _ _ _ _ (by rw [e1]; exact hp),
        Run_result_of_panicking _ _ _ _ (by rw [e2]; exact hp)]
  · rw [Run_session, Run_session, e1, e2]
  · rw [Run_trace, Run_trace, e1, e2]

/-! ## Lemmas: the registry invariant -/

theorem executed_subset (cs : List (Call σ D F)) : ∀ c ∈ executed cs, c ∈ cs := by
  induction cs with
  | nil => intro c hc; exact hc
  | cons a cs ih =>
    intro c hc
    unfold executed at hc
    split at hc
    · rw [List.mem_singleton] at hc
      rw [hc]; exact List.mem_cons_self _ _
    · rcases List.mem_cons.mp hc with h | h
      · rw [h]; exact List.mem_cons_self _ _
      · exact List.mem_cons_of_mem _ (ih c h)

theorem viaAPI_no_setNextState (fn : Callback σ D F) (h : viaAPI fn) (s : SessionState σ D) :
    ∀ v, Call.setNextState v ∉ executed (fn s) := by
  intro v hv
  have := h s _ (executed_subset _ _ hv)
  cases this

theorem Frame.ran_NextState (fr : Frame σ D F) (site : Site σ) (fn : Callback σ D F)
    (h : viaAPI fn) (hp : (fr.ran site (fn fr.session)).panicking = none) :
    (fr.ran site (fn fr.session)).session.NextState = fr.session.NextState :=
  runBody_NextState_of_returned _ _ hp (viaAPI_no_setNextState fn h _)

theorem hookThenMethod_returned (fr : Frame σ D F) (h : fr.panicking = none) (site : Site σ)
    (fn : Callback σ D F) (hfn : viaAPI fn) (msite : σ → Site σ) (m : σ → Callback σ D F)
    (hm : ∀ st, viaAPI (m st))
    (hret : ((fr.invoke site fn).invokeMethod msite m).panicking = none) :
    ((fr.invoke site fn).invokeMethod msite m).session.NextState = fr.session.NextState
    ∧ ((fr.invoke site fn).invokeMethod msite m).session.currentState
        = fr.session.currentState
    ∧ fr.session.currentState ≠ none := by
  rcases hookThenMethod_cases fr h site fn msite m with
    ⟨p, hp, hh⟩ | ⟨_, _, hh⟩ | ⟨st, hp, hc, hh⟩
  · rw [hh, hp] at hret; cases hret
  · rw [hh] at hret; cases hret
  · rw [hh] at hret ⊢
    refine ⟨?_, ?_, by rw [hc]; simp⟩
    · rw [Frame.ran_NextState _ _ (m st) (hm st) hret, Frame.ran_NextState _ _ fn hfn hp]
    · rw [Frame.ran_currentState, Frame.ran_currentState]

theorem guardedStep_returned (impl : State σ D F) (cm : ChatMachine σ D F)
    (s : SessionState σ D)
    (hEnter : ∀ st, viaAPI (impl.OnEnter st)) (hUpdate : ∀ st, viaAPI (impl.OnUpdate st))
    (hgE : viaAPI cm.globalOnEnter) (hgU : viaAPI cm.globalOnUpdate)
    (hret : (guardedStep impl cm s).panicking = none) :
    (guardedStep impl cm s).session.NextState = s.NextState
    ∧ (guardedStep impl cm s).session.currentState ≠ none := by
  rcases hs : s.currentState with _ | S
  · have hg : guardedStep impl cm s
        = ((Frame.start { s with currentState := cm.startState } []).invoke
            Site.globalOnEnter cm.globalOnEnter).invokeMethod Site.OnEnter impl.OnEnter := by
      unfold guardedStep; rw [hs]; rfl
    rw [hg] at hret ⊢
    obtain ⟨h1, h2, h3⟩ := hookThenMethod_returned _ rfl _ _ hgE _ _ hEnter hret
    exact ⟨by rw [h1]; rfl, by rw [h2]; exact h3⟩
  · have hg : guardedStep impl cm s
        = ((Frame.start s []).invoke Site.globalOnUpdate cm.globalOnUpdate).invokeMethod
            Site.OnUpdate impl.OnUpdate := by
      unfold guardedStep; rw [hs]; rfl
    rw [hg] at hret ⊢
    obtain ⟨h1, h2, h3⟩ := hookThenMethod_returned _ rfl _ _ hgU _ _ hUpdate hret
    exact ⟨by rw [h1]; rfl, by rw [h2]; exact h3⟩

theorem transition_returned (impl : State σ D F) (cm : ChatMachine σ D F) (fr : Frame σ D F)
    (h : fr.panicking = none) (hEnter : ∀ st, viaAPI (impl.OnEnter st))
    (hgE : viaAPI cm.globalOnEnter) (hret : (transition impl cm fr).panicking = none) :
    (transition impl cm fr).session.NextState = none
    ∧ (transition impl cm fr).session.currentState ≠ none := by
  rcases transition_cases impl cm fr h with ⟨_, ht⟩ | ⟨S, p, _, hp, ht⟩ | ⟨S, _, hx, ht⟩
  · rw [ht] at hret; cases hret
  · rw [ht, hp] at hret; cases hret
  · rw [ht] at hret ⊢
    obtain ⟨h1, h2, h3⟩ := hookThenMethod_returned
      (fr.ran (Site.OnExit S) (impl.OnExit S fr.session)).applied hx Site.globalOnEnter
      cm.globalOnEnter hgE Site.OnEnter impl.OnEnter hEnter hret
    exact ⟨by rw [h1]; rfl, by rw [h2]; exact h3⟩

/-- A turn that returns, on a session without a pending next state, with
callbacks that are `viaAPI`: the session ends with a current state and without
a pending next state. -/
theorem dispatch_returned_session (impl : State σ D F) (cm : ChatMachine σ D F)
    (input : String) (s : SessionState σ D) (hn : s.NextState = none)
    (hEnter : ∀ st, viaAPI (impl.OnEnter st)) (hUpdate : ∀ st, viaAPI (impl.OnUpdate st))
    (hgE : viaAPI cm.globalOnEnter) (hgU : viaAPI cm.globalOnUpdate)
    (hret : (dispatch impl cm input s).panicking = none) :
    (dispatch impl cm input s).session.NextState = none
    ∧ (dispatch impl cm input s).session.currentState ≠ none := by
  rcases dispatch_cases impl cm input s with ⟨_, hd⟩ | ⟨_, hd⟩ | ⟨p, _, hp, hd⟩
  · rw [hd] at hret ⊢
    obtain ⟨h1, h2⟩ := guardedStep_returned impl cm _ hEnter hUpdate hgE hgU hret
    exact ⟨by rw [h1]; exact hn, h2⟩
  · rw [hd] at hret ⊢
    exact transition_returned impl cm _ rfl hEnter hgE hret
  · rw [hd, hp] at hret; cases hret

theorem Run_sessions_of_ne (impl : State σ D F) (cm : ChatMachine σ D F) (input key k : String)
    (hk : k ≠ key) : (cm.Run impl input key).machine.sessions k = cm.sessions k := by
  rw [Run_eq]
  split
  · simp only [store, hk, if_false]
    exact getSession_snd_of_ne cm key k hk
  · simp only
    split
    · simp only [delete, hk, if_false]
      exact getSession_snd_of_ne cm key k hk
    · simp only [store, hk, if_false]
      exact getSession_snd_of_ne cm key k hk

/-- A call of `Run` that returns keeps the registry clean. -/
theorem Run_keeps_registry_clean (impl : State σ D F) (cm : ChatMachine σ D F)
    (input key out : String)
    (hEnter : ∀ st, viaAPI (impl.OnEnter st)) (hUpdate : ∀ st, viaAPI (impl.OnUpdate st))
    (hgE : viaAPI cm.globalOnEnter)
    (hgU : viaAPI cm.globalOnUpdate) (hclean : RegistryClean cm)
    (hret : (cm.Run impl input key).result = Result.returned out) :
    RegistryClean (cm.Run impl input key).machine := by
  intro k s hk
  by_cases hkk : k = key
  · subst hkk
    rcases hp : (dispatch impl cm input (cm.getSession k).1).panicking with _ | p
    swap
    · rw [Run_result_of_panicking impl cm input k hp] at hret; cases hret
    have hn : (cm.getSession k).1.NextState = none := by
      rcases hs : cm.sessions k with _ | s0
      · rw [getSession_fst_of_none hs]; rfl
      · rw [getSession_fst_of_some hs]; exact (hclean k s0 hs).2.1
    obtain ⟨h1, h2⟩ := dispatch_returned_session impl cm input _ hn hEnter hUpdate
      hgE hgU hp
    rw [Run_eq, hp] at hk
    simp only at hk
    by_cases hflag : (dispatch impl cm input (cm.getSession k).1).session.endSession = true
    · rw [if_pos hflag, delete_same] at hk
      cases hk
    · rw [if_neg hflag, store_same] at hk
      cases hk
      exact ⟨h2, h1, by simpa using hflag⟩
  · rw [Run_sessions_of_ne impl cm input key k hkk] at hk
    exact hclean k s hk

/-! ## Lemmas: a turn computed from what its callbacks do -/

theorem Frame.ran_eq (fr : Frame σ D F) (site : Site σ) (body : List (Call σ D F))
    {s1 : SessionState σ D} {p : Option (PanicValue F)} (h : runBody body fr.session = ⟨s1, p⟩) :
    fr.ran site body = ⟨s1, fr.trace ++ [⟨site, executed body, p⟩], p⟩ := by
  unfold Frame.ran; rw [h]

theorem runBody_currentState_of_eq {cs : List (Call σ D F)} {s s1 : SessionState σ D}
    {p : Option (PanicValue F)} (h : runBody cs s = ⟨s1, p⟩) :
    s1.currentState = s.currentState := by
  have := runBody_currentState cs s
  rw [h] at this
  exact this

/-- The guarded step of an update turn whose global on-update hook returns. -/
theorem guardedStep_update_eval (impl : State σ D F) (cm : ChatMachine σ D F)
    {s0 s1 s2 : SessionState σ D} {S : σ} {p : Option (PanicValue F)}
    (hS : s0.currentState = some S)
    (hH : runBody (cm.globalOnUpdate s0) s0 = ⟨s1, none⟩)
    (hU : runBody (impl.OnUpdate S s1) s1 = ⟨s2, p⟩) :
    guardedStep impl cm s0
      = ⟨s2, [⟨Site.globalOnUpdate, executed (cm.globalOnUpdate s0), none⟩,
              ⟨Site.OnUpdate S, executed (impl.OnUpdate S s1), p⟩], p⟩ := by
  have h1 : (Frame.start s0 ([] : List (Invocation σ D F))).ran Site.globalOnUpdate
      (cm.globalOnUpdate s0)
      = ⟨s1, [⟨Site.globalOnUpdate, executed (cm.globalOnUpdate s0), none⟩], none⟩ :=
    Frame.ran_eq _ _ _ hH
  rcases update_step_cases impl cm hS with ⟨q, hq, _⟩ | ⟨_, hg⟩
  · rw [h1] at hq; cases hq
  · rw [hg, h1]
    exact Frame.ran_eq _ _ _ hU

/-- The guarded step of an update turn whose global on-update hook panics. -/
theorem guardedStep_update_hook_eval (impl : State σ D F) (cm : ChatMachine σ D F)
    {s0 s1 : SessionState σ D} {S : σ} {p : PanicValue F}
    (hS : s0.currentState = some S)
    (hH : runBody (cm.globalOnUpdate s0) s0 = ⟨s1, some p⟩) :
    guardedStep impl cm s0
      = ⟨s1, [⟨Site.globalOnUpdate, executed (cm.globalOnUpdate s0), some p⟩], some p⟩ := by
  have h1 : (Frame.start s0 ([] : List (Invocation σ D F))).ran Site.globalOnUpdate
      (cm.globalOnUpdate s0)
      = ⟨s1, [⟨Site.globalOnUpdate, executed (cm.globalOnUpdate s0), some p⟩], some p⟩ :=
    Frame.ran_eq _ _ _ hH
  rcases update_step_cases impl cm hS with ⟨q, _, hg⟩ | ⟨hq, _⟩
  · rw [hg, h1]
  · rw [h1] at hq; cases hq

/-- The guarded step of a first turn whose global on-enter hook returns. -/
theorem guardedStep_first_eval (impl : State σ D F) (cm : ChatMachine σ D F)
    {s s1 s2 : SessionState σ D} {A : σ} {p : Option (PanicValue F)}
    (h0 : s.currentState = none) (hA : cm.startState = some A)
    (hH : runBody (cm.globalOnEnter { s with currentState := some A })
        { s with currentState := some A } = ⟨s1, none⟩)
    (hE : runBody (impl.OnEnter A s1) s1 = ⟨s2, p⟩) :
    guardedStep impl cm s
      = ⟨s2, [⟨Site.globalOnEnter, executed (cm.globalOnEnter { s with currentState := some A }),
                none⟩,
              ⟨Site.OnEnter A, executed (impl.OnEnter A s1), p⟩], p⟩ := by
  have h1 : (Frame.start { s with currentState := cm.startState }
      ([] : List (Invocation σ D F))).ran Site.globalOnEnter
        (cm.globalOnEnter { s with currentState := cm.startState })
      = ⟨s1, [⟨Site.globalOnEnter, executed (cm.globalOnEnter { s with currentState := some A }),
                none⟩], none⟩ := by
    rw [hA]
    exact Frame.ran_eq _ _ _ hH
  rcases first_step_cases impl cm h0 with ⟨q, hq, _⟩ | ⟨_, hn, _⟩ | ⟨B, _, hB, hg⟩
  · rw [h1] at hq; cases hq
  · rw [hA] at hn; cases hn
  · rw [hA] at hB; cases hB
    rw [hg, h1]
    exact Frame.ran_eq _ _ _ hE

/-- The transition block when `OnExit` and the global on-enter hook return. -/
theorem transition_eval (impl : State σ D F) (cm : ChatMachine σ D F) (fr : Frame σ D F)
    {S T : σ} {s3 s4 s5 : SessionState σ D} {p : Option (PanicValue F)}
    (h : fr.panicking = none) (hS : fr.session.currentState = some S)
    (hX : runBody (impl.OnExit S fr.session) fr.session = ⟨s3, none⟩)
    (hT : s3.NextState = some T)
    (hG : runBody (cm.globalOnEnter { s3 with currentState := some T, NextState := none })
        { s3 with currentState := some T, NextState := none } = ⟨s4, none⟩)
    (hE : runBody (impl.OnEnter T s4) s4 = ⟨s5, p⟩) :
    transition impl cm fr
      = ⟨s5, fr.trace ++
          [⟨Site.OnExit S, executed (impl.OnExit S fr.session), none⟩,
           ⟨Site.globalOnEnter,
             executed (cm.globalOnEnter { s3 with currentState := some T, NextState := none }),
             none⟩,
           ⟨Site.OnEnter T, executed (impl.OnEnter T s4), p⟩], p⟩ := by
  have hx : fr.ran (Site.OnExit S) (impl.OnExit S fr.session)
      = ⟨s3, fr.trace ++ [⟨Site.OnExit S, executed (impl.OnExit S fr.session), none⟩], none⟩ :=
    Frame.ran_eq _ _ _ hX
  have hc4 : s4.currentState = some T := runBody_currentState_of_eq hG
  rcases transition_cases impl cm fr h with ⟨hn, _⟩ | ⟨S', q, hS', hq, _⟩ | ⟨S', hS', _, ht⟩
  · rw [hS] at hn; cases hn
  · rw [hS] at hS'; cases hS'
    rw [hx] at hq; cases hq
  · rw [hS] at hS'; cases hS'
    rw [ht, hx]
    have ha : (⟨s3, fr.trace ++ [⟨Site.OnExit S, executed (impl.OnExit S fr.session), none⟩],
        none⟩ : Frame σ D F).applied
        = ⟨{ s3 with currentState := some T, NextState := none },
            fr.trace ++ [⟨Site.OnExit S, executed (impl.OnExit S fr.session), none⟩], none⟩ := by
      simp [Frame.applied, hT]
    rw [ha, Frame.invoke_of_running rfl, Frame.ran_eq _ _ _ hG,
      Frame.invokeMethod_of_running rfl hc4, Frame.ran_eq _ _ _ hE]
    simp

theorem dispatch_of_returned (impl : State σ D F) (cm : ChatMachine σ D F) (input : String)
    (s : SessionState σ D)
    (h : (guardedStep impl cm (s.beginTurn input)).panicking = none) :
    dispatch impl cm input s = guardedStep impl cm (s.beginTurn input) := by
  rcases dispatch_cases impl cm input s with ⟨_, hd⟩ | ⟨hc, _⟩ | ⟨_, _, _, hd⟩
  · exact hd
  · rw [h] at hc; cases hc
  · exact hd

theorem dispatch_of_changed (impl : State σ D F) (cm : ChatMachine σ D F) (input : String)
    (s : SessionState σ D)
    (h : (guardedStep impl cm (s.beginTurn input)).panicking = some PanicValue.ChangeState) :
    dispatch impl cm input s
      = transition impl cm { guardedStep impl cm (s.beginTurn input) with panicking := none } := by
  rcases dispatch_cases impl cm input s with ⟨hn, _⟩ | ⟨_, hd⟩ | ⟨q, hq, hqp, _⟩
  · rw [h] at hn; cases hn
  · exact hd
  · rw [h] at hqp; cases hqp; exact absurd rfl hq

/-- A turn whose guarded step ends with the `ChangeState` signal and whose
`OnExit` and global on-enter hook return. -/
theorem dispatch_transition_eval (impl : State σ D F) (cm : ChatMachine σ D F) (input : String)
    (s : SessionState σ D) {S T : σ} {s2 s3 s4 s5 : SessionState σ D}
    {g : List (Invocation σ D F)} {p : Option (PanicValue F)}
    (hg : guardedStep impl cm (s.beginTurn input) = ⟨s2, g, some PanicValue.ChangeState⟩)
    (hS : s2.currentState = some S)
    (hX : runBody (impl.OnExit S s2) s2 = ⟨s3, none⟩)
    (hT : s3.NextState = some T)
    (hG : runBody (cm.globalOnEnter { s3 with currentState := some T, NextState := none })
        { s3 with currentState := some T, NextState := none } = ⟨s4, none⟩)
    (hE : runBody (impl.OnEnter T s4) s4 = ⟨s5, p⟩) :
    dispatch impl cm input s
      = ⟨s5, g ++
          [⟨Site.OnExit S, executed (impl.OnExit S s2), none⟩,
           ⟨Site.globalOnEnter,
             executed (cm.globalOnEnter { s3 with currentState := some T, NextState := none }),
             none⟩,
           ⟨Site.OnEnter T, executed (impl.OnEnter T s4), p⟩], p⟩ := by
  rw [dispatch_of_changed impl cm input s (by rw [hg]), hg]
  exact transition_eval impl cm ⟨s2, g, none⟩ rfl hS hX hT hG hE

/-- The fields of a turn whose dispatch returned. -/
theorem Run_of_dispatch (impl : State σ D F) (cm : ChatMachine σ D F) (input key : String)
    {fs : SessionState σ D} {tr : List (Invocation σ D F)}
    (hd : dispatch impl cm input (cm.getSession key).1 = ⟨fs, tr, none⟩) :
    (cm.Run impl input key).trace = tr
    ∧ (cm.Run impl input key).result = Result.returned fs.Output
    ∧ (cm.Run impl input key).session = fs
    ∧ fs.Output = written (allCalls tr) "" := by
  have hlog := (dispatch_logged_ended impl cm input (cm.getSession key).1).1
  unfold Frame.Logged at hlog
  rw [hd] at hlog
  refine ⟨by rw [Run_trace, hd], ?_, by rw [Run_session, hd], hlog⟩
  rw [Run_result_of_returned impl cm input key (by rw [hd]), hd]

/-! ## Claims -/

/-- C1, as stated, fails on the output: what a global hook appends is part of
the turn's output too. On the example machine with a global on-enter hook that
appends `"log"`, the message `"next"` makes `HelloState.OnUpdate` call
`ChangeState(WorldState)`; `HelloState.OnExit` and `WorldState.OnEnter` return;
the output is `"Exiting Hello State\nlog\nHello, World!\n"`, not the
concatenation of what the three state callbacks appended. -/
theorem hook_output_is_part_of_transition_output :
    (Demo.loggedGreeted.sessions "k").map SessionState.currentState
        = some (some Demo.HelloState)
    ∧ (Demo.loggedGreeted.Run Demo.impl "next" "k").trace
        = [⟨Site.globalOnUpdate, [], none⟩,
           ⟨Site.OnUpdate Demo.HelloState, [Call.ChangeState (some Demo.WorldState)],
             some PanicValue.ChangeState⟩,
           ⟨Site.OnExit Demo.HelloState, [Call.AddOutput "Exiting Hello State"], none⟩,
           ⟨Site.globalOnEnter, [Call.AddOutput "log"], none⟩,
           ⟨Site.OnEnter Demo.WorldState, [Call.AddOutput "Hello, World!", Call.End], none⟩]
    ∧ (Demo.loggedGreeted.Run Demo.impl "next" "k").result
        = Result.returned "Exiting Hello State\nlog\nHello, World!\n"
    ∧ (Demo.loggedGreeted.Run Demo.impl "next" "k").result
        ≠ Result.returned
            (appended ([] : List (Call Demo Unit String))
              ++ appended [(Call.AddOutput "Exiting Hello State" : Call Demo Unit String)]
              ++ appended [(Call.AddOutput "Hello, World!" : Call Demo Unit String), Call.End]) := by
  decide

/-- C1, amended. For a session whose current state `S` is set at turn start,
let the callbacks behave as follows on the sessions they are handed: the global
on-update hook returns (leaving `s1`); `S.OnUpdate` ends with the `ChangeState`
signal, the requested state being `T` (leaving `s2`); `S.OnExit` returns and
leaves the request as it is (leaving `s3`), as it does whenever it acts through
the methods of the session only; the global on-enter hook, handed `s3` with the
transition applied, returns (leaving `s4`); and `T.OnEnter` returns (leaving
`s5`). Then the invocations of the turn are exactly the global on-update hook,
`S.OnUpdate`, `S.OnExit`, the global on-enter hook and `T.OnEnter`, in this
order; `Run` returns the buffer of `s5`; the session is left as `s5`, with
current state `T`; and when no call of the turn assigns `Output` directly, the
output is the concatenation of the lines appended by the on-update hook, by
`S.OnUpdate` before the request, by `S.OnExit`, by the on-enter hook and by
`T.OnEnter`. -/
theorem transition_turn_output (impl : State σ D F) (cm : ChatMachine σ D F)
    (input key : String) (s s1 s2 s3 s4 s5 : SessionState σ D) (S T : σ)
    (hs : cm.sessions key = some s) (hS : s.currentState = some S)
    (hH : runBody (cm.globalOnUpdate (s.beginTurn input)) (s.beginTurn input) = ⟨s1, none⟩)
    (hU : runBody (impl.OnUpdate S s1) s1 = ⟨s2, some PanicValue.ChangeState⟩)
    (hT : s2.NextState = some T)
    (hX : runBody (impl.OnExit S s2) s2 = ⟨s3, none⟩) (hN : s3.NextState = s2.NextState)
    (hG : runBody (cm.globalOnEnter { s3 with currentState := some T, NextState := none })
        { s3 with currentState := some T, NextState := none } = ⟨s4, none⟩)
    (hE : runBody (impl.OnEnter T s4) s4 = ⟨s5, none⟩) :
    (cm.Run impl input key).trace
        = [⟨Site.globalOnUpdate, executed (cm.globalOnUpdate (s.beginTurn input)), none⟩,
           ⟨Site.OnUpdate S, executed (impl.OnUpdate S s1), some PanicValue.ChangeState⟩,
           ⟨Site.OnExit S, executed (impl.OnExit S s2), none⟩,
           ⟨Site.globalOnEnter,
             executed (cm.globalOnEnter { s3 with currentState := some T, NextState := none }),
             none⟩,
           ⟨Site.OnEnter T, executed (impl.OnEnter T s4), none⟩]
    ∧ (cm.Run impl input key).result = Result.returned s5.Output
    ∧ (cm.Run impl input key).session = s5
    ∧ (cm.Run impl input key).session.currentState = some T
    ∧ ((∀ c ∈ allCalls (cm.Run impl input key).trace, ∀ v, c ≠ Call.setOutput v) →
        s5.Output
          = appended (executed (cm.globalOnUpdate (s.beginTurn input)))
            ++ appended (executed (impl.OnUpdate S s1))
            ++ appended (executed (impl.OnExit S s2))
            ++ appended (executed
                (cm.globalOnEnter { s3 with currentState := some T, NextState := none }))
            ++ appended (executed (impl.OnEnter T s4))) := by
  have hS0 : (s.beginTurn input).currentState = some S := hS
  have hg := guardedStep_update_eval impl cm hS0 hH hU
  have hc2 : s2.currentState = some S := by
    rw [runBody_currentState_of_eq hU, runBody_currentState_of_eq hH]; exact hS0
  have hd := dispatch_transition_eval impl cm input s hg hc2 hX (hN.trans hT) hG hE
  obtain ⟨htr, hres, hses, hout⟩ :=
    Run_of_dispatch impl cm input key (by rw [getSession_fst_of_some hs]; exact hd)
  refine ⟨htr, hres, hses, ?_, ?_⟩
  · rw [hses, runBody_currentState_of_eq hE, runBody_currentState_of_eq hG]
  · intro hno
    rw [htr] at hno
    rw [hout, written_eq_appended _ _ hno]
    simp only [allCalls, List.cons_append, List.nil_append, List.flatMap_cons, List.flatMap_nil,
      List.append_nil, appended_append, String.append_assoc]
    exact String.empty_append _

/-- Witness for C1 amended: the message `"next"` to the logging example
machine, whose session waits in `HelloState`. -/
theorem transition_turn_output_witness :
    (Demo.loggedGreeted.Run Demo.impl "next" "k").result
        = Result.returned "Exiting Hello State\nlog\nHello, World!\n"
    ∧ (Demo.loggedGreeted.Run Demo.impl "next" "k").session.currentState
        = some Demo.WorldState :=
  have h := transition_turn_output Demo.impl Demo.loggedGreeted "next" "k"
    { Input := "hi", Output := "log\nEntered Hello State\n", NextState := none, Data := none,
      endSession := false, currentState := some Demo.HelloState }
    { Input := "next", Output := "", NextState := none, Data := none,
      endSession := false, currentState := some Demo.HelloState }
    { Input := "next", Output := "", NextState := some Demo.WorldState, Data := none,
      endSession := false, currentState := some Demo.HelloState }
    { Input := "next", Output := "Exiting Hello State\n", NextState := some Demo.WorldState,
      Data := none, endSession := false, currentState := some Demo.HelloState }
    { Input := "next", Output := "Exiting Hello State\nlog\n", NextState := none,
      Data := none, endSession := false, currentState := some Demo.WorldState }
    { Input := "next", Output := "Exiting Hello State\nlog\nHello, World!\n", NextState := none,
      Data := none, endSession := true, currentState := some Demo.WorldState }
    Demo.HelloState Demo.WorldState
    (by decide) (by decide) (by decide) (by decide) (by decide) (by decide) (by decide)
    (by decide) (by decide)
  ⟨h.2.1, h.2.2.2.1⟩

/-- C2 on the code: a chained transition does not resolve. With the chain
`A → B → C`, where `B.OnEnter` calls `ChangeState(C)`, the message `"go"` to a
session in `A` invokes `A.OnUpdate`, `A.OnExit` and `B.OnEnter` and then `Run`
panics with the `ChangeState` value: the block that applies a transition runs
outside the recovering function and is not repeated. `B.OnExit` and
`C.OnEnter` are never invoked, and the session stays in the registry in state
`B` with `NextState = C`. -/
theorem chained_transition_escapes_Run :
    (Probe.chainStarted.sessions "s1").map SessionState.currentState = some (some Probe.A)
    ∧ (Probe.chainStarted.Run Probe.chain "go" "s1").result
        = Result.panicked PanicValue.ChangeState
    ∧ (Probe.chainStarted.Run Probe.chain "go" "s1").trace.map Invocation.site
        = [Site.globalOnUpdate, Site.OnUpdate Probe.A, Site.OnExit Probe.A,
           Site.globalOnEnter, Site.OnEnter Probe.B]
    ∧ (Probe.chainStarted.Run Probe.chain "go" "s1").session.currentState = some Probe.B
    ∧ (Probe.chainStarted.Run Probe.chain "go" "s1").session.NextState = some Probe.C
    ∧ (Probe.chainStarted.Run Probe.chain "go" "s1").machine.sessions "s1"
        = some (Probe.chainStarted.Run Probe.chain "go" "s1").session := by
  decide

/-- C3, as stated, fails: the start state's `OnEnter` can run twice in the
first turn of a session. With the start state `A` of `Probe.reenter`, whose
`OnEnter` requests a transition to `A` on a session it has not marked yet, the
Run call on the unknown key `"s1"` invokes `A.OnEnter`, `A.OnExit` and
`A.OnEnter` again. -/
theorem first_turn_can_enter_start_state_twice :
    Probe.machine.sessions "s1" = none
    ∧ (Probe.machine.Run Probe.reenter "hi" "s1").trace.map Invocation.site
        = [Site.globalOnEnter, Site.OnEnter Probe.A, Site.OnExit Probe.A,
           Site.globalOnEnter, Site.OnEnter Probe.A]
    ∧ timesInvoked (Site.OnEnter Probe.A) (Probe.machine.Run Probe.reenter "hi" "s1").trace = 2
    ∧ (Probe.machine.Run Probe.reenter "hi" "s1").result = Result.returned "A-enter\n" := by
  decide

/-- C3, amended. For a key that is not in the registry, a machine with the
start state `A` and a turn whose first invocation, the global on-enter hook,
returns: `getSession` creates a blank session under the key; the turn invokes
the hook and then `A.OnEnter`; it invokes no `OnUpdate` and no global on-update
hook; `A.OnEnter` is invoked once, or twice when a transition applied in the
turn enters `A` again; and if `Run` panics, the value was raised by a callback
of the turn or is the nil-dereference of a nil next state. -/
theorem first_turn_enters_start_state [DecidableEq σ] (impl : State σ D F)
    (cm : ChatMachine σ D F) (input key : String) (A : σ) (hcalls : List (Call σ D F))
    (hfresh : cm.sessions key = none) (hstart : cm.startState = some A)
    (hhook : (cm.Run impl input key).trace.head? = some ⟨Site.globalOnEnter, hcalls, none⟩) :
    cm.getSession key = (SessionState.blank σ D, store cm.sessions key (SessionState.blank σ D))
    ∧ (∃ ecalls e rest, (cm.Run impl input key).trace
        = ⟨Site.globalOnEnter, hcalls, none⟩ :: ⟨Site.OnEnter A, ecalls, e⟩ :: rest)
    ∧ (∀ i ∈ (cm.Run impl input key).trace,
        i.site ≠ Site.globalOnUpdate ∧ ∀ st, i.site ≠ Site.OnUpdate st)
    ∧ (timesInvoked (Site.OnEnter A) (cm.Run impl input key).trace = 1
      ∨ (timesInvoked (Site.OnEnter A) (cm.Run impl input key).trace = 2
        ∧ (cm.Run impl input key).session.currentState = some A
        ∧ ∃ i ∈ (cm.Run impl input key).trace, ∃ st, i.site = Site.OnExit st ∧ i.exit = none))
    ∧ (∀ p, (cm.Run impl input key).result = Result.panicked p →
        p = PanicValue.nilDereference ∨ ∃ i ∈ (cm.Run impl input key).trace, i.exit = some p) := by
  have hblank : (cm.getSession key).1 = SessionState.blank σ D := getSession_fst_of_none hfresh
  rw [Run_trace, hblank] at hhook
  obtain ⟨ecalls, e, rest, htr, hshape⟩ :=
    first_turn_head impl cm input (SessionState.blank σ D) rfl A hstart hcalls hhook
  have hlast := dispatch_lastAtState impl cm input (SessionState.blank σ D)
  refine ⟨?_, ?_, ?_, ?_, ?_⟩
  · unfold ChatMachine.getSession; rw [hfresh]
  · rw [Run_trace, hblank]; exact ⟨ecalls, e, rest, htr⟩
  · intro i hi
    rw [Run_trace, hblank] at hi
    have := first_turn_sites impl cm input (SessionState.blank σ D) rfl i hi
    constructor
    · intro hs; rw [hs] at this; cases this
    · intro st hs; rw [hs] at this; cases this
  · rw [Run_trace, Run_session, hblank, htr]
    rcases hshape with rfl | ⟨x, rfl, ⟨S, hx⟩, _⟩ | ⟨x, g, rfl, ⟨S, hx⟩, _, hg⟩
      | ⟨x, g, en, rfl, ⟨S, hx⟩, hxe, hg, _, ⟨T, he⟩⟩
    · left; simp [timesInvoked]
    · left; simp [timesInvoked, hx]
    · left; simp [timesInvoked, hx, hg]
    · by_cases hT : T = A
      · right
        subst hT
        refine ⟨by simp [timesInvoked, hx, hg, he], ?_, x, by simp, S, hx, hxe⟩
        exact hlast [⟨Site.globalOnEnter, hcalls, none⟩, ⟨Site.OnEnter T, ecalls, e⟩, x, g] en T
          (by rw [htr]; rfl) (by rw [he]; rfl)
      · left
        simp [timesInvoked, hx, hg, he, hT]
  · intro p hp
    rw [Run_trace]
    rcases hd : (dispatch impl cm input (cm.getSession key).1).panicking with _ | q
    · rw [Run_result_of_returned impl cm input key hd] at hp; cases hp
    · rw [Run_result_of_panicking impl cm input key hd] at hp
      cases hp
      exact dispatch_panicFrom impl cm input _ _ hd

/-- Witness for C3 amended: the first message to the example machine creates
a blank session under the key. -/
theorem first_turn_enters_start_state_witness :
    Demo.machine.getSession "k"
      = (SessionState.blank Demo Unit,
         store Demo.machine.sessions "k" (SessionState.blank Demo Unit)) :=
  (first_turn_enters_start_state Demo.impl Demo.machine "hi" "k" Demo.HelloState []
    (by decide) (by decide) (by decide)).1

/-- C4, as stated, fails when the global on-update hook does not return: a
callback `S.OnUpdate` that would return without requesting a transition is then
never invoked. On the example machine with a global on-update hook that calls
`ChangeState(WorldState)` on the input `"skip"`, `HelloState.OnUpdate` returns
on every session whose input is `"skip"`; yet the message `"skip"` to a session
in `HelloState` invokes the hook, `HelloState.OnExit`, the global on-enter hook
and `WorldState.OnEnter`, `HelloState.OnUpdate` zero times, and leaves the
session in `WorldState`. -/
theorem hook_request_skips_OnUpdate :
    (Demo.skippingGreeted.sessions "k").map SessionState.currentState
        = some (some Demo.HelloState)
    ∧ (∀ s : SessionState Demo Unit, s.Input = "skip" →
        (runBody (Demo.impl.OnUpdate Demo.HelloState s) s : Exec Demo Unit String).panicking
          = none)
    ∧ (Demo.skippingGreeted.Run Demo.impl "skip" "k").trace.map Invocation.site
        = [Site.globalOnUpdate, Site.OnExit Demo.HelloState, Site.globalOnEnter,
           Site.OnEnter Demo.WorldState]
    ∧ timesInvoked (Site.OnUpdate Demo.HelloState)
        (Demo.skippingGreeted.Run Demo.impl "skip" "k").trace = 0
    ∧ (Demo.skippingGreeted.Run Demo.impl "skip" "k").session.currentState
        = some Demo.WorldState := by
  refine ⟨by decide, ?_, by decide, by decide, by decide⟩
  intro s hs
  simp [Demo.impl, hs, runBody, Call.run]

/-- C4, amended. For a session that has a current state `S` at turn start: if
the global on-update hook, handed the session of the turn, returns (leaving the
session `s1`) and `S.OnUpdate`, handed `s1`, returns (leaving `s2`), then the
invocations of the turn are exactly the hook and then `S.OnUpdate`, both
returning, so `S.OnUpdate` is invoked once and no `OnEnter` or `OnExit` of any
state is invoked; `Run` returns the buffer of `s2`; the session is left as `s2`
and its current state is `S`. -/
theorem update_turn_without_transition (impl : State σ D F) (cm : ChatMachine σ D F)
    (input key : String) (s s1 s2 : SessionState σ D) (S : σ)
    (hs : cm.sessions key = some s) (hS : s.currentState = some S)
    (hH : runBody (cm.globalOnUpdate (s.beginTurn input)) (s.beginTurn input) = ⟨s1, none⟩)
    (hU : runBody (impl.OnUpdate S s1) s1 = ⟨s2, none⟩) :
    (cm.Run impl input key).trace
        = [⟨Site.globalOnUpdate, executed (cm.globalOnUpdate (s.beginTurn input)), none⟩,
           ⟨Site.OnUpdate S, executed (impl.OnUpdate S s1), none⟩]
    ∧ (∀ i ∈ (cm.Run impl input key).trace, ∀ st,
        i.site ≠ Site.OnEnter st ∧ i.site ≠ Site.OnExit st)
    ∧ (cm.Run impl input key).result = Result.returned s2.Output
    ∧ (cm.Run impl input key).session = s2
    ∧ (cm.Run impl input key).session.currentState = some S := by
  have hS0 : (s.beginTurn input).currentState = some S := hS
  have hg := guardedStep_update_eval impl cm hS0 hH hU
  have hd : dispatch impl cm input (cm.getSession key).1
      = guardedStep impl cm (s.beginTurn input) := by
    rw [getSession_fst_of_some hs]
    exact dispatch_of_returned impl cm input s (by rw [hg])
  rw [hg] at hd
  obtain ⟨htr, hres, hses, _⟩ := Run_of_dispatch impl cm input key hd
  refine ⟨htr, ?_, hres, hses, ?_⟩
  · intro i hi st
    rw [htr] at hi
    simp only [List.mem_cons, List.mem_singleton, List.not_mem_nil, or_false] at hi
    rcases hi with hi | hi <;> rw [hi] <;> exact ⟨by simp, by simp⟩
  · rw [hses, runBody_currentState_of_eq hU, runBody_currentState_of_eq hH]
    exact hS0

/-- Witness for C4 amended: the second message `"hello"` of a session of the
example machine, which waits in `HelloState`. -/
theorem update_turn_without_transition_witness :
    (Demo.greeted.Run Demo.impl "hello" "k").trace
        = [⟨Site.globalOnUpdate, [], none⟩,
           ⟨Site.OnUpdate Demo.HelloState, [Call.AddOutput "Waiting for 'next' input..."],
             none⟩]
    ∧ (Demo.greeted.Run Demo.impl "hello" "k").result
        = Result.returned "Waiting for 'next' input...\n"
    ∧ (Demo.greeted.Run Demo.impl "hello" "k").session.currentState
        = some Demo.HelloState :=
  have h := update_turn_without_transition Demo.impl Demo.greeted "hello" "k"
    Demo.greetedSession
    { Demo.greetedSession with Input := "hello", Output := "" }
    { Demo.greetedSession with Input := "hello", Output := "Waiting for 'next' input...\n" }
    Demo.HelloState (by decide) (by decide) (by decide) (by decide)
  ⟨h.1, h.2.2.1, h.2.2.2.2⟩

/-- C5. When a turn returns and a callback of the turn has called `End()`,
`Run` returns everything the calls of the turn have written to the buffer and
the key is no longer in the registry. The next `Run` with the same key gets a
blank session from `getSession`; its result, session and invocations are those
of a `Run` on any registry that does not hold the key; it invokes no
`OnUpdate` and no global on-update hook, and, where the start state is `A` and
the global on-enter hook returns, it invokes `A.OnEnter` right after the
hook. -/
theorem End_discards_session_after_turn (impl : State σ D F) (cm : ChatMachine σ D F)
    (input key out : String)
    (hret : (cm.Run impl input key).result = Result.returned out)
    (hend : ∃ i ∈ (cm.Run impl input key).trace, Call.End ∈ i.calls) :
    out = written (allCalls (cm.Run impl input key).trace) ""
    ∧ (cm.Run impl input key).machine.sessions key = none
    ∧ ∀ input2 : String,
        ((cm.Run impl input key).machine.getSession key).1 = SessionState.blank σ D
        ∧ (∀ reg : String → Option (SessionState σ D), reg key = none →
            ((cm.Run impl input key).machine.Run impl input2 key).result
                = ({ cm with sessions := reg }.Run impl input2 key).result
            ∧ ((cm.Run impl input key).machine.Run impl input2 key).session
                = ({ cm with sessions := reg }.Run impl input2 key).session
            ∧ ((cm.Run impl input key).machine.Run impl input2 key).trace
                = ({ cm with sessions := reg }.Run impl input2 key).trace)
        ∧ (∀ i ∈ ((cm.Run impl input key).machine.Run impl input2 key).trace,
            i.site ≠ Site.globalOnUpdate ∧ ∀ st, i.site ≠ Site.OnUpdate st)
        ∧ (∀ A hcalls, cm.startState = some A →
            ((cm.Run impl input key).machine.Run impl input2 key).trace.head?
              = some ⟨Site.globalOnEnter, hcalls, none⟩ →
            ∃ ecalls e rest, ((cm.Run impl input key).machine.Run impl input2 key).trace
              = ⟨Site.globalOnEnter, hcalls, none⟩ :: ⟨Site.OnEnter A, ecalls, e⟩ :: rest) := by
  have hinv := dispatch_logged_ended impl cm input (cm.getSession key).1
  rcases hp : (dispatch impl cm input (cm.getSession key).1).panicking with _ | p
  swap
  · rw [Run_result_of_panicking impl cm input key hp] at hret
    cases hret
  have hflag : (dispatch impl cm input (cm.getSession key).1).session.endSession = true := by
    rw [Run_trace] at hend
    exact hinv.2 hend
  have habsent : (cm.Run impl input key).machine.sessions key = none := by
    rw [Run_eq, hp]
    simp only [hflag, if_true]
    exact delete_same _ _
  have hblank : ((cm.Run impl input key).machine.getSession key).1 = SessionState.blank σ D :=
    getSession_fst_of_none habsent
  refine ⟨?_, habsent, fun input2 => ⟨hblank, ?_, ?_, ?_⟩⟩
  · rw [Run_result_of_returned impl cm input key hp] at hret
    cases hret
    rw [Run_trace]
    exact hinv.1
  · intro reg hreg
    rw [Run_machine]
    exact Run_fresh impl cm input2 key _ reg habsent hreg
  · intro i hi
    rw [Run_trace, hblank] at hi
    have := first_turn_sites impl (cm.Run impl input key).machine input2
      (SessionState.blank σ D) rfl i hi
    constructor
    · intro hs; rw [hs] at this; cases this
    · intro st hs; rw [hs] at this; cases this
  · intro A hcalls hA hhead
    rw [Run_trace, hblank] at hhead ⊢
    have hA' : (cm.Run impl input key).machine.startState = some A := by
      rw [Run_machine]; exact hA
    obtain ⟨ecalls, e, rest, htr, _⟩ := first_turn_head impl (cm.Run impl input key).machine
      input2 (SessionState.blank σ D) rfl A hA' hcalls hhead
    exact ⟨ecalls, e, rest, htr⟩

/-- Witness for C5: the message `"next"` to the example machine, whose
`WorldState.OnEnter` calls `End()`. -/
theorem End_discards_session_after_turn_witness :
    (Demo.greeted.Run Demo.impl "next" "k").result
        = Result.returned "Exiting Hello State\nHello, World!\n"
    ∧ (Demo.greeted.Run Demo.impl "next" "k").machine.sessions "k" = none :=
  ⟨by decide,
    (End_discards_session_after_turn Demo.impl Demo.greeted "next" "k"
      "Exiting Hello State\nHello, World!\n" (by decide)
      ⟨⟨Site.OnEnter Demo.WorldState, [Call.AddOutput "Hello, World!", Call.End], none⟩,
        by decide, by decide⟩).2.1⟩

/-- C6. `AddOutput(text)` sets `Output` to the previous `Output`, then `text`
without its leading and trailing white space, then one newline, and leaves the
other five fields alone; from an empty buffer `AddOutput(" hi ")` and then
`AddOutput("there")` give `"hi\nthere\n"`. The trimmed text is what is left of
`text` between a leading and a trailing run of white space, and neither starts
nor ends with white space. -/
theorem AddOutput_appends_trimmed_line (s : SessionState σ D) (text : String) :
    (s.AddOutput text).Output = s.Output ++ TrimSpace text ++ "\n"
    ∧ (∃ l r : List Char,
        text.data = l ++ (TrimSpace text).data ++ r
        ∧ l.all isSpace = true ∧ r.all isSpace = true
        ∧ (TrimSpace text).data.head?.all (fun c => !isSpace c) = true
        ∧ (TrimSpace text).data.getLast?.all (fun c => !isSpace c) = true)
    ∧ (s.AddOutput text).Input = s.Input
    ∧ (s.AddOutput text).NextState = s.NextState
    ∧ (s.AddOutput text).Data = s.Data
    ∧ (s.AddOutput text).endSession = s.endSession
    ∧ (s.AddOutput text).currentState = s.currentState
    ∧ (({ s with Output := "" }.AddOutput " hi ").AddOutput "there").Output = "hi\nthere\n" := by
  refine ⟨?_, ⟨text.data.takeWhile isSpace,
      ((text.data.dropWhile isSpace).reverse.takeWhile isSpace).reverse,
      trimChars_split text.data, ?_, ?_, ?_, ?_⟩, rfl, rfl, rfl, rfl, rfl, ?_⟩
  · simp only [SessionState.AddOutput, String.append_assoc]
  · rw [List.all_eq_true]
    exact takeWhile_all isSpace _
  · rw [List.all_eq_true]
    intro c hc
    exact takeWhile_all isSpace _ c (List.mem_reverse.mp hc)
  · cases h : (TrimSpace text).data.head? with
    | none => rfl
    | some c => simpa using trimChars_head text.data c h
  · cases h : (TrimSpace text).data.getLast? with
    | none => rfl
    | some c => simpa using trimChars_last text.data c h
  · simp only [SessionState.AddOutput]
    decide

/-- C7. `ChangeState(T)` stores `T` in `NextState` and panics with the
`ChangeState` value, and what follows it in the callback is dead code: with the
body `pre; ChangeState(T); post` for the `OnUpdate` (or the `OnEnter`) of a
state, every call of `Run` gives the same turn (result, registry, session and
invocations) as with the body `pre; ChangeState(T)`. -/
theorem ChangeState_aborts_callback [DecidableEq σ] (impl : State σ D F)
    (cm : ChatMachine σ D F) (input key : String) (S : σ) (T : Option σ)
    (pre post : Callback σ D F) (s : SessionState σ D) :
    (s.ChangeState T : Exec σ D F)
        = { session := { s with NextState := T }, panicking := some PanicValue.ChangeState }
    ∧ runBody (pre s ++ Call.ChangeState T :: post s) s
        = runBody (pre s ++ [Call.ChangeState T]) s
    ∧ cm.Run { impl with OnUpdate := (Function.update impl.OnUpdate S
                  (fun s => pre s ++ Call.ChangeState T :: post s)) } input key
        = cm.Run { impl with OnUpdate := (Function.update impl.OnUpdate S
                  (fun s => pre s ++ [Call.ChangeState T])) } input key
    ∧ cm.Run { impl with OnEnter := (Function.update impl.OnEnter S
                  (fun s => pre s ++ Call.ChangeState T :: post s)) } input key
        = cm.Run { impl with OnEnter := (Function.update impl.OnEnter S
                  (fun s => pre s ++ [Call.ChangeState T])) } input key := by
  refine ⟨rfl, runBody_append_ChangeState _ _ _ _, ?_, ?_⟩
  · apply Run_congr
    · intro st s'; exact ⟨rfl, rfl⟩
    · intro st s'
      by_cases hst : st = S
      · subst hst
        simp only [Function.update_same]
        exact ⟨runBody_append_ChangeState _ _ _ _, executed_append_ChangeState _ _ _⟩
      · simp [Function.update_noteq hst]
    · intro st s'; exact ⟨rfl, rfl⟩
  · apply Run_congr
    · intro st s'
      by_cases hst : st = S
      · subst hst
        simp only [Function.update_same]
        exact ⟨runBody_append_ChangeState _ _ _ _, executed_append_ChangeState _ _ _⟩
      · simp [Function.update_noteq hst]
    · intro st s'; exact ⟨rfl, rfl⟩
    · intro st s'; exact ⟨rfl, rfl⟩

/-- C8 on the code: the `ChangeState` signal reaches the caller of `Run` when
it is raised in the block that applies a transition. With a state `A` whose
`OnExit` calls `ChangeState(C)`, the message `"go"` to a session in `A` makes
`A.OnUpdate` request `B` (recovered), then `A.OnExit` panics with the
`ChangeState` value and `Run` ends with that panic. -/
theorem ChangeState_in_OnExit_escapes_Run :
    (Probe.redirectStarted.Run Probe.redirect "go" "s1").result
        = Result.panicked PanicValue.ChangeState
    ∧ (Probe.redirectStarted.Run Probe.redirect "go" "s1").trace
        = [⟨Site.globalOnUpdate, [], none⟩,
           ⟨Site.OnUpdate Probe.A, [Call.ChangeState (some Probe.B)],
             some PanicValue.ChangeState⟩,
           ⟨Site.OnExit Probe.A, [Call.ChangeState (some Probe.C)],
             some PanicValue.ChangeState⟩] := by
  decide

/-- C9. When a hook or a state callback invoked in a turn raises a fault `p`
that is not the `ChangeState` signal, `Run` returns no output: it panics with
the value `p` itself. The faulting invocation is the last one of the turn (no
`OnExit`, no `OnEnter` and no hook runs after it), and every invocation before
it returned or was a recovered `ChangeState`. -/
theorem fault_propagates_unmodified (impl : State σ D F) (cm : ChatMachine σ D F)
    (input key : String) (i : Invocation σ D F) (p : PanicValue F)
    (hi : i ∈ (cm.Run impl input key).trace) (hp : i.exit = some p)
    (hne : p ≠ PanicValue.ChangeState) :
    (cm.Run impl input key).result = Result.panicked p
    ∧ ∃ pre, (cm.Run impl input key).trace = pre ++ [i] ∧ ∀ j ∈ pre, j.quiet := by
  rw [Run_trace] at hi ⊢
  rcases dispatch_faultLast impl cm input (cm.getSession key).1 with
    hq | ⟨pre, i0, p0, htr, hpre, hp0, _, hpan⟩
  · exfalso
    rcases hq i hi with h | h
    · rw [h] at hp; cases hp
    · rw [h] at hp; cases hp; exact hne rfl
  · have hi0 : i = i0 := by
      rw [htr] at hi
      rcases List.mem_append.mp hi with hm | hm
      · exfalso
        rcases hpre i hm with h | h
        · rw [h] at hp; cases hp
        · rw [h] at hp; cases hp; exact hne rfl
      · exact List.mem_singleton.mp hm
    subst hi0
    rw [hp] at hp0; cases hp0
    exact ⟨Run_result_of_panicking impl cm input key hpan, pre, htr, hpre⟩

/-- Witness for C9: the first turn of the machine whose start state panics
with `"boom"` in `OnEnter`. -/
theorem fault_propagates_unmodified_witness :
    (Probe.machine.Run Probe.faulty "hi" "s1").result
      = Result.panicked (PanicValue.fault "boom") :=
  (fault_propagates_unmodified Probe.faulty Probe.machine "hi" "s1"
    ⟨Site.OnEnter Probe.A, [Call.AddOutput "A-enter", Call.panic (PanicValue.fault "boom")],
      some (PanicValue.fault "boom")⟩
    (PanicValue.fault "boom") (by decide) rfl (by decide)).1

/-- C10, as stated, fails on a session's first turn: `Run` sets `currentState`
to the start state before it calls the hook and `OnEnter`. With a start state
`A` whose `OnEnter` panics with `"boom"`, the Run call on the unknown key
`"s1"` fails with that fault and leaves a session under `"s1"` whose current
state is `A`, not unset. -/
theorem failing_first_turn_sets_currentState :
    Probe.machine.sessions "s1" = none
    ∧ (Probe.machine.Run Probe.faulty "hi" "s1").result
        = Result.panicked (PanicValue.fault "boom")
    ∧ ((Probe.machine.Run Probe.faulty "hi" "s1").machine.sessions "s1").map
        SessionState.currentState = some (some Probe.A)
    ∧ (Probe.machine.Run Probe.faulty "hi" "s1").session.currentState
        ≠ (SessionState.blank Probe Nat).currentState := by
  decide

/-- C10, amended. After a Run call that fails, the session is in the registry
under the same key. If no `OnExit` has returned in the turn (the fault came
from a hook or callback of the guarded step, or from `OnExit`), then
`currentState` is what it was before the call when the session already had a
state, and it is the start state when the turn was the session's first. If the
last invocation of the turn is a method of a state, `currentState` is that
state. -/
theorem failing_turn_keeps_session (impl : State σ D F) (cm : ChatMachine σ D F)
    (input key : String) (p : PanicValue F)
    (hfail : (cm.Run impl input key).result = Result.panicked p) :
    (cm.Run impl input key).machine.sessions key = some (cm.Run impl input key).session
    ∧ (∀ s S, cm.sessions key = some s → s.currentState = some S →
        (∀ i ∈ (cm.Run impl input key).trace, ∀ st, i.site = Site.OnExit st → i.exit ≠ none) →
        (cm.Run impl input key).session.currentState = some S)
    ∧ ((cm.getSession key).1.currentState = none →
        (∀ i ∈ (cm.Run impl input key).trace, ∀ st, i.site = Site.OnExit st → i.exit ≠ none) →
        (cm.Run impl input key).session.currentState = cm.startState)
    ∧ (∀ pre i st, (cm.Run impl input key).trace = pre ++ [i] → i.site.state = some st →
        (cm.Run impl input key).session.currentState = some st) := by
  refine ⟨?_, ?_, ?_, ?_⟩
  · rcases hd : (dispatch impl cm input (cm.getSession key).1).panicking with _ | q
    · rw [Run_result_of_returned impl cm input key hd] at hfail
      cases hfail
    · rw [Run_eq, hd]
      exact store_same _ _ _
  · intro s S hs hS hno
    rw [Run_trace, getSession_fst_of_some hs] at hno
    rw [Run_session, getSession_fst_of_some hs, dispatch_currentState impl cm input s hno, hS]
  · intro hnone hno
    rw [Run_trace] at hno
    rw [Run_session, dispatch_currentState impl cm input _ hno, hnone]
  · intro pre i st htr hst
    rw [Run_trace] at htr
    rw [Run_session]
    exact dispatch_lastAtState impl cm input _ pre i st htr hst

/-- Witness for C10 amended: the failing first turn of the machine whose start
state panics in `OnEnter`. -/
theorem failing_turn_keeps_session_witness :
    (Probe.machine.Run Probe.faulty "hi" "s1").result
        = Result.panicked (PanicValue.fault "boom")
    ∧ (Probe.machine.Run Probe.faulty "hi" "s1").machine.sessions "s1"
        = some (Probe.machine.Run Probe.faulty "hi" "s1").session :=
  ⟨by decide,
    (failing_turn_keeps_session Probe.faulty Probe.machine "hi" "s1"
      (PanicValue.fault "boom") (by decide)).1⟩

/-- C12 on the code: the hook registered with `GlobalOnExit` is never invoked.
On the example machine with a global on-exit hook that appends `"exit hook"`,
the message `"next"` applies the transition from `HelloState` to `WorldState`:
`HelloState.OnExit` runs right after `HelloState.OnUpdate`, no invocation of
the turn is the global on-exit hook, and the output has no line of the
hook. -/
theorem GlobalOnExit_hook_is_never_invoked :
    Demo.farewellGreeted.globalOnExit (SessionState.blank Demo Unit)
        = [Call.AddOutput "exit hook"]
    ∧ (Demo.farewellGreeted.Run Demo.impl "next" "k").trace.map Invocation.site
        = [Site.globalOnUpdate, Site.OnUpdate Demo.HelloState, Site.OnExit Demo.HelloState,
           Site.globalOnEnter, Site.OnEnter Demo.WorldState]
    ∧ timesInvoked Site.globalOnExit (Demo.farewellGreeted.Run Demo.impl "next" "k").trace = 0
    ∧ (Demo.farewellGreeted.Run Demo.impl "next" "k").result
        = Result.returned "Exiting Hello State\nHello, World!\n" := by
  decide

/-- C11. In every turn, each invocation stands where the hook order allows
(`Invocation.hooked`, with `pre.getLast?` the invocation just before it): a
state's `OnEnter`, on a first turn and after a transition alike, comes right
after an invocation of the global on-enter hook that returned, and a state's
`OnUpdate` right after an invocation of the global on-update hook that
returned; the global on-update hook is only ever the first invocation of the
turn and the global on-enter hook is only ever the first invocation or the one
right after an `OnExit` that returned, so no hook runs after the callback it
goes with or anywhere else. -/
theorem hooks_run_right_before_callbacks (impl : State σ D F) (cm : ChatMachine σ D F)
    (input key : String) (pre post : List (Invocation σ D F)) (i : Invocation σ D F)
    (htr : (cm.Run impl input key).trace = pre ++ i :: post) :
    i.hooked pre.getLast? := by
  rw [Run_trace] at htr
  obtain ⟨ext, he, hshape⟩ := dispatch_trace impl cm input (cm.getSession key).1
  have hh := hookedFrom_of_shapes _ ext
    (guardedStep_shape impl cm ((cm.getSession key).1.beginTurn input)) hshape
  rw [← he] at hh
  have := hookedFrom_split _ pre post i none hh htr
  simpa using this

/-- Witness for C11: in the transition turn of the example machine,
`WorldState.OnEnter` comes right after the global on-enter hook. -/
theorem hooks_run_right_before_callbacks_witness :
    (Demo.greeted.Run Demo.impl "next" "k").trace
        = [⟨Site.globalOnUpdate, [], none⟩,
           ⟨Site.OnUpdate Demo.HelloState, [Call.ChangeState (some Demo.WorldState)],
             some PanicValue.ChangeState⟩,
           ⟨Site.OnExit Demo.HelloState, [Call.AddOutput "Exiting Hello State"], none⟩,
           ⟨Site.globalOnEnter, [], none⟩]
          ++ ⟨Site.OnEnter Demo.WorldState, [Call.AddOutput "Hello, World!", Call.End], none⟩
            :: []
    ∧ Invocation.hooked
        (some (⟨Site.globalOnEnter, [], none⟩ : Invocation Demo Unit String))
        (⟨Site.OnEnter Demo.WorldState, [Call.AddOutput "Hello, World!", Call.End], none⟩ :
          Invocation Demo Unit String) :=
  ⟨by decide,
   hooks_run_right_before_callbacks Demo.impl Demo.greeted "next" "k"
    [⟨Site.globalOnUpdate, [], none⟩,
     ⟨Site.OnUpdate Demo.HelloState, [Call.ChangeState (some Demo.WorldState)],
       some PanicValue.ChangeState⟩,
     ⟨Site.OnExit Demo.HelloState, [Call.AddOutput "Exiting Hello State"], none⟩,
     ⟨Site.globalOnEnter, [], none⟩]
    []
    ⟨Site.OnEnter Demo.WorldState, [Call.AddOutput "Hello, World!", Call.End], none⟩
    (by decide)⟩

/-- C19. For a session with current state `S`, let the callbacks behave as
follows on the sessions they are handed: the global on-update hook ends with
the `ChangeState` signal, the requested state being `T` (leaving `s1`);
`S.OnExit` returns and leaves the request as it is (leaving `s3`), as it does
whenever it acts through the methods of the session only; the global on-enter
hook, handed `s3` with the transition applied, returns (leaving `s4`); and
`T.OnEnter` returns (leaving `s5`). Then the invocations of the turn are
exactly the on-update hook, `S.OnExit`, the global on-enter hook and
`T.OnEnter`, in this order; `S.OnUpdate` (or any `OnUpdate`) is never invoked;
`Run` returns; and the session is left as `s5`, with current state `T`. -/
theorem hook_transition_preempts_update (impl : State σ D F) (cm : ChatMachine σ D F)
    (input key : String) (s s1 s3 s4 s5 : SessionState σ D) (S T : σ)
    (hs : cm.sessions key = some s) (hS : s.currentState = some S)
    (hH : runBody (cm.globalOnUpdate (s.beginTurn input)) (s.beginTurn input)
        = ⟨s1, some PanicValue.ChangeState⟩)
    (hT : s1.NextState = some T)
    (hX : runBody (impl.OnExit S s1) s1 = ⟨s3, none⟩) (hN : s3.NextState = s1.NextState)
    (hG : runBody (cm.globalOnEnter { s3 with currentState := some T, NextState := none })
        { s3 with currentState := some T, NextState := none } = ⟨s4, none⟩)
    (hE : runBody (impl.OnEnter T s4) s4 = ⟨s5, none⟩) :
    (cm.Run impl input key).trace
        = [⟨Site.globalOnUpdate, executed (cm.globalOnUpdate (s.beginTurn input)),
             some PanicValue.ChangeState⟩,
           ⟨Site.OnExit S, executed (impl.OnExit S s1), none⟩,
           ⟨Site.globalOnEnter,
             executed (cm.globalOnEnter { s3 with currentState := some T, NextState := none }),
             none⟩,
           ⟨Site.OnEnter T, executed (impl.OnEnter T s4), none⟩]
    ∧ (∀ i ∈ (cm.Run impl input key).trace, ∀ st, i.site ≠ Site.OnUpdate st)
    ∧ (cm.Run impl input key).result = Result.returned s5.Output
    ∧ (cm.Run impl input key).session = s5
    ∧ (cm.Run impl input key).session.currentState = some T := by
  have hS0 : (s.beginTurn input).currentState = some S := hS
  have hg := guardedStep_update_hook_eval impl cm hS0 hH
  have hc1 : s1.currentState = some S := by
    rw [runBody_currentState_of_eq hH]; exact hS0
  have hd := dispatch_transition_eval impl cm input s hg hc1 hX (hN.trans hT) hG hE
  obtain ⟨htr, hres, hses, _⟩ :=
    Run_of_dispatch impl cm input key (by rw [getSession_fst_of_some hs]; exact hd)
  refine ⟨htr, ?_, hres, hses, ?_⟩
  · intro i hi st
    rw [htr] at hi
    simp only [List.cons_append, List.nil_append, List.mem_cons, List.mem_singleton,
      List.not_mem_nil, or_false] at hi
    rcases hi with hi | hi | hi | hi <;> rw [hi] <;> simp
  · rw [hses, runBody_currentState_of_eq hE, runBody_currentState_of_eq hG]

/-- Witness for C19: the message `"skip"` to the example machine whose global
on-update hook requests `WorldState`. -/
theorem hook_transition_preempts_update_witness :
    (Demo.skippingGreeted.Run Demo.impl "skip" "k").trace
        = [⟨Site.globalOnUpdate, [Call.ChangeState (some Demo.WorldState)],
             some PanicValue.ChangeState⟩,
           ⟨Site.OnExit Demo.HelloState, [Call.AddOutput "Exiting Hello State"], none⟩,
           ⟨Site.globalOnEnter, [], none⟩,
           ⟨Site.OnEnter Demo.WorldState, [Call.AddOutput "Hello, World!", Call.End], none⟩]
    ∧ (Demo.skippingGreeted.Run Demo.impl "skip" "k").session.currentState
        = some Demo.WorldState :=
  have h := hook_transition_preempts_update Demo.impl Demo.skippingGreeted "skip" "k"
    { Input := "hi", Output := "Entered Hello State\n", NextState := none, Data := none,
      endSession := false, currentState := some Demo.HelloState }
    { Input := "skip", Output := "", NextState := some Demo.WorldState, Data := none,
      endSession := false, currentState := some Demo.HelloState }
    { Input := "skip", Output := "Exiting Hello State\n", NextState := some Demo.WorldState,
      Data := none, endSession := false, currentState := some Demo.HelloState }
    { Input := "skip", Output := "Exiting Hello State\n", NextState := none,
      Data := none, endSession := false, currentState := some Demo.WorldState }
    { Input := "skip", Output := "Exiting Hello State\nHello, World!\n", NextState := none,
      Data := none, endSession := true, currentState := some Demo.WorldState }
    Demo.HelloState Demo.WorldState
    (by decide) (by decide) (by decide) (by decide) (by decide) (by decide) (by decide)
    (by decide)
  ⟨h.1, h.2.2.2.2⟩

/-- C17, as stated, fails on the output: the global on-enter hook also runs
before the start state's `OnEnter`, and what it appends there comes first. On
the machine with start state `A` of `Probe.hop` and a global on-enter hook that
appends `"log"`, the first turn of `"s1"` invokes the hook, `A.OnEnter` (which
calls `ChangeState(B)`), `A.OnExit`, the hook again and `B.OnEnter`, and
returns `"log\nA-enter\nA-exit\nlog\nB-enter\n"`, not the concatenation of
what `A.OnEnter`, `A.OnExit`, the hook and `B.OnEnter` appended. -/
theorem first_hook_output_precedes_start_state_output :
    Probe.logged.sessions "s1" = none
    ∧ (Probe.logged.Run Probe.hop "hi" "s1").trace
        = [⟨Site.globalOnEnter, [Call.AddOutput "log"], none⟩,
           ⟨Site.OnEnter Probe.A, [Call.AddOutput "A-enter", Call.ChangeState (some Probe.B)],
             some PanicValue.ChangeState⟩,
           ⟨Site.OnExit Probe.A, [Call.AddOutput "A-exit"], none⟩,
           ⟨Site.globalOnEnter, [Call.AddOutput "log"], none⟩,
           ⟨Site.OnEnter Probe.B, [Call.AddOutput "B-enter"], none⟩]
    ∧ (Probe.logged.Run Probe.hop "hi" "s1").result
        = Result.returned "log\nA-enter\nA-exit\nlog\nB-enter\n"
    ∧ (Probe.logged.Run Probe.hop "hi" "s1").result
        ≠ Result.returned
            (appended [(Call.AddOutput "A-enter" : Call Probe Nat String)]
              ++ appended [(Call.AddOutput "A-exit" : Call Probe Nat String)]
              ++ appended [(Call.AddOutput "log" : Call Probe Nat String)]
              ++ appended [(Call.AddOutput "B-enter" : Call Probe Nat String)]) := by
  decide

/-- C17, amended. For a key that is not in the registry and a machine with
start state `A`, let the callbacks behave as follows on the sessions they are
handed: the global on-enter hook, handed the blank session with the input and
the start state set, returns (leaving `s1`); `A.OnEnter` ends with the
`ChangeState` signal, the requested state being `T` (leaving `s2`); `A.OnExit`
returns and leaves the request as it is (leaving `s3`), as it does whenever it
acts through the methods of the session only; the global on-enter hook, handed
`s3` with the transition applied, returns (leaving `s4`); and `T.OnEnter`
returns (leaving `s5`). Then the invocations of the turn are exactly the global
on-enter hook, `A.OnEnter`, `A.OnExit`, the global on-enter
hook again and `T.OnEnter`, in this order; `Run` returns the buffer of `s5`;
the session is left as `s5`, with current state `T`; when no call of the turn
assigns `Output` directly, the output is the concatenation of the lines these
five invocations appended, in this order; and `NextState` is nil unless the
second hook invocation or `T.OnEnter` assigns it directly. -/
theorem first_turn_transition (impl : State σ D F) (cm : ChatMachine σ D F)
    (input key : String) (s1 s2 s3 s4 s5 : SessionState σ D) (A T : σ)
    (hfresh : cm.sessions key = none) (hstart : cm.startState = some A)
    (hH : runBody
        (cm.globalOnEnter { Input := input, Output := "", NextState := none, Data := none,
                            endSession := false, currentState := some A })
        { Input := input, Output := "", NextState := none, Data := none,
          endSession := false, currentState := some A } = ⟨s1, none⟩)
    (hU : runBody (impl.OnEnter A s1) s1 = ⟨s2, some PanicValue.ChangeState⟩)
    (hT : s2.NextState = some T)
    (hX : runBody (impl.OnExit A s2) s2 = ⟨s3, none⟩) (hN : s3.NextState = s2.NextState)
    (hG : runBody (cm.globalOnEnter { s3 with currentState := some T, NextState := none })
        { s3 with currentState := some T, NextState := none } = ⟨s4, none⟩)
    (hE : runBody (impl.OnEnter T s4) s4 = ⟨s5, none⟩) :
    (cm.Run impl input key).trace
        = [⟨Site.globalOnEnter,
             executed (cm.globalOnEnter { Input := input, Output := "", NextState := none,
                                          Data := none, endSession := false,
                                          currentState := some A }), none⟩,
           ⟨Site.OnEnter A, executed (impl.OnEnter A s1), some PanicValue.ChangeState⟩,
           ⟨Site.OnExit A, executed (impl.OnExit A s2), none⟩,
           ⟨Site.globalOnEnter,
             executed (cm.globalOnEnter { s3 with currentState := some T, NextState := none }),
             none⟩,
           ⟨Site.OnEnter T, executed (impl.OnEnter T s4), none⟩]
    ∧ (cm.Run impl input key).result = Result.returned s5.Output
    ∧ (cm.Run impl input key).session = s5
    ∧ (cm.Run impl input key).session.currentState = some T
    ∧ ((∀ c ∈ allCalls (cm.Run impl input key).trace, ∀ v, c ≠ Call.setOutput v) →
        s5.Output
          = appended (executed (cm.globalOnEnter
                { Input := input, Output := "", NextState := none, Data := none,
                  endSession := false, currentState := some A }))
            ++ appended (executed (impl.OnEnter A s1))
            ++ appended (executed (impl.OnExit A s2))
            ++ appended (executed
                (cm.globalOnEnter { s3 with currentState := some T, NextState := none }))
            ++ appended (executed (impl.OnEnter T s4)))
    ∧ ((∀ v, Call.setNextState v ∉
          executed (cm.globalOnEnter { s3 with currentState := some T, NextState := none })
            ++ executed (impl.OnEnter T s4)) →
        (cm.Run impl input key).session.NextState = none) := by
  have hblank : (cm.getSession key).1 = SessionState.blank σ D := getSession_fst_of_none hfresh
  have h0 : ((SessionState.blank σ D).beginTurn input).currentState = none := rfl
  have hg := guardedStep_first_eval impl cm h0 hstart hH hU
  have hc2 : s2.currentState = some A := by
    rw [runBody_currentState_of_eq hU, runBody_currentState_of_eq hH]
  have hd := dispatch_transition_eval impl cm input (SessionState.blank σ D) hg hc2 hX
    (hN.trans hT) hG hE
  obtain ⟨htr, hres, hses, hout⟩ :=
    Run_of_dispatch impl cm input key (by rw [hblank]; exact hd)
  refine ⟨htr, hres, hses, ?_, ?_, ?_⟩
  · rw [hses, runBody_currentState_of_eq hE, runBody_currentState_of_eq hG]
  · intro hno
    rw [htr] at hno
    rw [hout, written_eq_appended _ _ hno]
    simp only [allCalls, List.cons_append, List.nil_append, List.flatMap_cons, List.flatMap_nil,
      List.append_nil, appended_append, String.append_assoc]
    exact String.empty_append _
  · intro hno
    have h5 := runBody_NextState_of_returned (impl.OnEnter T s4) s4 (by rw [hE])
      (fun v hv => hno v (List.mem_append_right _ hv))
    have h4 := runBody_NextState_of_returned
      (cm.globalOnEnter { s3 with currentState := some T, NextState := none })
      { s3 with currentState := some T, NextState := none } (by rw [hG])
      (fun v hv => hno v (List.mem_append_left _ hv))
    rw [hE] at h5
    rw [hG] at h4
    rw [hses]
    exact h5.trans h4

/-- Witness for C17 amended: the first turn of the machine with the logging
hook and the start state that hands over to `B`. -/
theorem first_turn_transition_witness :
    (Probe.logged.Run Probe.hop "hi" "s1").result
        = Result.returned "log\nA-enter\nA-exit\nlog\nB-enter\n"
    ∧ (Probe.logged.Run Probe.hop "hi" "s1").session.currentState = some Probe.B :=
  have h := first_turn_transition Probe.hop Probe.logged "hi" "s1"
    { Input := "hi", Output := "log\n", NextState := none, Data := none,
      endSession := false, currentState := some Probe.A }
    { Input := "hi", Output := "log\nA-enter\n", NextState := some Probe.B, Data := none,
      endSession := false, currentState := some Probe.A }
    { Input := "hi", Output := "log\nA-enter\nA-exit\n", NextState := some Probe.B,
      Data := none, endSession := false, currentState := some Probe.A }
    { Input := "hi", Output := "log\nA-enter\nA-exit\nlog\n", NextState := none,
      Data := none, endSession := false, currentState := some Probe.B }
    { Input := "hi", Output := "log\nA-enter\nA-exit\nlog\nB-enter\n", NextState := none,
      Data := none, endSession := false, currentState := some Probe.B }
    Probe.A Probe.B
    (by decide) (by decide) (by decide) (by decide) (by decide) (by decide) (by decide)
    (by decide) (by decide)
  ⟨h.2.1, h.2.2.2.1⟩

/-- C13, as stated, fails for a turn that does not return: a callback that
calls `End()` and then raises a fault leaves the session in the registry. On
the machine of `Probe.lateFault` the message `"quit"` makes `A.OnUpdate` append
`"bye"`, call `End()` and panic with `"boom"`; no transition is requested, `Run`
panics, and `"s1"` is still registered, its termination flag set. -/
theorem End_then_fault_keeps_session :
    (Probe.lateStarted.Run Probe.lateFault "quit" "s1").trace
        = [⟨Site.globalOnUpdate, [], none⟩,
           ⟨Site.OnUpdate Probe.A,
             [Call.AddOutput "bye", Call.End, Call.panic (PanicValue.fault "boom")],
             some (PanicValue.fault "boom")⟩]
    ∧ (Probe.lateStarted.Run Probe.lateFault "quit" "s1").result
        = Result.panicked (PanicValue.fault "boom")
    ∧ ((Probe.lateStarted.Run Probe.lateFault "quit" "s1").machine.sessions "s1").map
        SessionState.endSession = some true := by
  decide

/-- C13, amended. `End()` sets the termination flag, leaves the other fields
and does not stop the callback: the calls after it run on the flagged session.
For a turn in which a callback reaches `End()` (its calls being `a`, then
`End()`, then `b`) and no invocation ends with the `ChangeState` signal: the
calls `b` after `End()` are among the calls of the turn, the buffer holds what
all these calls wrote, which is the concatenation of the appended lines, those
of `b` included, when no call assigns `Output` directly; no `OnExit` is
invoked; the termination flag is set when the turn ends; if `Run` returns, it
returns that buffer and the key is no longer in the registry; and if `Run`
panics, the key is still bound to the session, flag set. -/
theorem End_does_not_stop_callback (impl : State σ D F) (cm : ChatMachine σ D F)
    (input key : String) (i : Invocation σ D F) (a b : List (Call σ D F))
    (hi : i ∈ (cm.Run impl input key).trace) (hcalls : i.calls = a ++ Call.End :: b)
    (hno : ∀ j ∈ (cm.Run impl input key).trace, j.exit ≠ some PanicValue.ChangeState) :
    (∀ (s : SessionState σ D) (rest : List (Call σ D F)),
        runBody (Call.End :: rest) s = runBody rest s.End
        ∧ s.End.endSession = true ∧ s.End.Input = s.Input ∧ s.End.Output = s.Output
        ∧ s.End.NextState = s.NextState ∧ s.End.Data = s.Data
        ∧ s.End.currentState = s.currentState)
    ∧ (∃ before after : List (Call σ D F),
        allCalls (cm.Run impl input key).trace = before ++ (a ++ Call.End :: b) ++ after
        ∧ (cm.Run impl input key).session.Output
            = written (before ++ (a ++ Call.End :: b) ++ after) ""
        ∧ ((∀ c ∈ before ++ (a ++ Call.End :: b) ++ after, ∀ v, c ≠ Call.setOutput v) →
            (cm.Run impl input key).session.Output
              = appended before ++ appended a ++ appended b ++ appended after))
    ∧ (∀ j ∈ (cm.Run impl input key).trace, ∀ st, j.site ≠ Site.OnExit st)
    ∧ (cm.Run impl input key).session.endSession = true
    ∧ (∀ out, (cm.Run impl input key).result = Result.returned out →
        out = (cm.Run impl input key).session.Output
        ∧ (cm.Run impl input key).machine.sessions key = none)
    ∧ (∀ p, (cm.Run impl input key).result = Result.panicked p →
        (cm.Run impl input key).machine.sessions key
          = some (cm.Run impl input key).session) := by
  have hinv := dispatch_logged_ended impl cm input (cm.getSession key).1
  rw [Run_trace] at hi hno
  have hflag : (dispatch impl cm input (cm.getSession key).1).session.endSession = true :=
    hinv.2 ⟨i, hi, by rw [hcalls]; simp⟩
  refine ⟨fun _ _ => ⟨rfl, rfl, rfl, rfl, rfl, rfl, rfl⟩, ?_, ?_, ?_, ?_, ?_⟩
  · obtain ⟨before, after, hall⟩ := allCalls_of_mem _ i hi
    rw [hcalls] at hall
    refine ⟨before, after, by rw [Run_trace]; exact hall, ?_, ?_⟩
    · rw [Run_session, ← hall]; exact hinv.1
    · intro hw
      rw [Run_session, hinv.1, hall, written_eq_appended _ _ hw]
      simp only [appended_append, String.append_assoc]
      rw [String.empty_append]
      rfl
  · intro j hj st hsite
    rw [Run_trace, dispatch_of_no_request impl cm input _ hno] at hj
    rcases guardedStep_shape impl cm ((cm.getSession key).1.beginTurn input) with
      ⟨h, hg, hh⟩ | ⟨h, m, hg, _, hm⟩
    · rw [hg, List.mem_singleton] at hj
      subst hj
      rcases hh with hh | hh <;> rw [hh] at hsite <;> cases hsite
    · rw [hg] at hj
      simp only [List.mem_cons, List.mem_singleton, List.not_mem_nil, or_false] at hj
      rcases hj with hj | hj <;> subst hj
      · rcases hm with ⟨hh, _⟩ | ⟨hh, _⟩ <;> rw [hh] at hsite <;> cases hsite
      · rcases hm with ⟨_, A, hA⟩ | ⟨_, S, hS⟩
        · rw [hA] at hsite; cases hsite
        · rw [hS] at hsite; cases hsite
  · rw [Run_session]; exact hflag
  · intro out hret
    rcases hp : (dispatch impl cm input (cm.getSession key).1).panicking with _ | p
    · rw [Run_result_of_returned impl cm input key hp] at hret
      cases hret
      refine ⟨by rw [Run_session], ?_⟩
      rw [Run_eq, hp]
      simp only [hflag, if_true]
      exact delete_same _ _
    · rw [Run_result_of_panicking impl cm input key hp] at hret
      cases hret
  · intro p hpan
    rcases hp : (dispatch impl cm input (cm.getSession key).1).panicking with _ | q
    · rw [Run_result_of_returned impl cm input key hp] at hpan
      cases hpan
    · rw [Run_session, Run_eq, hp]
      exact store_same _ _ _

/-- Witness for C13 amended: the first turn of a machine whose start state
calls `End()` and then appends `"last words"`. -/
theorem End_does_not_stop_callback_witness :
    (Probe.machine.Run Probe.lastWords "hi" "s1").result = Result.returned "last words\n"
    ∧ (Probe.machine.Run Probe.lastWords "hi" "s1").machine.sessions "s1" = none :=
  ⟨by decide,
    ((End_does_not_stop_callback Probe.lastWords Probe.machine "hi" "s1"
      ⟨Site.OnEnter Probe.A, [Call.End, Call.AddOutput "last words"], none⟩
      [] [Call.AddOutput "last words"]
      (by decide) rfl (by decide)).2.2.2.2.1 "last words\n" (by decide)).2⟩

/-- C18, as stated, fails in its last part: whether the key stays depends on
the termination flag at the end of a returning turn, not on what this turn
requested. After the failed message `"quit"` of `Probe.lateFault`, which called
`End()` and then panicked, the session is still registered with its flag set;
the next message `"hello"` calls no `End()`, returns `"still here\n"`, and the
key is absent afterwards. -/
theorem leftover_flag_removes_session :
    (Probe.lateFailed.sessions "s1").map SessionState.endSession = some true
    ∧ (Probe.lateFailed.Run Probe.lateFault "hello" "s1").trace
        = [⟨Site.globalOnUpdate, [], none⟩,
           ⟨Site.OnUpdate Probe.A, [Call.AddOutput "still here"], none⟩]
    ∧ (Probe.lateFailed.Run Probe.lateFault "hello" "s1").result
        = Result.returned "still here\n"
    ∧ (Probe.lateFailed.Run Probe.lateFault "hello" "s1").machine.sessions "s1" = none := by
  decide

/-- C18, amended. `Run(input, k)` leaves the registry entry of every key other
than `k` as it was and leaves the start state and the three hooks unchanged.
Afterwards `k` is absent exactly when the turn returned with the session's
termination flag set, and is bound to the session object otherwise (also when
`Run` panics); the flag is set at the end of the turn exactly when it was set
before the turn or a callback of the turn called `End()`. -/
theorem Run_changes_only_its_key (impl : State σ D F) (cm : ChatMachine σ D F)
    (input key : String) :
    (∀ k, k ≠ key → (cm.Run impl input key).machine.sessions k = cm.sessions k)
    ∧ (cm.Run impl input key).machine.startState = cm.startState
    ∧ (cm.Run impl input key).machine.globalOnEnter = cm.globalOnEnter
    ∧ (cm.Run impl input key).machine.globalOnUpdate = cm.globalOnUpdate
    ∧ (cm.Run impl input key).machine.globalOnExit = cm.globalOnExit
    ∧ ((cm.Run impl input key).machine.sessions key = none ↔
        (∃ out, (cm.Run impl input key).result = Result.returned out)
          ∧ (cm.Run impl input key).session.endSession = true)
    ∧ ((cm.Run impl input key).machine.sessions key = none
        ∨ (cm.Run impl input key).machine.sessions key = some (cm.Run impl input key).session)
    ∧ ((cm.Run impl input key).session.endSession = true ↔
        (cm.getSession key).1.endSession = true
          ∨ ∃ i ∈ (cm.Run impl input key).trace, Call.End ∈ i.calls) := by
  have hmach := Run_machine impl cm input key
  refine ⟨?_, by rw [hmach], by rw [hmach], by rw [hmach], by rw [hmach], ?_, ?_, ?_⟩
  · intro k hk
    rw [Run_eq]
    split
    · simp only [store, hk, if_false]
      exact getSession_snd_of_ne cm key k hk
    · simp only
      split
      · simp only [delete, hk, if_false]
        exact getSession_snd_of_ne cm key k hk
      · simp only [store, hk, if_false]
        exact getSession_snd_of_ne cm key k hk
  · rw [Run_session]
    rcases hp : (dispatch impl cm input (cm.getSession key).1).panicking with _ | p
    · rw [Run_result_of_returned impl cm input key hp, Run_eq, hp]
      simp only
      by_cases hflag : (dispatch impl cm input (cm.getSession key).1).session.endSession = true
      · simp [hflag, delete]
      · simp [hflag, store]
    · rw [Run_result_of_panicking impl cm input key hp, Run_eq, hp]
      simp [store]
  · rw [Run_session, Run_eq]
    split
    · right; exact store_same _ _ _
    · simp only
      split
      · left; exact delete_same _ _
      · right; exact store_same _ _ _
  · rw [Run_session, Run_trace]
    constructor
    · exact dispatch_endSession_origin impl cm input _
    · rintro (h | h)
      · have h0 : ((cm.getSession key).1.beginTurn input).endSession = true := h
        revert h0
        have := dispatch_induction impl cm input (cm.getSession key).1
          (fun fr => ((cm.getSession key).1.beginTurn input).endSession = true →
            fr.session.endSession = true)
          (fun c h => h)
          (fun fr site body _ _ ih h => runBody_endSession body fr.session (Or.inl (ih h)))
          (fun fr _ _ ih h => ih h) (fun fr _ ih h => ih h) (fun fr _ ih h => ih h)
        exact this
      · exact (dispatch_logged_ended impl cm input _).2 h

/-- C15. The buffer is reset when a turn starts and returned as it stands
when the turn ends. Two registries that hold under the key sessions differing
only in `Output` give the same result (and the same session and invocations);
when `Run` returns, it returns the session's `Output` as the last callback left
it, which is what the calls of the turn wrote starting from the empty buffer;
and when no call of the turn writes to the buffer (no `AddOutput`, no
assignment of `Output`), `Run` returns the empty string. -/
theorem output_buffer_is_per_turn (impl : State σ D F) (cm : ChatMachine σ D F)
    (input key : String) (reg : String → Option (SessionState σ D)) (s : SessionState σ D)
    (o : String) :
    (({ cm with sessions := store reg key s }.Run impl input key).result
        = ({ cm with sessions := store reg key { s with Output := o } }.Run impl input
            key).result)
    ∧ (∀ out, (cm.Run impl input key).result = Result.returned out →
        out = (cm.Run impl input key).session.Output
        ∧ out = written (allCalls (cm.Run impl input key).trace) ""
        ∧ ((∀ c ∈ allCalls (cm.Run impl input key).trace,
              (∀ t, c ≠ Call.AddOutput t) ∧ ∀ v, c ≠ Call.setOutput v) → out = "")) := by
  refine ⟨(Run_forgets_Output impl cm input key reg s o).1, ?_⟩
  intro out hret
  have hlog := (dispatch_logged_ended impl cm input (cm.getSession key).1).1
  rcases hp : (dispatch impl cm input (cm.getSession key).1).panicking with _ | p
  swap
  · rw [Run_result_of_panicking impl cm input key hp] at hret
    cases hret
  rw [Run_result_of_returned impl cm input key hp] at hret
  cases hret
  rw [Run_session, Run_trace]
  refine ⟨rfl, hlog, ?_⟩
  intro hno
  rw [hlog]
  exact written_of_no_write _ _ hno

/-- C16. Starting from `NewChatMachine` with a non-nil start state, after any
registration of hooks and any sequence of `Run` calls that each return, where
every `OnEnter`, every `OnUpdate` and the global on-enter and on-update hooks
change the session only through `AddOutput`, `ChangeState` with a non-nil
state, `End` and the `Data` slot: every session in the registry has a non-nil
`currentState`, a nil `NextState` and a false termination flag. -/
theorem registry_invariant (impl : State σ D F) (cm : ChatMachine σ D F)
    (hEnter : ∀ st, viaAPI (impl.OnEnter st)) (hUpdate : ∀ st, viaAPI (impl.OnUpdate st))
    (hr : Reachable impl cm) :
    ∀ key s, cm.sessions key = some s →
      s.currentState ≠ none ∧ s.NextState = none ∧ s.endSession = false := by
  have hall : viaAPI cm.globalOnEnter ∧ viaAPI cm.globalOnUpdate ∧ RegistryClean cm := by
    induction hr with
    | new A =>
      refine ⟨?_, ?_, ?_⟩
      · intro s c hc; cases hc
      · intro s c hc; cases hc
      · intro key s hs; cases hs
    | hookEnter cm fn _ hfn ih => exact ⟨hfn, ih.2.1, ih.2.2⟩
    | hookUpdate cm fn _ hfn ih => exact ⟨ih.1, hfn, ih.2.2⟩
    | hookExit cm fn _ ih => exact ih
    | run cm input key out _ hret ih =>
      have hm := Run_machine impl cm input key
      refine ⟨by rw [hm]; exact ih.1, by rw [hm]; exact ih.2.1, ?_⟩
      exact Run_keeps_registry_clean impl cm input key out hEnter hUpdate ih.1 ih.2.1 ih.2.2
        hret
  exact hall.2.2

/-- Witness for C16: the example machine after the first message of `"k"`. -/
theorem registry_invariant_witness :
    Demo.greeted.sessions "k" = some Demo.greetedSession
    ∧ Demo.greetedSession.currentState ≠ none
    ∧ Demo.greetedSession.NextState = none
    ∧ Demo.greetedSession.endSession = false :=
  ⟨by decide,
   registry_invariant Demo.impl Demo.greeted
    (by
      intro st s c hc
      cases st
      · simp [Demo.impl] at hc; subst hc; rfl
      · simp [Demo.impl] at hc; rcases hc with hc | hc <;> subst hc <;> rfl)
    (by
      intro st s c hc
      cases st
      · simp only [Demo.impl] at hc
        split at hc
        · simp at hc; subst hc; rfl
        · simp at hc; subst hc; rfl
      · simp [Demo.impl] at hc)
    (Reachable.run _ "hi" "k" "Entered Hello State\n" (Reachable.new Demo.HelloState)
      (by decide))
    "k" Demo.greetedSession (by decide)⟩

/-- C14. For a machine with start state `A` whose `A.OnEnter` appends
`"A-enter"`, whose `A.OnUpdate` calls `ChangeState(B)` when the input is
`"go"`, whose `A.OnExit` does nothing and whose `B.OnEnter` appends `"B-enter"`
and calls `End()`, starting from the empty registry of `NewChatMachine`:
`Run("anything","s1")` returns `"A-enter\n"`; then `Run("go","s1")` returns
`"B-enter\n"` and afterwards `"s1"` is absent from the registry; then
`Run("x","s1")` returns `"A-enter\n"` again. -/
theorem scenario_two_states (impl : State σ D F) (A B : σ)
    (hAenter : ∀ s, impl.OnEnter A s = [Call.AddOutput "A-enter"])
    (hAupdate : ∀ s, s.Input = "go" → impl.OnUpdate A s = [Call.ChangeState (some B)])
    (hAexit : ∀ s, impl.OnExit A s = [])
    (hBenter : ∀ s, impl.OnEnter B s = [Call.AddOutput "B-enter", Call.End]) :
    ((NewChatMachine (some A) : ChatMachine σ D F).Run impl "anything" "s1").result
      = Result.returned "A-enter\n"
    ∧ (((NewChatMachine (some A) : ChatMachine σ D F).next impl "anything" "s1").Run impl
        "go" "s1").result = Result.returned "B-enter\n"
    ∧ (((NewChatMachine (some A) : ChatMachine σ D F).next impl "anything" "s1").next impl
        "go" "s1").sessions "s1" = none
    ∧ ((((NewChatMachine (some A) : ChatMachine σ D F).next impl "anything" "s1").next impl
        "go" "s1").Run impl "x" "s1").result = Result.returned "A-enter\n" := by
  have t1 : TrimSpace "A-enter" ++ "\n" = "A-enter\n" := by decide
  have t2 : TrimSpace "B-enter" ++ "\n" = "B-enter\n" := by decide
  simp [ChatMachine.next, ChatMachine.Run, ChatMachine.getSession, NewChatMachine, dispatch,
    guardedStep, transition, recoverChangeState, Frame.invoke, Frame.invokeMethod, Frame.assign,
    Frame.start, SessionState.blank, SessionState.beginTurn, hAenter, hAupdate, hAexit, hBenter,
    runBody, Call.run, SessionState.AddOutput, SessionState.ChangeState, SessionState.End,
    executed, Call.unwinds, store, delete, t1, t2]

/-- Witness for C14: the two-state conversation `Probe.scenario` started at
`A`. -/
theorem scenario_two_states_witness :
    ((NewChatMachine (some Probe.A) : ChatMachine Probe Nat String).Run Probe.scenario
        "anything" "s1").result = Result.returned "A-enter\n"
    ∧ (((NewChatMachine (some Probe.A) : ChatMachine Probe Nat String).next Probe.scenario
        "anything" "s1").Run Probe.scenario "go" "s1").result = Result.returned "B-enter\n"
    ∧ (((NewChatMachine (some Probe.A) : ChatMachine Probe Nat String).next Probe.scenario
        "anything" "s1").next Probe.scenario "go" "s1").sessions "s1" = none
    ∧ ((((NewChatMachine (some Probe.A) : ChatMachine Probe Nat String).next Probe.scenario
        "anything" "s1").next Probe.scenario "go" "s1").Run Probe.scenario "x" "s1").result
        = Result.returned "A-enter\n" :=
  scenario_two_states Probe.scenario Probe.A Probe.B (fun _ => rfl)
    (fun s hs => by simp [Probe.scenario, hs]) (fun _ => rfl) (fun _ => rfl)

end chatmachine
